import Mathlib

/-!
# Strided elementwise map kernels of `owl_dense_common_vec_map.c`

A shallow embedding of the kernels `FUN3` .. `FUN20`.

* A buffer (`X_data`, `Y_data`, `Z_data`) is a `List`; a pointer into it is the
  integer element index relative to the buffer's base, so `X_data` itself is
  position `0` and pointer arithmetic is exact integer arithmetic.
* Dereferencing a position outside `[0, length)` is undefined behaviour in C and
  is the outcome `fault` here.
* Buffers handed to one call are distinct objects (no aliasing).
* Every loop of the source is run by `whileFuel`; `timeout` is the outcome of a
  loop whose condition is still true when the fuel is spent.
* The macros `MAPFN`, `MAPFN1`, `MAPFN2`, `MAPFN3` and `INIT` are not part of the
  file; they are parameters of the kernels.
* The runtime lock and the slot invocations are recorded in an event log.
* A host integer becomes a C `int` by `Int_val` (reduction modulo `2^32`); the
  `int` counter of the `i <= N` loops is incremented modulo `2^32` as well.
* Floating-point values that are compared (the base of `FUN13`) are exact
  rationals; `round_to_bits` rounds a decimal literal to a binary format.
-/

namespace Owl

/-- Outcome of running a piece of the program on a state. -/
inductive Outcome (σ : Type) where
  /-- Control reached the end with state `s`. -/
  | ok (s : σ)
  /-- An element outside its buffer was dereferenced. -/
  | fault
  /-- A loop condition was still true when the fuel ran out. -/
  | timeout
deriving DecidableEq, Repr

/-- Sequencing of outcomes. -/
def Outcome.bind {σ τ : Type} : Outcome σ → (σ → Outcome τ) → Outcome τ
  | .ok s, k => k s
  | .fault, _ => .fault
  | .timeout, _ => .timeout

/-- Observable events of a kernel call. -/
inductive Event where
  /-- The call `caml_enter_blocking_section()`: the runtime lock is released. -/
  | release
  /-- The call `caml_leave_blocking_section()`: the runtime lock is taken again. -/
  | acquire
  /-- One invocation of an operation slot, with the buffer positions it is given
  (one position per buffer walked, in the order X, Y, Z). -/
  | call (pos : List Int)
deriving DecidableEq, Repr

/-- Program state during a kernel call: the buffers and the event log. -/
structure St (μ : Type) where
  mem : μ
  log : List Event
deriving DecidableEq, Repr

/-- The conversion done by `int N = Long_val(vN)` on an LP64 host: the host
integer is reduced to a 32-bit two's-complement `int`. -/
def Int_val (v : Int) : Int := (v + 2147483648) % 4294967296 - 2147483648

/-- The call `caml_enter_blocking_section()`. -/
def caml_enter_blocking_section {μ : Type} (st : St μ) : St μ :=
  { st with log := st.log ++ [Event.release] }

/-- The call `caml_leave_blocking_section()`. -/
def caml_leave_blocking_section {μ : Type} (st : St μ) : St μ :=
  { st with log := st.log ++ [Event.acquire] }

/-- The read `*p` of the element at position `p` of buffer `X`. -/
def rd {α : Type} (X : List α) (p : Int) : Option α :=
  if 0 ≤ p then X[p.toNat]? else none

/-- The write `*p = v` at position `p` of buffer `X`. -/
def wr {α : Type} (X : List α) (p : Int) (v : α) : Option (List α) :=
  if 0 ≤ p ∧ p.toNat < X.length then some (X.set p.toNat v) else none

/-- A loop `while (cond) body` (also `for (init; cond; incr) body`, with `incr`
made the last step of `body`), run with at most `fuel` iterations. -/
def whileFuel {σ : Type} (cond : σ → Bool) (body : σ → Outcome σ) : Nat → σ → Outcome σ
  | 0, s => if cond s then .timeout else .ok s
  | fuel + 1, s => if cond s then (body s).bind (whileFuel cond body fuel) else .ok s

/-- One expansion of a slot macro applied to a value read from `*px`, the result
being stored back to `*px` (`*start_x = MAPFN(x)`, `MAPFN(*X_data)`,
`MAPFN(X_data)`, `MAPFN(start_x)`). -/
def invoke1 {α : Type} (f : α → α) (px : Int) (st : St (List α)) : Outcome (St (List α)) :=
  match rd st.mem px with
  | none => .fault
  | some x =>
    match wr st.mem px (f x) with
    | none => .fault
    | some X => .ok ⟨X, st.log ++ [Event.call [px]]⟩

/-- One step `x = *start_x; *start_y = MAPFN(x)` of `FUN4`. -/
def invoke12 {α β : Type} (f : α → β) (px py : Int) (st : St (List α × List β)) :
    Outcome (St (List α × List β)) :=
  match rd st.mem.1 px with
  | none => .fault
  | some x =>
    match wr st.mem.2 py (f x) with
    | none => .fault
    | some Y => .ok ⟨(st.mem.1, Y), st.log ++ [Event.call [px, py]]⟩

/-- One expansion `MAPFN(px, py)` of a slot that is handed two positions: it may
read and write `*px` and `*py`. -/
def invoke2 {α β : Type} (f : α → β → α × β) (px py : Int) (st : St (List α × List β)) :
    Outcome (St (List α × List β)) :=
  match rd st.mem.1 px, rd st.mem.2 py with
  | some x, some y =>
    match wr st.mem.1 px (f x y).1, wr st.mem.2 py (f x y).2 with
    | some X, some Y => .ok ⟨(X, Y), st.log ++ [Event.call [px, py]]⟩
    | _, _ => .fault
  | _, _ => .fault

/-- One expansion `MAPFN(px, py, pz)` of a slot that is handed three positions. -/
def invoke3 {α β γ : Type} (f : α → β → γ → α × β × γ) (px py pz : Int)
    (st : St (List α × List β × List γ)) : Outcome (St (List α × List β × List γ)) :=
  match rd st.mem.1 px, rd st.mem.2.1 py, rd st.mem.2.2 pz with
  | some x, some y, some z =>
    match wr st.mem.1 px (f x y z).1, wr st.mem.2.1 py (f x y z).2.1,
        wr st.mem.2.2 pz (f x y z).2.2 with
    | some X, some Y, some Z => .ok ⟨(X, Y, Z), st.log ++ [Event.call [px, py, pz]]⟩
    | _, _, _ => .fault
  | _, _, _ => .fault

/-- Kernel `FUN3`: in-place map of the first `N` elements of `X`.
Loop state: `(start_x, st)`. -/
def FUN3 {α : Type} (MAPFN : α → α) (fuel : Nat) (vN : Int) (vX : List α) :
    Outcome (St (List α)) :=
  let N := Int_val vN
  let X_data : Int := 0
  let st := caml_enter_blocking_section ⟨vX, []⟩
  let start_x := X_data
  let stop_x := start_x + N
  (whileFuel (fun (start_x, _) => start_x != stop_x)
    (fun (start_x, st) =>
      (invoke1 MAPFN start_x st).bind fun st => .ok (start_x + 1, st))
    fuel (start_x, st)).bind
  fun (_, st) => .ok (caml_leave_blocking_section st)

/-- Kernel `FUN4`: map of the first `N` elements of `X` into `Y`.
Loop state: `(start_x, start_y, st)`. -/
def FUN4 {α β : Type} (MAPFN : α → β) (fuel : Nat) (vN : Int) (vX : List α) (vY : List β) :
    Outcome (St (List α × List β)) :=
  let N := Int_val vN
  let X_data : Int := 0
  let Y_data : Int := 0
  let st := caml_enter_blocking_section ⟨(vX, vY), []⟩
  let start_x := X_data
  let stop_x := start_x + N
  let start_y := Y_data
  (whileFuel (fun (start_x, _, _) => start_x != stop_x)
    (fun (start_x, start_y, st) =>
      (invoke12 MAPFN start_x start_y st).bind fun st => .ok (start_x + 1, start_y + 1, st))
    fuel (start_x, start_y, st)).bind
  fun (_, _, st) => .ok (caml_leave_blocking_section st)

/-- Kernel `FUN12`: counter loop `for (i = 1; i <= N; i++)` over `X`, the slot
reading the scalars that `INIT` captured from `vA` and `vB`.
Loop state: `(i, X_data, st)`. The counter is an `int`: its increment is taken
modulo `2^32` into the `int` range, which differs from `i + 1` only when
`i = INT_MAX`, that is only in a call with `N = INT_MAX`. -/
def FUN12 {α A B : Type} (MAPFN : A → B → α → α) (fuel : Nat) (vN : Int) (vA : A) (vB : B)
    (vX : List α) : Outcome (St (List α)) :=
  let N := Int_val vN
  let X_data : Int := 0
  let st := caml_enter_blocking_section ⟨vX, []⟩
  (whileFuel (fun (i, _, _) => decide (i ≤ N))
    (fun (i, X_data, st) =>
      (invoke1 (MAPFN vA vB) X_data st).bind fun st =>
        .ok (Int_val (i + 1), X_data + 1, st))
    fuel (1, X_data, st)).bind
  fun (_, _, st) => .ok (caml_leave_blocking_section st)

/-- Kernel `FUN13`: as `FUN12`, with the slot chosen once by comparing `base` with
the three constants `c2` (`2.0`), `c10` (`10.0`) and `ce`
(`2.7182818284590452353602874713526625L`). -/
def FUN13 {α A B K : Type} [DecidableEq K] (c2 c10 ce : K)
    (MAPFN MAPFN1 MAPFN2 MAPFN3 : A → B → α → α) (fuel : Nat) (vN : Int) (vBase : K)
    (vA : A) (vB : B) (vX : List α) : Outcome (St (List α)) :=
  let N := Int_val vN
  let base := vBase
  let X_data : Int := 0
  let st := caml_enter_blocking_section ⟨vX, []⟩
  let loop := fun (slot : A → B → α → α) =>
    whileFuel (fun ((i, _, _) : Int × Int × St (List α)) => decide (i ≤ N))
      (fun (i, X_data, st) =>
        (invoke1 (slot vA vB) X_data st).bind fun st =>
          .ok (Int_val (i + 1), X_data + 1, st))
      fuel (1, X_data, st)
  (if base = c2 then loop MAPFN
   else if base = c10 then loop MAPFN1
   else if base = ce then loop MAPFN2
   else loop MAPFN3).bind
  fun (_, _, st) => .ok (caml_leave_blocking_section st)

/-- Kernel `FUN14`: flat two-buffer kernel with a positional slot.
Loop state: `(start_x, start_y, st)`. -/
def FUN14 {α β : Type} (MAPFN : α → β → α × β) (fuel : Nat) (vN : Int) (vX : List α)
    (vY : List β) : Outcome (St (List α × List β)) :=
  let N := Int_val vN
  let X_data : Int := 0
  let Y_data : Int := 0
  let st := caml_enter_blocking_section ⟨(vX, vY), []⟩
  let start_x := X_data
  let stop_x := start_x + N
  let start_y := Y_data
  (whileFuel (fun (start_x, _, _) => start_x != stop_x)
    (fun (start_x, start_y, st) =>
      (invoke2 MAPFN start_x start_y st).bind fun st => .ok (start_x + 1, start_y + 1, st))
    fuel (start_x, start_y, st)).bind
  fun (_, _, st) => .ok (caml_leave_blocking_section st)

/-- Kernel `FUN15`: flat three-buffer kernel.
Loop state: `(start_x, start_y, start_z, st)`. -/
def FUN15 {α β γ : Type} (MAPFN : α → β → γ → α × β × γ) (fuel : Nat) (vN : Int)
    (vX : List α) (vY : List β) (vZ : List γ) : Outcome (St (List α × List β × List γ)) :=
  let N := Int_val vN
  let X_data : Int := 0
  let Y_data : Int := 0
  let Z_data : Int := 0
  let st := caml_enter_blocking_section ⟨(vX, vY, vZ), []⟩
  let start_x := X_data
  let stop_x := start_x + N
  let start_y := Y_data
  let start_z := Z_data
  (whileFuel (fun (start_x, _, _, _) => start_x != stop_x)
    (fun (start_x, start_y, start_z, st) =>
      (invoke3 MAPFN start_x start_y start_z st).bind fun st =>
        .ok (start_x + 1, start_y + 1, start_z + 1, st))
    fuel (start_x, start_y, start_z, st)).bind
  fun (_, _, _, st) => .ok (caml_leave_blocking_section st)

/-- Kernel `FUN17`: flat two-buffer kernel whose slot reads the scalar that `INIT`
captured from `vA`. -/
def FUN17 {α β A : Type} (MAPFN : A → α → β → α × β) (fuel : Nat) (vN : Int) (vX : List α)
    (vY : List β) (vA : A) : Outcome (St (List α × List β)) :=
  let N := Int_val vN
  let X_data : Int := 0
  let Y_data : Int := 0
  let st := caml_enter_blocking_section ⟨(vX, vY), []⟩
  let start_x := X_data
  let stop_x := start_x + N
  let start_y := Y_data
  (whileFuel (fun (start_x, _, _) => start_x != stop_x)
    (fun (start_x, start_y, st) =>
      (invoke2 (MAPFN vA) start_x start_y st).bind fun st =>
        .ok (start_x + 1, start_y + 1, st))
    fuel (start_x, start_y, st)).bind
  fun (_, _, st) => .ok (caml_leave_blocking_section st)

/-- Kernel `FUN18`: flat in-place kernel whose slot reads the scalars that `INIT`
captured from `vA` and `vB`. Loop state: `(start_x, st)`. -/
def FUN18 {α A B : Type} (MAPFN : A → B → α → α) (fuel : Nat) (vN : Int) (vX : List α)
    (vA : A) (vB : B) : Outcome (St (List α)) :=
  let N := Int_val vN
  let X_data : Int := 0
  let st := caml_enter_blocking_section ⟨vX, []⟩
  let start_x := X_data
  let stop_x := start_x + N
  (whileFuel (fun (start_x, _) => start_x != stop_x)
    (fun (start_x, st) =>
      (invoke1 (MAPFN vA vB) start_x st).bind fun st => .ok (start_x + 1, st))
    fuel (start_x, st)).bind
  fun (_, st) => .ok (caml_leave_blocking_section st)

/-- Kernel `FUN19_IMPL`: strided one-dimensional kernel.
Loop state: `(i, start_x, start_y, st)`. The counter runs while `i < N`, so
`i + 1 ≤ N ≤ INT_MAX` and its increment never leaves the `int` range. -/
def FUN19_IMPL {α β : Type} (MAPFN : α → β → α × β) (fuel : Nat) (vN : Int)
    (vX : List α) (vOFSX vINCX : Int) (vY : List β) (vOFSY vINCY : Int) :
    Outcome (St (List α × List β)) :=
  let N := Int_val vN
  let ofsx := Int_val vOFSX
  let incx := Int_val vINCX
  let ofsy := Int_val vOFSY
  let incy := Int_val vINCY
  let X_data : Int := 0
  let Y_data : Int := 0
  let st := caml_enter_blocking_section ⟨(vX, vY), []⟩
  let start_x := X_data + ofsx
  let start_y := Y_data + ofsy
  (whileFuel (fun (i, _, _, _) => decide (i < N))
    (fun (i, start_x, start_y, st) =>
      (invoke2 MAPFN start_x start_y st).bind fun st =>
        .ok (i + 1, start_x + incx, start_y + incy, st))
    fuel (0, start_x, start_y, st)).bind
  fun (_, _, _, st) => .ok (caml_leave_blocking_section st)

/-- Kernel `FUN19`: the bytecode entry, which passes `argv[0..6]` on. -/
def FUN19 {α β : Type} (MAPFN : α → β → α × β) (fuel : Nat) (vN : Int)
    (vX : List α) (vOFSX vINCX : Int) (vY : List β) (vOFSY vINCY : Int) :
    Outcome (St (List α × List β)) :=
  FUN19_IMPL MAPFN fuel vN vX vOFSX vINCX vY vOFSY vINCY

/-- Kernel `FUN20_IMPL`: strided two-dimensional kernel.
Outer loop state: `(i, start_x_m, start_y_m, st)`;
inner loop state: `(j, start_x_n, start_y_n, st)`. -/
def FUN20_IMPL {α β : Type} (MAPFN : α → β → α × β) (fuel : Nat) (vM vN : Int)
    (vX : List α) (vOFSX vINCX_M vINCX_N : Int)
    (vY : List β) (vOFSY vINCY_M vINCY_N : Int) : Outcome (St (List α × List β)) :=
  let M := Int_val vM
  let N := Int_val vN
  let ofsx := Int_val vOFSX
  let incx_m := Int_val vINCX_M
  let incx_n := Int_val vINCX_N
  let ofsy := Int_val vOFSY
  let incy_m := Int_val vINCY_M
  let incy_n := Int_val vINCY_N
  let X_data : Int := 0
  let Y_data : Int := 0
  let st := caml_enter_blocking_section ⟨(vX, vY), []⟩
  let start_x_m := X_data + ofsx
  let start_y_m := Y_data + ofsy
  (whileFuel (fun (i, _, _, _) => decide (i < M))
    (fun (i, start_x_m, start_y_m, st) =>
      let start_x_n := start_x_m
      let start_y_n := start_y_m
      (whileFuel (fun (j, _, _, _) => decide (j < N))
        (fun (j, start_x_n, start_y_n, st) =>
          (invoke2 MAPFN start_x_n start_y_n st).bind fun st =>
            .ok (j + 1, start_x_n + incx_n, start_y_n + incy_n, st))
        fuel (0, start_x_n, start_y_n, st)).bind
      fun (_, _, _, st) => .ok (i + 1, start_x_m + incx_m, start_y_m + incy_m, st))
    fuel (0, start_x_m, start_y_m, st)).bind
  fun (_, _, _, st) => .ok (caml_leave_blocking_section st)

/-- Kernel `FUN20`: the bytecode entry, which passes `argv[0..9]` on. -/
def FUN20 {α β : Type} (MAPFN : α → β → α × β) (fuel : Nat) (vM vN : Int)
    (vX : List α) (vOFSX vINCX_M vINCX_N : Int)
    (vY : List β) (vOFSY vINCY_M vINCY_N : Int) : Outcome (St (List α × List β)) :=
  FUN20_IMPL MAPFN fuel vM vN vX vOFSX vINCX_M vINCX_N vY vOFSY vINCY_M vINCY_N

/-- Whether an event is a slot invocation. -/
def Event.isCall : Event → Bool
  | .call _ => true
  | _ => false

/-! ## Specification-level helpers -/

/-- The calls logged by `k` steps of a flat one-buffer loop started at `c`. -/
def calls1 (c : Int) (k : Nat) : List Event :=
  (List.range k).map fun (j : Nat) => Event.call [c + (j : Int)]

/-- The calls logged by `k` steps of a two-buffer loop started at `(x, y)` and
advancing by `(incx, incy)`. -/
def calls2 (x y incx incy : Int) (k : Nat) : List Event :=
  (List.range k).map fun (j : Nat) => Event.call [x + (j : Int) * incx, y + (j : Int) * incy]

/-- Specification-level iteration: `k` successive invocations of a positional
slot, the first at `(x, y)`, each next one `(incx, incy)` further. -/
def strided {α β : Type} (f : α → β → α × β) (incx incy : Int) :
    Nat → Int → Int → St (List α × List β) → Outcome (St (List α × List β))
  | 0, _, _, st => .ok st
  | k + 1, x, y, st =>
    (invoke2 f x y st).bind (strided f incx incy k (x + incx) (y + incy))

/-- Specification-level iteration: `k` successive rows, each one `strided` over
`n` positions, the first row starting at `(x, y)`, each next row `(incx_m, incy_m)`
further. -/
def rows {α β : Type} (f : α → β → α × β) (incx_m incy_m incx_n incy_n : Int) (n : Nat) :
    Nat → Int → Int → St (List α × List β) → Outcome (St (List α × List β))
  | 0, _, _, st => .ok st
  | k + 1, x, y, st =>
    (strided f incx_n incy_n n x y st).bind
      (rows f incx_m incy_m incx_n incy_n n k (x + incx_m) (y + incy_m))

/-- The calls logged by `k` rows of `n` positions each. -/
def calls_rows (x y incx_m incy_m incx_n incy_n : Int) (n k : Nat) : List Event :=
  (List.range k).flatMap fun (i : Nat) =>
    calls2 (x + (i : Int) * incx_m) (y + (i : Int) * incy_m) incx_n incy_n n

/-- The slot selected by the chain of comparisons of `FUN13`
(specification-level): the first of `base = c2`, `base = c10`, `base = ce` that
holds selects `m`, `m1`, `m2`; otherwise `m3`. -/
def dispatch {K σ : Type} [DecidableEq K] (c2 c10 ce base : K) (m m1 m2 m3 : σ) : σ :=
  if base = c2 then m else if base = c10 then m1 else if base = ce then m2 else m3

/-- The decimal value of the literal `2.7182818284590452353602874713526625L`. -/
def e_literal : ℚ := 27182818284590452353602874713526625 / 10 ^ 34

/-- Round to nearest of a rational `2 ≤ q < 4` in a binary floating-point format
with `p` significant bits: the multiple of `2^(2-p)` nearest to `q` (`p = 53` for
`double`, `p = 64` for the x87 `long double`, `p = 113` for binary128). -/
def round_to_bits (p : Nat) (q : ℚ) : ℚ := (⌊q * 2 ^ (p - 2) + 1 / 2⌋ : ℤ) / 2 ^ (p - 2)

/-- The lock protocol on an event log: the log is the lock release, then slot
invocations only, then the lock reacquisition. -/
def LockProtocol (log : List Event) : Prop :=
  ∃ calls : List Event,
    log = Event.release :: (calls ++ [Event.acquire]) ∧ ∀ e ∈ calls, Event.isCall e = true

/-- The calls logged by `k` steps of a flat three-buffer loop started at `c`. -/
def calls3 (c : Int) (k : Nat) : List Event :=
  (List.range k).map fun (j : Nat) => Event.call [c + (j : Int), c + (j : Int), c + (j : Int)]

/-! ## Basic facts -/

@[simp] theorem Outcome.bind_ok {σ τ : Type} (s : σ) (k : σ → Outcome τ) :
    (Outcome.ok s).bind k = k s := rfl

@[simp] theorem Outcome.bind_fault {σ τ : Type} (k : σ → Outcome τ) :
    (Outcome.fault : Outcome σ).bind k = .fault := rfl

@[simp] theorem Outcome.bind_timeout {σ τ : Type} (k : σ → Outcome τ) :
    (Outcome.timeout : Outcome σ).bind k = .timeout := rfl

theorem Int_val_of_range {v : Int} (h1 : -2147483648 ≤ v) (h2 : v < 2147483648) :
    Int_val v = v := by
  unfold Int_val
  omega

theorem Int_val_range (v : Int) : -2147483648 ≤ Int_val v ∧ Int_val v < 2147483648 := by
  unfold Int_val
  omega

@[simp] theorem Int_val_Int_val (v : Int) : Int_val (Int_val v) = Int_val v :=
  Int_val_of_range (Int_val_range v).1 (Int_val_range v).2

@[simp] theorem Int_val_zero : Int_val 0 = 0 := by decide

@[simp] theorem Int_val_one : Int_val 1 = 1 := by decide

@[simp] theorem Int_val_neg_one : Int_val (-1) = -1 := by decide

theorem whileFuel_false {σ : Type} (cond : σ → Bool) (body : σ → Outcome σ) (fuel : Nat)
    (s : σ) (h : cond s = false) : whileFuel cond body fuel s = .ok s := by
  cases fuel <;> simp [whileFuel, h]

theorem whileFuel_true {σ : Type} (cond : σ → Bool) (body : σ → Outcome σ) (fuel : Nat)
    (s : σ) (h : cond s = true) :
    whileFuel cond body (fuel + 1) s = (body s).bind (whileFuel cond body fuel) := by
  simp [whileFuel, h]

theorem rd_eq {α : Type} (X : List α) (p : Int) (x : α) (h0 : 0 ≤ p)
    (hx : X[p.toNat]? = some x) : rd X p = some x := by
  simp [rd, h0, hx]

theorem wr_eq {α : Type} (X : List α) (p : Int) (v : α) (h0 : 0 ≤ p) (h1 : p < X.length) :
    wr X p v = some (X.set p.toNat v) := by
  have h : p.toNat < X.length := by omega
  simp [wr, h0, h]

theorem exists_getElem? {α : Type} (X : List α) (p : Int) (h0 : 0 ≤ p) (h1 : p < X.length) :
    ∃ x, X[p.toNat]? = some x := by
  have h : p.toNat < X.length := by omega
  exact ⟨X[p.toNat], List.getElem?_eq_getElem h⟩

theorem invoke1_eq {α : Type} (f : α → α) (p : Int) (X : List α) (log : List Event) (x : α)
    (h0 : 0 ≤ p) (hx : X[p.toNat]? = some x) :
    invoke1 f p ⟨X, log⟩ = .ok ⟨X.set p.toNat (f x), log ++ [Event.call [p]]⟩ := by
  have h1 : p.toNat < X.length := by
    rcases Nat.lt_or_ge p.toNat X.length with h | h
    · exact h
    · rw [List.getElem?_eq_none h] at hx; cases hx
  have h2 : (p : Int) < X.length := by omega
  simp [invoke1, rd_eq X p x h0 hx, wr_eq X p _ h0 h2]

theorem calls1_succ (c : Int) (k : Nat) :
    calls1 c (k + 1) = Event.call [c] :: calls1 (c + 1) k := by
  unfold calls1
  rw [List.range_succ_eq_map, List.map_cons, List.map_map]
  refine congrArg₂ List.cons (by simp) (List.map_congr_left ?_)
  intro j _
  have h : c + ((j + 1 : Nat) : Int) = c + 1 + (j : Int) := by push_cast; omega
  simp only [Function.comp_apply, Nat.succ_eq_add_one, h]

/-- The flat one-buffer pointer loop of `FUN3` and `FUN18`: `k` steps from `c`. -/
theorem ptr1_loop {α : Type} (f : α → α) (stop : Int) :
    ∀ (k fuel : Nat) (c : Int) (X : List α) (log : List Event),
      0 ≤ c → c + k = stop → c + k ≤ X.length → k ≤ fuel →
      ∃ X' : List α,
        whileFuel (fun ((start_x, _) : Int × St (List α)) => start_x != stop)
          (fun (start_x, st) => (invoke1 f start_x st).bind fun st => .ok (start_x + 1, st))
          fuel (c, ⟨X, log⟩) = .ok (stop, ⟨X', log ++ calls1 c k⟩) ∧
        X'.length = X.length ∧
        ∀ p : Nat, X'[p]? = if c ≤ p ∧ (p : Int) < c + k then (X[p]?).map f else X[p]? := by
  intro k
  induction k with
  | zero =>
    intro fuel c X log _ hs _ _
    refine ⟨X, ?_, rfl, ?_⟩
    · have : c = stop := by simpa using hs
      subst this
      rw [whileFuel_false _ _ _ _ (by simp)]
      simp [calls1]
    · intro p
      have : ¬ (c ≤ (p : Int) ∧ (p : Int) < c) := by omega
      simp [this]
  | succ k ih =>
    intro fuel c X log h0 hs hlen hfuel
    obtain ⟨fuel, rfl⟩ : ∃ m, fuel = m + 1 := ⟨fuel - 1, by omega⟩
    obtain ⟨x, hx⟩ := exists_getElem? X c h0 (by omega)
    have hc : c ≠ stop := by omega
    rw [whileFuel_true _ _ _ _ (by simpa using hc)]
    simp only [invoke1_eq f c X log x h0 hx, Outcome.bind_ok]
    obtain ⟨X', h1, h2, h3⟩ := ih fuel (c + 1) (X.set c.toNat (f x)) (log ++ [Event.call [c]])
      (by omega) (by push_cast at hs ⊢; omega) (by simp; push_cast at hlen; omega) (by omega)
    refine ⟨X', ?_, by simpa using h2, ?_⟩
    · rw [h1, calls1_succ]; simp
    · intro p
      rw [h3 p, List.getElem?_set]
      by_cases hp : c.toNat = p
      · have h4 : ¬ (c + 1 ≤ (p : Int) ∧ (p : Int) < c + 1 + (k : Int)) := by omega
        have h5 : c ≤ (p : Int) ∧ (p : Int) < c + ((k + 1 : Nat) : Int) := by omega
        have h6 : c.toNat < X.length := by omega
        rw [if_neg h4, if_pos h5, if_pos hp, if_pos h6, ← hp, hx]
        rfl
      · by_cases hq : c + 1 ≤ (p : Int) ∧ (p : Int) < c + 1 + (k : Int)
        · have h5 : c ≤ (p : Int) ∧ (p : Int) < c + ((k + 1 : Nat) : Int) := by omega
          rw [if_pos hq, if_pos h5, if_neg hp]
        · have h5 : ¬ (c ≤ (p : Int) ∧ (p : Int) < c + ((k + 1 : Nat) : Int)) := by omega
          rw [if_neg hq, if_neg h5, if_neg hp]

theorem calls2_succ (x y incx incy : Int) (k : Nat) :
    calls2 x y incx incy (k + 1) =
      Event.call [x, y] :: calls2 (x + incx) (y + incy) incx incy k := by
  unfold calls2
  rw [List.range_succ_eq_map, List.map_cons, List.map_map]
  refine congrArg₂ List.cons (by simp) (List.map_congr_left ?_)
  intro j _
  have h1 : x + ((j + 1 : Nat) : Int) * incx = x + incx + (j : Int) * incx := by
    push_cast; ring
  have h2 : y + ((j + 1 : Nat) : Int) * incy = y + incy + (j : Int) * incy := by
    push_cast; ring
  simp only [Function.comp_apply, Nat.succ_eq_add_one, h1, h2]

theorem calls2_succ_last (x y incx incy : Int) (k : Nat) :
    calls2 x y incx incy (k + 1) =
      calls2 x y incx incy k ++ [Event.call [x + (k : Int) * incx, y + (k : Int) * incy]] := by
  simp [calls2, List.range_succ]

theorem invoke12_eq {α β : Type} (f : α → β) (px py : Int) (X : List α) (Y : List β)
    (log : List Event) (x : α) (h0 : 0 ≤ px) (hx : X[px.toNat]? = some x)
    (h1 : 0 ≤ py) (h2 : py < Y.length) :
    invoke12 f px py ⟨(X, Y), log⟩ =
      .ok ⟨(X, Y.set py.toNat (f x)), log ++ [Event.call [px, py]]⟩ := by
  simp [invoke12, rd_eq X px x h0 hx, wr_eq Y py _ h1 h2]

/-- The flat source-to-destination pointer loop of `FUN4`: `k` steps from `c`. -/
theorem ptr12_loop {α β : Type} (f : α → β) (stop : Int) :
    ∀ (k fuel : Nat) (c : Int) (X : List α) (Y : List β) (log : List Event),
      0 ≤ c → c + k = stop → c + k ≤ X.length → c + k ≤ Y.length → k ≤ fuel →
      ∃ Y' : List β,
        whileFuel (fun ((start_x, _, _) : Int × Int × St (List α × List β)) => start_x != stop)
          (fun (start_x, start_y, st) =>
            (invoke12 f start_x start_y st).bind fun st => .ok (start_x + 1, start_y + 1, st))
          fuel (c, c, ⟨(X, Y), log⟩) =
            .ok (stop, stop, ⟨(X, Y'), log ++ calls2 c c 1 1 k⟩) ∧
        Y'.length = Y.length ∧
        ∀ p : Nat, Y'[p]? = if c ≤ p ∧ (p : Int) < c + k then (X[p]?).map f else Y[p]? := by
  intro k
  induction k with
  | zero =>
    intro fuel c X Y log _ hs _ _ _
    refine ⟨Y, ?_, rfl, ?_⟩
    · have : c = stop := by simpa using hs
      subst this
      rw [whileFuel_false _ _ _ _ (by simp)]
      simp [calls2]
    · intro p
      have : ¬ (c ≤ (p : Int) ∧ (p : Int) < c) := by omega
      simp [this]
  | succ k ih =>
    intro fuel c X Y log h0 hs hlenX hlenY hfuel
    obtain ⟨fuel, rfl⟩ : ∃ m, fuel = m + 1 := ⟨fuel - 1, by omega⟩
    obtain ⟨x, hx⟩ := exists_getElem? X c h0 (by omega)
    have hc : c ≠ stop := by omega
    rw [whileFuel_true _ _ _ _ (by simpa using hc)]
    simp only [invoke12_eq f c c X Y log x h0 hx h0 (by omega), Outcome.bind_ok]
    obtain ⟨Y', h1, h2, h3⟩ := ih fuel (c + 1) X (Y.set c.toNat (f x))
      (log ++ [Event.call [c, c]])
      (by omega) (by push_cast at hs ⊢; omega) (by push_cast at hlenX; omega)
      (by simp; push_cast at hlenY; omega) (by omega)
    refine ⟨Y', ?_, by simpa using h2, ?_⟩
    · rw [h1, calls2_succ]; simp
    · intro p
      rw [h3 p, List.getElem?_set]
      by_cases hp : c.toNat = p
      · have h4 : ¬ (c + 1 ≤ (p : Int) ∧ (p : Int) < c + 1 + (k : Int)) := by omega
        have h5 : c ≤ (p : Int) ∧ (p : Int) < c + ((k + 1 : Nat) : Int) := by omega
        have h6 : c.toNat < Y.length := by omega
        rw [if_neg h4, if_pos h5, if_pos hp, if_pos h6, ← hp, hx]
        rfl
      · by_cases hq : c + 1 ≤ (p : Int) ∧ (p : Int) < c + 1 + (k : Int)
        · have h5 : c ≤ (p : Int) ∧ (p : Int) < c + ((k + 1 : Nat) : Int) := by omega
          rw [if_pos hq, if_pos h5]
        · have h5 : ¬ (c ≤ (p : Int) ∧ (p : Int) < c + ((k + 1 : Nat) : Int)) := by omega
          rw [if_neg hq, if_neg h5, if_neg hp]

theorem calls1_zero_eq (k : Nat) :
    calls1 0 k = (List.range k).map fun (i : Nat) => Event.call [(i : Int)] := by
  simp [calls1]

theorem calls2_flat_eq (k : Nat) :
    calls2 0 0 1 1 k = (List.range k).map fun (i : Nat) => Event.call [(i : Int), (i : Int)] := by
  simp [calls2]

/-- Closed form of `FUN3` on a buffer that holds at least `N` elements. -/
theorem FUN3_spec {α : Type} (MAPFN : α → α) (fuel : Nat) (vN : Int) (X : List α)
    (hN : 0 ≤ Int_val vN) (hlen : Int_val vN ≤ X.length) (hfuel : Int_val vN ≤ fuel) :
    ∃ X' : List α,
      FUN3 MAPFN fuel vN X =
        .ok ⟨X', Event.release :: calls1 0 (Int_val vN).toNat ++ [Event.acquire]⟩ ∧
      X'.length = X.length ∧
      ∀ p : Nat, X'[p]? = if (p : Int) < Int_val vN then (X[p]?).map MAPFN else X[p]? := by
  obtain ⟨X', h1, h2, h3⟩ := ptr1_loop MAPFN (0 + Int_val vN) (Int_val vN).toNat fuel 0 X
    ([] ++ [Event.release]) (le_refl 0) (by omega) (by omega) (by omega)
  refine ⟨X', ?_, h2, ?_⟩
  · unfold FUN3
    simp only [caml_enter_blocking_section]
    rw [h1]
    simp [caml_leave_blocking_section]
  · intro p
    rw [h3 p]
    have e : (0 ≤ (p : Int) ∧ (p : Int) < 0 + (((Int_val vN).toNat : Nat) : Int)) ↔
        (p : Int) < Int_val vN := by omega
    simp only [e]

/-- Closed form of `FUN4` on buffers that hold at least `N` elements. -/
theorem FUN4_spec {α β : Type} (MAPFN : α → β) (fuel : Nat) (vN : Int) (X : List α)
    (Y : List β) (hN : 0 ≤ Int_val vN) (hX : Int_val vN ≤ X.length)
    (hY : Int_val vN ≤ Y.length) (hfuel : Int_val vN ≤ fuel) :
    ∃ Y' : List β,
      FUN4 MAPFN fuel vN X Y =
        .ok ⟨(X, Y'), Event.release :: calls2 0 0 1 1 (Int_val vN).toNat ++ [Event.acquire]⟩ ∧
      Y'.length = Y.length ∧
      ∀ p : Nat, Y'[p]? = if (p : Int) < Int_val vN then (X[p]?).map MAPFN else Y[p]? := by
  obtain ⟨Y', h1, h2, h3⟩ := ptr12_loop MAPFN (0 + Int_val vN) (Int_val vN).toNat fuel 0 X Y
    ([] ++ [Event.release]) (le_refl 0) (by omega) (by omega) (by omega) (by omega)
  refine ⟨Y', ?_, h2, ?_⟩
  · unfold FUN4
    simp only [caml_enter_blocking_section]
    rw [h1]
    simp [caml_leave_blocking_section]
  · intro p
    rw [h3 p]
    have e : (0 ≤ (p : Int) ∧ (p : Int) < 0 + (((Int_val vN).toNat : Nat) : Int)) ↔
        (p : Int) < Int_val vN := by omega
    simp only [e]

/-- The counter loop of `FUN19_IMPL` (and the inner loop of `FUN20_IMPL`) with `k`
iterations left performs `strided ... k`. -/
theorem cnt2_loop {α β : Type} (f : α → β → α × β) (N incx incy : Int) :
    ∀ (k fuel : Nat) (i x y : Int) (st : St (List α × List β)),
      k ≤ fuel → i + k = N →
      whileFuel (fun ((i, _, _, _) : Int × Int × Int × St (List α × List β)) => decide (i < N))
        (fun (i, start_x, start_y, st) =>
          (invoke2 f start_x start_y st).bind fun st =>
            .ok (i + 1, start_x + incx, start_y + incy, st))
        fuel (i, x, y, st) =
      (strided f incx incy k x y st).bind fun st' =>
        .ok (N, x + (k : Int) * incx, y + (k : Int) * incy, st') := by
  intro k
  induction k with
  | zero =>
    intro fuel i x y st _ hs
    have : i = N := by simpa using hs
    subst this
    rw [whileFuel_false _ _ _ _ (by simp)]
    simp [strided]
  | succ k ih =>
    intro fuel i x y st hfuel hs
    obtain ⟨fuel, rfl⟩ : ∃ m, fuel = m + 1 := ⟨fuel - 1, by omega⟩
    have hc : i < N := by omega
    rw [whileFuel_true _ _ _ _ (by simpa using hc)]
    simp only [strided]
    cases h : invoke2 f x y st with
    | ok st1 =>
      simp only [Outcome.bind_ok]
      rw [ih fuel (i + 1) (x + incx) (y + incy) st1 (by omega) (by push_cast at hs; omega)]
      have e1 : x + incx + (k : Int) * incx = x + ((k + 1 : Nat) : Int) * incx := by
        push_cast; ring
      have e2 : y + incy + (k : Int) * incy = y + ((k + 1 : Nat) : Int) * incy := by
        push_cast; ring
      rw [e1, e2]
    | fault => rfl
    | timeout => rfl

/-- The pointer loop of `FUN14` and `FUN17` with `k` steps to the stop position
performs `strided ... 1 1 k`. -/
theorem ptr2_loop {α β : Type} (f : α → β → α × β) (stop : Int) :
    ∀ (k fuel : Nat) (c d : Int) (st : St (List α × List β)),
      k ≤ fuel → c + k = stop →
      whileFuel (fun ((start_x, _, _) : Int × Int × St (List α × List β)) => start_x != stop)
        (fun (start_x, start_y, st) =>
          (invoke2 f start_x start_y st).bind fun st => .ok (start_x + 1, start_y + 1, st))
        fuel (c, d, st) =
      (strided f 1 1 k c d st).bind fun st' => .ok (stop, d + (k : Int), st') := by
  intro k
  induction k with
  | zero =>
    intro fuel c d st _ hs
    have : c = stop := by simpa using hs
    subst this
    rw [whileFuel_false _ _ _ _ (by simp)]
    simp [strided]
  | succ k ih =>
    intro fuel c d st hfuel hs
    obtain ⟨fuel, rfl⟩ : ∃ m, fuel = m + 1 := ⟨fuel - 1, by omega⟩
    have hc : c ≠ stop := by omega
    rw [whileFuel_true _ _ _ _ (by simpa using hc)]
    simp only [strided]
    cases h : invoke2 f c d st with
    | ok st1 =>
      simp only [Outcome.bind_ok]
      rw [ih fuel (c + 1) (d + 1) st1 (by omega) (by push_cast at hs; omega)]
      have e : d + 1 + (k : Int) = d + ((k + 1 : Nat) : Int) := by push_cast; ring
      rw [e]
    | fault => rfl
    | timeout => rfl

theorem Outcome.bind_assoc {σ τ υ : Type} (o : Outcome σ) (k : σ → Outcome τ)
    (l : τ → Outcome υ) : (o.bind k).bind l = o.bind fun s => (k s).bind l := by
  cases o <;> rfl

/-- With enough fuel `FUN19` is the lock release, `strided` and the lock
reacquisition. -/
theorem FUN19_eq_strided {α β : Type} (f : α → β → α × β) (fuel : Nat) (vN : Int)
    (X : List α) (vOFSX vINCX : Int) (Y : List β) (vOFSY vINCY : Int)
    (hfuel : Int_val vN ≤ fuel) :
    FUN19 f fuel vN X vOFSX vINCX Y vOFSY vINCY =
      (strided f (Int_val vINCX) (Int_val vINCY) (Int_val vN).toNat (Int_val vOFSX)
        (Int_val vOFSY) ⟨(X, Y), [Event.release]⟩).bind
      fun st => .ok (caml_leave_blocking_section st) := by
  unfold FUN19 FUN19_IMPL
  simp only [caml_enter_blocking_section, List.nil_append, zero_add]
  rcases le_or_lt 0 (Int_val vN) with hN | hN
  · rw [cnt2_loop f (Int_val vN) (Int_val vINCX) (Int_val vINCY) (Int_val vN).toNat fuel 0
      (Int_val vOFSX) (Int_val vOFSY) _ (by omega) (by omega), Outcome.bind_assoc]
    rfl
  · rw [whileFuel_false _ _ _ _ (by simpa using (by omega : Int_val vN ≤ 0))]
    have e : (Int_val vN).toNat = 0 := by omega
    rw [e]
    simp [strided]

/-- With enough fuel and a count that is not negative `FUN14` is the lock release,
`strided` with unit steps from the base positions and the lock reacquisition. -/
theorem FUN14_eq_strided {α β : Type} (f : α → β → α × β) (fuel : Nat) (vN : Int)
    (X : List α) (Y : List β) (hN : 0 ≤ Int_val vN) (hfuel : Int_val vN ≤ fuel) :
    FUN14 f fuel vN X Y =
      (strided f 1 1 (Int_val vN).toNat 0 0 ⟨(X, Y), [Event.release]⟩).bind
      fun st => .ok (caml_leave_blocking_section st) := by
  unfold FUN14
  simp only [caml_enter_blocking_section, List.nil_append, zero_add]
  rw [ptr2_loop f (Int_val vN) (Int_val vN).toNat fuel 0 0 _ (by omega) (by omega),
    Outcome.bind_assoc]
  rfl

theorem getElem?_isSome_lt {α : Type} (X : List α) (n : Nat) (x : α)
    (hx : X[n]? = some x) : n < X.length := by
  rcases Nat.lt_or_ge n X.length with h | h
  · exact h
  · rw [List.getElem?_eq_none h] at hx; cases hx

theorem invoke2_eq {α β : Type} (f : α → β → α × β) (px py : Int) (X : List α) (Y : List β)
    (log : List Event) (x : α) (y : β) (h0 : 0 ≤ px) (hx : X[px.toNat]? = some x)
    (h1 : 0 ≤ py) (hy : Y[py.toNat]? = some y) :
    invoke2 f px py ⟨(X, Y), log⟩ =
      .ok ⟨(X.set px.toNat (f x y).1, Y.set py.toNat (f x y).2),
        log ++ [Event.call [px, py]]⟩ := by
  have h2 := getElem?_isSome_lt X _ x hx
  have h3 := getElem?_isSome_lt Y _ y hy
  simp [invoke2, rd_eq X px x h0 hx, rd_eq Y py y h1 hy,
    wr_eq X px _ h0 (by omega), wr_eq Y py _ h1 (by omega)]

/-- Unfolding `strided` at its last invocation. -/
theorem strided_succ_last {α β : Type} (f : α → β → α × β) (incx incy : Int) :
    ∀ (k : Nat) (x y : Int) (st : St (List α × List β)),
      strided f incx incy (k + 1) x y st =
        (strided f incx incy k x y st).bind
          (invoke2 f (x + (k : Int) * incx) (y + (k : Int) * incy)) := by
  intro k
  induction k with
  | zero =>
    intro x y st
    simp only [strided, Outcome.bind_ok, Nat.cast_zero, zero_mul, add_zero]
    cases invoke2 f x y st <;> rfl
  | succ k ih =>
    intro x y st
    rw [strided]
    cases h : invoke2 f x y st with
    | ok st1 =>
      simp only [Outcome.bind_ok]
      rw [ih (x + incx) (y + incy) st1]
      have e1 : x + incx + (k : Int) * incx = x + ((k + 1 : Nat) : Int) * incx := by
        push_cast; ring
      have e2 : y + incy + (k : Int) * incy = y + ((k + 1 : Nat) : Int) * incy := by
        push_cast; ring
      rw [e1, e2]
      conv_rhs => rw [strided, h, Outcome.bind_ok]
    | fault => simp [strided, h]
    | timeout => simp [strided, h]

/-- When every position it is given lies inside its buffer, `strided` returns,
logs its invocations in order and keeps the buffer lengths. -/
theorem strided_ok {α β : Type} (f : α → β → α × β) (incx incy : Int) :
    ∀ (k : Nat) (x y : Int) (st : St (List α × List β)),
      (∀ j : Nat, j < k →
        (0 ≤ x + (j : Int) * incx ∧ x + (j : Int) * incx < st.mem.1.length) ∧
        (0 ≤ y + (j : Int) * incy ∧ y + (j : Int) * incy < st.mem.2.length)) →
      ∃ st' : St (List α × List β),
        strided f incx incy k x y st = .ok st' ∧
        st'.log = st.log ++ calls2 x y incx incy k ∧
        st'.mem.1.length = st.mem.1.length ∧ st'.mem.2.length = st.mem.2.length := by
  intro k
  induction k with
  | zero =>
    intro x y st _
    exact ⟨st, rfl, by simp [calls2], rfl, rfl⟩
  | succ k ih =>
    intro x y st hb
    obtain ⟨st1, h1, h2, h3, h4⟩ := ih x y st (fun j hj => hb j (by omega))
    obtain ⟨⟨X1, Y1⟩, log1⟩ := st1
    simp only at h2 h3 h4
    have hk := hb k (by omega)
    obtain ⟨a, ha⟩ := exists_getElem? X1 (x + (k : Int) * incx) hk.1.1 (by omega)
    obtain ⟨b, hb'⟩ := exists_getElem? Y1 (y + (k : Int) * incy) hk.2.1 (by omega)
    refine ⟨⟨(X1.set (x + (k : Int) * incx).toNat (f a b).1,
      Y1.set (y + (k : Int) * incy).toNat (f a b).2),
      log1 ++ [Event.call [x + (k : Int) * incx, y + (k : Int) * incy]]⟩, ?_, ?_, ?_, ?_⟩
    · rw [strided_succ_last, h1, Outcome.bind_ok,
        invoke2_eq f _ _ X1 Y1 log1 a b hk.1.1 ha hk.2.1 hb']
    · simp only [h2, calls2_succ_last, List.append_assoc]
    · simpa using h3
    · simpa using h4

/-- A counter loop over two buffers started at `i = 0` with enough fuel, followed
by code that only uses the buffers and the log. -/
theorem cnt2_loop_bind {α β τ : Type} (f : α → β → α × β) (N incx incy : Int) (fuel : Nat)
    (x y : Int) (st : St (List α × List β)) (K : St (List α × List β) → Outcome τ)
    (hfuel : N ≤ fuel) :
    (whileFuel (fun ((i, _, _, _) : Int × Int × Int × St (List α × List β)) => decide (i < N))
        (fun (i, start_x, start_y, st) =>
          (invoke2 f start_x start_y st).bind fun st =>
            .ok (i + 1, start_x + incx, start_y + incy, st))
        fuel (0, x, y, st)).bind (fun (_, _, _, st) => K st) =
      (strided f incx incy N.toNat x y st).bind K := by
  rcases le_or_lt 0 N with hN | hN
  · rw [cnt2_loop f N incx incy N.toNat fuel 0 x y st (by omega) (by omega),
      Outcome.bind_assoc]
    rfl
  · rw [whileFuel_false _ _ _ _ (by simpa using (by omega : N ≤ 0))]
    have e : N.toNat = 0 := by omega
    rw [e]
    simp [strided]

/-- The outer loop of `FUN20_IMPL` with `k` rows left performs `rows ... k`. -/
theorem FUN20_outer_loop {α β : Type} (f : α → β → α × β)
    (M N incx_m incy_m incx_n incy_n : Int) (fuel : Nat) (hfuel : N ≤ fuel) :
    ∀ (k fo : Nat) (i x y : Int) (st : St (List α × List β)),
      k ≤ fo → i + k = M →
      whileFuel (fun ((i, _, _, _) : Int × Int × Int × St (List α × List β)) => decide (i < M))
        (fun (i, start_x_m, start_y_m, st) =>
          (whileFuel
            (fun ((j, _, _, _) : Int × Int × Int × St (List α × List β)) => decide (j < N))
            (fun (j, start_x_n, start_y_n, st) =>
              (invoke2 f start_x_n start_y_n st).bind fun st =>
                .ok (j + 1, start_x_n + incx_n, start_y_n + incy_n, st))
            fuel (0, start_x_m, start_y_m, st)).bind
          fun (_, _, _, st) => .ok (i + 1, start_x_m + incx_m, start_y_m + incy_m, st))
        fo (i, x, y, st) =
      (rows f incx_m incy_m incx_n incy_n N.toNat k x y st).bind fun st' =>
        .ok (M, x + (k : Int) * incx_m, y + (k : Int) * incy_m, st') := by
  intro k
  induction k with
  | zero =>
    intro fo i x y st _ hs
    have : i = M := by simpa using hs
    subst this
    rw [whileFuel_false _ _ _ _ (by simp)]
    simp [rows]
  | succ k ih =>
    intro fo i x y st hfo hs
    obtain ⟨fo, rfl⟩ : ∃ m, fo = m + 1 := ⟨fo - 1, by omega⟩
    have hc : i < M := by omega
    rw [whileFuel_true _ _ _ _ (by simpa using hc)]
    have key := cnt2_loop_bind f N incx_n incy_n fuel x y st
      (fun st => Outcome.ok (i + 1, x + incx_m, y + incy_m, st)) hfuel
    refine (congrArg (fun o => Outcome.bind o _) key).trans ?_
    simp only [rows]
    cases h : strided f incx_n incy_n N.toNat x y st with
    | ok st1 =>
      simp only [Outcome.bind_ok]
      rw [ih fo (i + 1) (x + incx_m) (y + incy_m) st1 (by omega) (by push_cast at hs; omega)]
      have e1 : x + incx_m + (k : Int) * incx_m = x + ((k + 1 : Nat) : Int) * incx_m := by
        push_cast; ring
      have e2 : y + incy_m + (k : Int) * incy_m = y + ((k + 1 : Nat) : Int) * incy_m := by
        push_cast; ring
      rw [e1, e2]
    | fault => rfl
    | timeout => rfl

/-- With enough fuel `FUN20` is the lock release, `rows` and the lock
reacquisition. -/
theorem FUN20_eq_rows {α β : Type} (f : α → β → α × β) (fuel : Nat) (vM vN : Int)
    (X : List α) (vOFSX vINCX_M vINCX_N : Int) (Y : List β) (vOFSY vINCY_M vINCY_N : Int)
    (hfuelM : Int_val vM ≤ fuel) (hfuelN : Int_val vN ≤ fuel) :
    FUN20 f fuel vM vN X vOFSX vINCX_M vINCX_N Y vOFSY vINCY_M vINCY_N =
      (rows f (Int_val vINCX_M) (Int_val vINCY_M) (Int_val vINCX_N) (Int_val vINCY_N)
        (Int_val vN).toNat (Int_val vM).toNat (Int_val vOFSX) (Int_val vOFSY)
        ⟨(X, Y), [Event.release]⟩).bind
      fun st => .ok (caml_leave_blocking_section st) := by
  unfold FUN20 FUN20_IMPL
  simp only [caml_enter_blocking_section, List.nil_append, zero_add]
  rcases le_or_lt 0 (Int_val vM) with hM | hM
  · rw [FUN20_outer_loop f (Int_val vM) (Int_val vN) (Int_val vINCX_M) (Int_val vINCY_M)
      (Int_val vINCX_N) (Int_val vINCY_N) fuel hfuelN (Int_val vM).toNat fuel 0
      (Int_val vOFSX) (Int_val vOFSY) _ (by omega) (by omega), Outcome.bind_assoc]
    rfl
  · rw [whileFuel_false _ _ _ _ (by simpa using (by omega : Int_val vM ≤ 0))]
    have e : (Int_val vM).toNat = 0 := by omega
    rw [e]
    simp [rows]

theorem rows_zero {α β : Type} (f : α → β → α × β) (incx_m incy_m incx_n incy_n : Int) :
    ∀ (k : Nat) (x y : Int) (st : St (List α × List β)),
      rows f incx_m incy_m incx_n incy_n 0 k x y st = .ok st := by
  intro k
  induction k with
  | zero => intro x y st; rfl
  | succ k ih => intro x y st; simp [rows, strided, ih]

theorem calls_rows_succ (x y incx_m incy_m incx_n incy_n : Int) (n k : Nat) :
    calls_rows x y incx_m incy_m incx_n incy_n n (k + 1) =
      calls2 x y incx_n incy_n n ++
        calls_rows (x + incx_m) (y + incy_m) incx_m incy_m incx_n incy_n n k := by
  unfold calls_rows
  rw [List.range_succ_eq_map, List.flatMap_cons, List.flatMap_map]
  congr 1
  · simp
  · congr 1
    funext i
    have h1 : x + ((i + 1 : Nat) : Int) * incx_m = x + incx_m + (i : Int) * incx_m := by
      push_cast; ring
    have h2 : y + ((i + 1 : Nat) : Int) * incy_m = y + incy_m + (i : Int) * incy_m := by
      push_cast; ring
    simp only [Function.comp_apply, Nat.succ_eq_add_one, h1, h2]

/-- When every position lies inside its buffer, `rows` returns, logs its
invocations row by row and keeps the buffer lengths. -/
theorem rows_ok {α β : Type} (f : α → β → α × β) (incx_m incy_m incx_n incy_n : Int)
    (n : Nat) :
    ∀ (k : Nat) (x y : Int) (st : St (List α × List β)),
      (∀ i j : Nat, i < k → j < n →
        (0 ≤ x + (i : Int) * incx_m + (j : Int) * incx_n ∧
          x + (i : Int) * incx_m + (j : Int) * incx_n < st.mem.1.length) ∧
        (0 ≤ y + (i : Int) * incy_m + (j : Int) * incy_n ∧
          y + (i : Int) * incy_m + (j : Int) * incy_n < st.mem.2.length)) →
      ∃ st' : St (List α × List β),
        rows f incx_m incy_m incx_n incy_n n k x y st = .ok st' ∧
        st'.log = st.log ++ calls_rows x y incx_m incy_m incx_n incy_n n k ∧
        st'.mem.1.length = st.mem.1.length ∧ st'.mem.2.length = st.mem.2.length := by
  intro k
  induction k with
  | zero =>
    intro x y st _
    exact ⟨st, rfl, by simp [calls_rows], rfl, rfl⟩
  | succ k ih =>
    intro x y st hb
    obtain ⟨st1, h1, h2, h3, h4⟩ := strided_ok f incx_n incy_n n x y st (fun j hj => by
      have := hb 0 j (by omega) hj
      simpa using this)
    obtain ⟨st2, g1, g2, g3, g4⟩ := ih (x + incx_m) (y + incy_m) st1 (fun i j hi hj => by
      have := hb (i + 1) j (by omega) hj
      rw [h3, h4]
      have e1 : x + ((i + 1 : Nat) : Int) * incx_m = x + incx_m + (i : Int) * incx_m := by
        push_cast; ring
      have e2 : y + ((i + 1 : Nat) : Int) * incy_m = y + incy_m + (i : Int) * incy_m := by
        push_cast; ring
      rw [e1, e2] at this
      exact this)
    refine ⟨st2, ?_, ?_, by rw [g3, h3], by rw [g4, h4]⟩
    · rw [rows, h1, Outcome.bind_ok, g1]
    · rw [g2, h2, calls_rows_succ, List.append_assoc]

theorem countP_calls2 (x y incx incy : Int) (n : Nat) :
    (calls2 x y incx incy n).countP Event.isCall = n := by
  induction n with
  | zero => rfl
  | succ n ih => rw [calls2_succ_last, List.countP_append, ih]; rfl

theorem countP_calls_rows (incx_m incy_m incx_n incy_n : Int) (n : Nat) :
    ∀ (k : Nat) (x y : Int),
      (calls_rows x y incx_m incy_m incx_n incy_n n k).countP Event.isCall = k * n := by
  intro k
  induction k with
  | zero => intro x y; simp [calls_rows]
  | succ k ih =>
    intro x y
    rw [calls_rows_succ, List.countP_append, ih, countP_calls2]
    ring

theorem set_getElem?_self {α : Type} (X : List α) (n : Nat) (a : α)
    (h : X[n]? = some a) : X.set n a = X := by
  apply List.ext_getElem?
  intro p
  rw [List.getElem?_set]
  by_cases hp : n = p
  · subst hp
    rw [if_pos rfl, if_pos (getElem?_isSome_lt X n a h), h]
  · rw [if_neg hp]

/-- Frame property of `strided`: when every position it is given lies inside its
buffer, it returns, and an element at a position that is not visited keeps its
value. -/
theorem strided_frame {α β : Type} (f : α → β → α × β) (incx incy : Int) :
    ∀ (k : Nat) (x y : Int) (st : St (List α × List β)),
      (∀ j : Nat, j < k →
        (0 ≤ x + (j : Int) * incx ∧ x + (j : Int) * incx < st.mem.1.length) ∧
        (0 ≤ y + (j : Int) * incy ∧ y + (j : Int) * incy < st.mem.2.length)) →
      ∃ st' : St (List α × List β),
        strided f incx incy k x y st = .ok st' ∧
        (∀ p : Nat, (∀ j : Nat, j < k → x + (j : Int) * incx ≠ (p : Int)) →
          st'.mem.1[p]? = st.mem.1[p]?) ∧
        (∀ p : Nat, (∀ j : Nat, j < k → y + (j : Int) * incy ≠ (p : Int)) →
          st'.mem.2[p]? = st.mem.2[p]?) := by
  intro k
  induction k with
  | zero =>
    intro x y st _
    exact ⟨st, rfl, fun _ _ => rfl, fun _ _ => rfl⟩
  | succ k ih =>
    intro x y st hb
    obtain ⟨st1, h1, h2, h3⟩ := ih x y st (fun j hj => hb j (by omega))
    obtain ⟨_, h1', _, h4, h5⟩ := strided_ok f incx incy k x y st (fun j hj => hb j (by omega))
    rw [h1] at h1'
    cases h1'
    obtain ⟨⟨X1, Y1⟩, log1⟩ := st1
    simp only at h2 h3 h4 h5
    have hk := hb k (by omega)
    obtain ⟨a, ha⟩ := exists_getElem? X1 (x + (k : Int) * incx) hk.1.1 (by omega)
    obtain ⟨b, hb'⟩ := exists_getElem? Y1 (y + (k : Int) * incy) hk.2.1 (by omega)
    refine ⟨⟨(X1.set (x + (k : Int) * incx).toNat (f a b).1,
      Y1.set (y + (k : Int) * incy).toNat (f a b).2),
      log1 ++ [Event.call [x + (k : Int) * incx, y + (k : Int) * incy]]⟩, ?_, ?_, ?_⟩
    · rw [strided_succ_last, h1, Outcome.bind_ok,
        invoke2_eq f _ _ X1 Y1 log1 a b hk.1.1 ha hk.2.1 hb']
    · intro p hp
      have hne : (x + (k : Int) * incx).toNat ≠ p := by
        have := hp k (by omega)
        omega
      simp only
      rw [List.getElem?_set, if_neg hne]
      exact h2 p (fun j hj => hp j (by omega))
    · intro p hp
      have hne : (y + (k : Int) * incy).toNat ≠ p := by
        have := hp k (by omega)
        omega
      simp only
      rw [List.getElem?_set, if_neg hne]
      exact h3 p (fun j hj => hp j (by omega))

/-- Result of `strided` for a slot that overwrites `*y` with `f (*x)`: the source
is unchanged, and the element at the destination position of invocation `j` holds
`f` of the source element of invocation `j` unless a later invocation has the same
destination position. -/
theorem strided_map_spec {α β : Type} (f : α → β) (incx incy : Int) (X : List α) :
    ∀ (k : Nat) (x y : Int) (Y : List β) (log : List Event),
      (∀ j : Nat, j < k →
        (0 ≤ x + (j : Int) * incx ∧ x + (j : Int) * incx < X.length) ∧
        (0 ≤ y + (j : Int) * incy ∧ y + (j : Int) * incy < Y.length)) →
      ∃ Y' : List β,
        strided (fun a _ => (a, f a)) incx incy k x y ⟨(X, Y), log⟩ =
          .ok ⟨(X, Y'), log ++ calls2 x y incx incy k⟩ ∧
        Y'.length = Y.length ∧
        (∀ j : Nat, j < k →
          (∀ j' : Nat, j < j' → j' < k → y + (j' : Int) * incy ≠ y + (j : Int) * incy) →
          Y'[(y + (j : Int) * incy).toNat]? = (X[(x + (j : Int) * incx).toNat]?).map f) ∧
        (∀ p : Nat, (∀ j : Nat, j < k → y + (j : Int) * incy ≠ (p : Int)) →
          Y'[p]? = Y[p]?) := by
  intro k
  induction k with
  | zero =>
    intro x y Y log _
    exact ⟨Y, by simp [strided, calls2], rfl, fun j hj => absurd hj (by omega),
      fun _ _ => rfl⟩
  | succ k ih =>
    intro x y Y log hb
    obtain ⟨Y1, h1, h2, h3, h4⟩ := ih x y Y log (fun j hj => hb j (by omega))
    have hk := hb k (by omega)
    obtain ⟨a, ha⟩ := exists_getElem? X (x + (k : Int) * incx) hk.1.1 hk.1.2
    obtain ⟨b, hb'⟩ := exists_getElem? Y1 (y + (k : Int) * incy) hk.2.1 (by omega)
    refine ⟨Y1.set (y + (k : Int) * incy).toNat (f a), ?_, by simpa using h2, ?_, ?_⟩
    · rw [strided_succ_last, h1, Outcome.bind_ok,
        invoke2_eq _ _ _ X Y1 _ a b hk.1.1 ha hk.2.1 hb']
      simp only [set_getElem?_self X _ a ha, calls2_succ_last, List.append_assoc]
    · intro j hj hlast
      rw [List.getElem?_set]
      rcases Nat.lt_or_ge j k with hjk | hjk
      · have hne := hlast k hjk (by omega)
        have hj0 := (hb j hj).2.1
        have hne' : (y + (k : Int) * incy).toNat ≠ (y + (j : Int) * incy).toNat := by omega
        rw [if_neg hne']
        exact h3 j hjk (fun j' h1' h2' => hlast j' h1' (by omega))
      · have e : j = k := by omega
        subst e
        rw [if_pos rfl, if_pos (by omega), ha]
        rfl
    · intro p hp
      have hne : (y + (k : Int) * incy).toNat ≠ p := by
        have := hp k (by omega)
        omega
      rw [List.getElem?_set, if_neg hne]
      exact h4 p (fun j hj => hp j (by omega))

theorem calls2_zero_inc (x y : Int) (k : Nat) :
    calls2 x y 0 0 k = List.replicate k (Event.call [x, y]) := by
  induction k with
  | zero => rfl
  | succ k ih => rw [calls2_succ_last, ih, List.replicate_succ']; simp

theorem calls2_reverse (c y incy : Int) (k : Nat) :
    calls2 (c - 1) y (-1) incy k =
      (List.range k).map fun (i : Nat) => Event.call [c - 1 - (i : Int), y + (i : Int) * incy] := by
  unfold calls2
  apply List.map_congr_left
  intro i _
  have e : c - 1 + (i : Int) * (-1) = c - 1 - (i : Int) := by ring
  rw [e]

/-- The counter loop of `FUN12` and `FUN13` with `k` iterations left, for a count
below `INT_MAX`: `k` steps from position `c`. -/
theorem cnt1_loop {α : Type} (f : α → α) (N : Int) (hN : N < 2147483647) :
    ∀ (k fuel : Nat) (i c : Int) (X : List α) (log : List Event),
      1 ≤ i → i + k = N + 1 → 0 ≤ c → c + k ≤ X.length → k ≤ fuel →
      ∃ X' : List α,
        whileFuel (fun ((i, _, _) : Int × Int × St (List α)) => decide (i ≤ N))
          (fun (i, X_data, st) =>
            (invoke1 f X_data st).bind fun st => .ok (Int_val (i + 1), X_data + 1, st))
          fuel (i, c, ⟨X, log⟩) = .ok (N + 1, c + k, ⟨X', log ++ calls1 c k⟩) ∧
        X'.length = X.length ∧
        ∀ p : Nat, X'[p]? = if c ≤ p ∧ (p : Int) < c + k then (X[p]?).map f else X[p]? := by
  intro k
  induction k with
  | zero =>
    intro fuel i c X log _ hs _ _ _
    refine ⟨X, ?_, rfl, ?_⟩
    · have : i = N + 1 := by simpa using hs
      subst this
      rw [whileFuel_false _ _ _ _ (by simp)]
      simp [calls1]
    · intro p
      have : ¬ (c ≤ (p : Int) ∧ (p : Int) < c) := by omega
      simp [this]
  | succ k ih =>
    intro fuel i c X log hi hs h0 hlen hfuel
    obtain ⟨fuel, rfl⟩ : ∃ m, fuel = m + 1 := ⟨fuel - 1, by omega⟩
    obtain ⟨x, hx⟩ := exists_getElem? X c h0 (by omega)
    have hc : i ≤ N := by omega
    have hw : Int_val (i + 1) = i + 1 := Int_val_of_range (by omega) (by omega)
    rw [whileFuel_true _ _ _ _ (by simpa using hc)]
    simp only [invoke1_eq f c X log x h0 hx, Outcome.bind_ok, hw]
    obtain ⟨X', h1, h2, h3⟩ := ih fuel (i + 1) (c + 1) (X.set c.toNat (f x))
      (log ++ [Event.call [c]]) (by omega) (by push_cast at hs ⊢; omega) (by omega)
      (by simp; push_cast at hlen; omega) (by omega)
    refine ⟨X', ?_, by simpa using h2, ?_⟩
    · rw [h1, calls1_succ]
      have e : c + 1 + (k : Int) = c + ((k + 1 : Nat) : Int) := by push_cast; ring
      simp [e]
    · intro p
      rw [h3 p, List.getElem?_set]
      by_cases hp : c.toNat = p
      · have h4 : ¬ (c + 1 ≤ (p : Int) ∧ (p : Int) < c + 1 + (k : Int)) := by omega
        have h5 : c ≤ (p : Int) ∧ (p : Int) < c + ((k + 1 : Nat) : Int) := by omega
        have h6 : c.toNat < X.length := by omega
        rw [if_neg h4, if_pos h5, if_pos hp, if_pos h6, ← hp, hx]
        rfl
      · by_cases hq : c + 1 ≤ (p : Int) ∧ (p : Int) < c + 1 + (k : Int)
        · have h5 : c ≤ (p : Int) ∧ (p : Int) < c + ((k + 1 : Nat) : Int) := by omega
          rw [if_pos hq, if_pos h5, if_neg hp]
        · have h5 : ¬ (c ≤ (p : Int) ∧ (p : Int) < c + ((k + 1 : Nat) : Int)) := by omega
          rw [if_neg hq, if_neg h5, if_neg hp]

/-- Closed form of `FUN12` for a count `0 ≤ N < INT_MAX` on a buffer that holds at
least `N` elements. -/
theorem FUN12_spec {α A B : Type} (MAPFN : A → B → α → α) (fuel : Nat) (vN : Int)
    (a : A) (b : B) (X : List α) (hN : 0 ≤ Int_val vN) (hmax : Int_val vN < 2147483647)
    (hlen : Int_val vN ≤ X.length) (hfuel : Int_val vN ≤ fuel) :
    ∃ X' : List α,
      FUN12 MAPFN fuel vN a b X =
        .ok ⟨X', Event.release :: calls1 0 (Int_val vN).toNat ++ [Event.acquire]⟩ ∧
      X'.length = X.length ∧
      ∀ p : Nat, X'[p]? =
        if (p : Int) < Int_val vN then (X[p]?).map (MAPFN a b) else X[p]? := by
  obtain ⟨X', h1, h2, h3⟩ := cnt1_loop (MAPFN a b) (Int_val vN) hmax (Int_val vN).toNat
    fuel 1 0 X ([] ++ [Event.release]) (le_refl 1) (by omega) (le_refl 0) (by omega)
    (by omega)
  refine ⟨X', ?_, h2, ?_⟩
  · unfold FUN12
    simp only [caml_enter_blocking_section]
    rw [h1]
    simp [caml_leave_blocking_section]
  · intro p
    rw [h3 p]
    have e : (0 ≤ (p : Int) ∧ (p : Int) < 0 + (((Int_val vN).toNat : Nat) : Int)) ↔
        (p : Int) < Int_val vN := by omega
    simp only [e]

/-- Closed form of `FUN18` on a buffer that holds at least `N` elements. -/
theorem FUN18_spec {α A B : Type} (MAPFN : A → B → α → α) (fuel : Nat) (vN : Int)
    (X : List α) (a : A) (b : B) (hN : 0 ≤ Int_val vN)
    (hlen : Int_val vN ≤ X.length) (hfuel : Int_val vN ≤ fuel) :
    ∃ X' : List α,
      FUN18 MAPFN fuel vN X a b =
        .ok ⟨X', Event.release :: calls1 0 (Int_val vN).toNat ++ [Event.acquire]⟩ ∧
      X'.length = X.length ∧
      ∀ p : Nat, X'[p]? =
        if (p : Int) < Int_val vN then (X[p]?).map (MAPFN a b) else X[p]? := by
  obtain ⟨X', h1, h2, h3⟩ := ptr1_loop (MAPFN a b) (0 + Int_val vN) (Int_val vN).toNat fuel
    0 X ([] ++ [Event.release]) (le_refl 0) (by omega) (by omega) (by omega)
  refine ⟨X', ?_, h2, ?_⟩
  · unfold FUN18
    simp only [caml_enter_blocking_section]
    rw [h1]
    simp [caml_leave_blocking_section]
  · intro p
    rw [h3 p]
    have e : (0 ≤ (p : Int) ∧ (p : Int) < 0 + (((Int_val vN).toNat : Nat) : Int)) ↔
        (p : Int) < Int_val vN := by omega
    simp only [e]

/-- The slot that `FUN13` selects for a base. -/
theorem FUN13_eq_FUN12 {α A B K : Type} [DecidableEq K] (c2 c10 ce : K)
    (MAPFN MAPFN1 MAPFN2 MAPFN3 : A → B → α → α) (fuel : Nat) (vN : Int) (base : K)
    (a : A) (b : B) (X : List α) :
    FUN13 c2 c10 ce MAPFN MAPFN1 MAPFN2 MAPFN3 fuel vN base a b X =
      FUN12 (if base = c2 then MAPFN else if base = c10 then MAPFN1
        else if base = ce then MAPFN2 else MAPFN3) fuel vN a b X := by
  unfold FUN13 FUN12
  simp only []
  split_ifs <;> rfl

/-- A loop whose condition holds in every state that it can reach does not
return. -/
theorem whileFuel_never_ok {σ : Type} (cond : σ → Bool) (body : σ → Outcome σ)
    (P : σ → Prop) (hP : ∀ s, P s → cond s = true)
    (hstep : ∀ s s', P s → body s = .ok s' → P s') :
    ∀ (fuel : Nat) (s r : σ), P s → whileFuel cond body fuel s ≠ .ok r := by
  intro fuel
  induction fuel with
  | zero =>
    intro s r hs
    simp [whileFuel, hP s hs]
  | succ fuel ih =>
    intro s r hs
    rw [whileFuel_true _ _ _ _ (hP s hs)]
    cases hb : body s with
    | ok s' => exact ih s' r (hstep s s' hs hb)
    | fault => simp
    | timeout => simp

/-- With `N = INT_MAX` the loop condition `i <= N` of `FUN12` holds for every value
of the `int` counter, so the call does not return, whatever the fuel and the
buffer. -/
theorem FUN12_INT_MAX {α A B : Type} (MAPFN : A → B → α → α) (fuel : Nat) (vN : Int)
    (a : A) (b : B) (X : List α) (hN : Int_val vN = 2147483647) (r : St (List α)) :
    FUN12 MAPFN fuel vN a b X ≠ .ok r := by
  unfold FUN12
  simp only [hN]
  intro h
  cases hw : whileFuel (fun ((i, _, _) : Int × Int × St (List α)) => decide (i ≤ 2147483647))
      (fun (i, X_data, st) =>
        (invoke1 (MAPFN a b) X_data st).bind fun st =>
          .ok (Int_val (i + 1), X_data + 1, st))
      fuel (1, 0, caml_enter_blocking_section ⟨X, []⟩) with
  | ok s =>
    refine whileFuel_never_ok _ _ (fun s : Int × Int × St (List α) => s.1 ≤ 2147483647)
      ?_ ?_ fuel _ s (by show (1 : Int) ≤ 2147483647; omega) hw
    · rintro ⟨i, c, st⟩ hi
      simpa using hi
    · rintro ⟨i, c, st⟩ ⟨i', c', st'⟩ _ hb
      simp only at hb
      cases hinv : invoke1 (MAPFN a b) c st with
      | ok st1 =>
        rw [hinv] at hb
        simp only [Outcome.bind_ok, Outcome.ok.injEq, Prod.mk.injEq] at hb
        have := Int_val_range (i + 1)
        show i' ≤ 2147483647
        omega
      | fault => rw [hinv] at hb; cases hb
      | timeout => rw [hinv] at hb; cases hb
  | fault => rw [hw] at h; cases h
  | timeout => rw [hw] at h; cases h

theorem FUN13_eq_FUN12_dispatch {α A B K : Type} [DecidableEq K] (c2 c10 ce : K)
    (MAPFN MAPFN1 MAPFN2 MAPFN3 : A → B → α → α) (fuel : Nat) (vN : Int) (base : K)
    (a : A) (b : B) (X : List α) :
    FUN13 c2 c10 ce MAPFN MAPFN1 MAPFN2 MAPFN3 fuel vN base a b X =
      FUN12 (dispatch c2 c10 ce base MAPFN MAPFN1 MAPFN2 MAPFN3) fuel vN a b X :=
  FUN13_eq_FUN12 c2 c10 ce MAPFN MAPFN1 MAPFN2 MAPFN3 fuel vN base a b X

theorem round_53_e_literal : round_to_bits 53 e_literal = 6121026514868073 / 2 ^ 51 := by
  have h : ⌊e_literal * 2 ^ (53 - 2) + 1 / 2⌋ = 6121026514868073 := by
    rw [Int.floor_eq_iff]
    unfold e_literal
    constructor <;> norm_num
  unfold round_to_bits
  rw [h]
  norm_num

theorem round_64_e_literal :
    round_to_bits 64 e_literal = 12535862302449814171 / 2 ^ 62 := by
  have h : ⌊e_literal * 2 ^ (64 - 2) + 1 / 2⌋ = 12535862302449814171 := by
    rw [Int.floor_eq_iff]
    unfold e_literal
    constructor <;> norm_num
  unfold round_to_bits
  rw [h]
  norm_num

theorem round_113_e_literal :
    round_to_bits 113 e_literal = 7057063099260103890616691862818426 / 2 ^ 111 := by
  have h : ⌊e_literal * 2 ^ (113 - 2) + 1 / 2⌋ = 7057063099260103890616691862818426 := by
    rw [Int.floor_eq_iff]
    unfold e_literal
    constructor <;> norm_num
  unfold round_to_bits
  rw [h]
  norm_num

theorem Outcome.bind_eq_ok {σ τ : Type} (o : Outcome σ) (k : σ → Outcome τ) (r : τ)
    (h : o.bind k = .ok r) : ∃ s, o = .ok s ∧ k s = .ok r := by
  cases o with
  | ok s => exact ⟨s, rfl, h⟩
  | fault => cases h
  | timeout => cases h

theorem invoke1_log {α : Type} (f : α → α) (p : Int) (st st' : St (List α))
    (h : invoke1 f p st = .ok st') : st'.log = st.log ++ [Event.call [p]] := by
  unfold invoke1 at h
  split at h
  · cases h
  · split at h
    · cases h
    · cases h; rfl

theorem invoke12_log {α β : Type} (f : α → β) (px py : Int) (st st' : St (List α × List β))
    (h : invoke12 f px py st = .ok st') : st'.log = st.log ++ [Event.call [px, py]] := by
  unfold invoke12 at h
  split at h
  · cases h
  · split at h
    · cases h
    · cases h; rfl

theorem invoke2_log {α β : Type} (f : α → β → α × β) (px py : Int)
    (st st' : St (List α × List β)) (h : invoke2 f px py st = .ok st') :
    st'.log = st.log ++ [Event.call [px, py]] := by
  unfold invoke2 at h
  split at h
  · split at h
    · cases h; rfl
    · cases h
  · cases h

theorem invoke3_log {α β γ : Type} (f : α → β → γ → α × β × γ) (px py pz : Int)
    (st st' : St (List α × List β × List γ)) (h : invoke3 f px py pz st = .ok st') :
    st'.log = st.log ++ [Event.call [px, py, pz]] := by
  unfold invoke3 at h
  split at h
  · split at h
    · cases h; rfl
    · cases h
  · cases h

/-- A loop whose body only appends slot invocations to the log only appends slot
invocations to the log. -/
theorem whileFuel_log {σ μ : Type} (getSt : σ → St μ) (cond : σ → Bool)
    (body : σ → Outcome σ)
    (hbody : ∀ s s', body s = .ok s' → ∃ calls : List Event,
      (getSt s').log = (getSt s).log ++ calls ∧ ∀ e ∈ calls, Event.isCall e = true) :
    ∀ (fuel : Nat) (s s' : σ), whileFuel cond body fuel s = .ok s' →
      ∃ calls : List Event,
        (getSt s').log = (getSt s).log ++ calls ∧ ∀ e ∈ calls, Event.isCall e = true := by
  intro fuel
  induction fuel with
  | zero =>
    intro s s' h
    unfold whileFuel at h
    split at h
    · cases h
    · cases h
      exact ⟨[], by simp, by simp⟩
  | succ fuel ih =>
    intro s s' h
    unfold whileFuel at h
    split at h
    · obtain ⟨s1, h1, h2⟩ := Outcome.bind_eq_ok _ _ _ h
      obtain ⟨c1, e1, a1⟩ := hbody s s1 h1
      obtain ⟨c2, e2, a2⟩ := ih s1 s' h2
      refine ⟨c1 ++ c2, by rw [e2, e1, List.append_assoc], ?_⟩
      intro e he
      rcases List.mem_append.mp he with h' | h'
      · exact a1 e h'
      · exact a2 e h'
    · cases h
      exact ⟨[], by simp, by simp⟩

/-- A kernel that releases the lock, runs a loop whose body only appends slot
invocations, and reacquires the lock follows the lock protocol. -/
theorem lock_of_loop {σ μ : Type} (getSt : σ → St μ) (cond : σ → Bool)
    (body : σ → Outcome σ)
    (hbody : ∀ s s', body s = .ok s' → ∃ calls : List Event,
      (getSt s').log = (getSt s).log ++ calls ∧ ∀ e ∈ calls, Event.isCall e = true)
    (fuel : Nat) (m : μ) (s0 : σ) (hs0 : getSt s0 = caml_enter_blocking_section ⟨m, []⟩)
    (r : St μ)
    (h : (whileFuel cond body fuel s0).bind
      (fun s => .ok (caml_leave_blocking_section (getSt s))) = .ok r) :
    LockProtocol r.log := by
  obtain ⟨s1, h1, h2⟩ := Outcome.bind_eq_ok _ _ _ h
  obtain ⟨calls, e1, a1⟩ := whileFuel_log getSt cond body hbody fuel s0 s1 h1
  cases h2
  refine ⟨calls, ?_, a1⟩
  simp [caml_leave_blocking_section, e1, hs0, caml_enter_blocking_section]

theorem single_call (log log' : List Event) (ps : List Int)
    (h : log' = log ++ [Event.call ps]) :
    ∃ calls : List Event, log' = log ++ calls ∧ ∀ e ∈ calls, Event.isCall e = true :=
  ⟨[Event.call ps], h, by simp [Event.isCall]⟩

theorem FUN3_lock {α : Type} (f : α → α) (fuel : Nat) (vN : Int) (X : List α)
    (r : St (List α)) (h : FUN3 f fuel vN X = .ok r) : LockProtocol r.log := by
  refine lock_of_loop (fun s : Int × St (List α) => s.2) _ _ ?_ fuel X _ rfl r h
  rintro ⟨c, st⟩ s' hb
  obtain ⟨st1, h1, h2⟩ := Outcome.bind_eq_ok _ _ _ hb
  cases h2
  exact single_call _ _ _ (invoke1_log _ _ _ _ h1)

theorem FUN18_lock {α A B : Type} (f : A → B → α → α) (fuel : Nat) (vN : Int)
    (X : List α) (a : A) (b : B) (r : St (List α)) (h : FUN18 f fuel vN X a b = .ok r) :
    LockProtocol r.log := by
  refine lock_of_loop (fun s : Int × St (List α) => s.2) _ _ ?_ fuel X _ rfl r h
  rintro ⟨c, st⟩ s' hb
  obtain ⟨st1, h1, h2⟩ := Outcome.bind_eq_ok _ _ _ hb
  cases h2
  exact single_call _ _ _ (invoke1_log _ _ _ _ h1)

theorem FUN4_lock {α β : Type} (f : α → β) (fuel : Nat) (vN : Int) (X : List α)
    (Y : List β) (r : St (List α × List β)) (h : FUN4 f fuel vN X Y = .ok r) :
    LockProtocol r.log := by
  refine lock_of_loop (fun s : Int × Int × St (List α × List β) => s.2.2) _ _ ?_ fuel
    (X, Y) _ rfl r h
  rintro ⟨c, d, st⟩ s' hb
  obtain ⟨st1, h1, h2⟩ := Outcome.bind_eq_ok _ _ _ hb
  cases h2
  exact single_call _ _ _ (invoke12_log _ _ _ _ _ h1)

theorem FUN14_lock {α β : Type} (f : α → β → α × β) (fuel : Nat) (vN : Int) (X : List α)
    (Y : List β) (r : St (List α × List β)) (h : FUN14 f fuel vN X Y = .ok r) :
    LockProtocol r.log := by
  refine lock_of_loop (fun s : Int × Int × St (List α × List β) => s.2.2) _ _ ?_ fuel
    (X, Y) _ rfl r h
  rintro ⟨c, d, st⟩ s' hb
  obtain ⟨st1, h1, h2⟩ := Outcome.bind_eq_ok _ _ _ hb
  cases h2
  exact single_call _ _ _ (invoke2_log _ _ _ _ _ h1)

theorem FUN17_lock {α β A : Type} (f : A → α → β → α × β) (fuel : Nat) (vN : Int)
    (X : List α) (Y : List β) (a : A) (r : St (List α × List β))
    (h : FUN17 f fuel vN X Y a = .ok r) : LockProtocol r.log := by
  refine lock_of_loop (fun s : Int × Int × St (List α × List β) => s.2.2) _ _ ?_ fuel
    (X, Y) _ rfl r h
  rintro ⟨c, d, st⟩ s' hb
  obtain ⟨st1, h1, h2⟩ := Outcome.bind_eq_ok _ _ _ hb
  cases h2
  exact single_call _ _ _ (invoke2_log _ _ _ _ _ h1)

theorem FUN15_lock {α β γ : Type} (f : α → β → γ → α × β × γ) (fuel : Nat) (vN : Int)
    (X : List α) (Y : List β) (Z : List γ) (r : St (List α × List β × List γ))
    (h : FUN15 f fuel vN X Y Z = .ok r) : LockProtocol r.log := by
  refine lock_of_loop (fun s : Int × Int × Int × St (List α × List β × List γ) => s.2.2.2)
    _ _ ?_ fuel (X, Y, Z) _ rfl r h
  rintro ⟨c, d, e, st⟩ s' hb
  obtain ⟨st1, h1, h2⟩ := Outcome.bind_eq_ok _ _ _ hb
  cases h2
  exact single_call _ _ _ (invoke3_log _ _ _ _ _ _ h1)

theorem FUN12_lock {α A B : Type} (f : A → B → α → α) (fuel : Nat) (vN : Int)
    (a : A) (b : B) (X : List α) (r : St (List α)) (h : FUN12 f fuel vN a b X = .ok r) :
    LockProtocol r.log := by
  refine lock_of_loop (fun s : Int × Int × St (List α) => s.2.2) _ _ ?_ fuel X _ rfl r h
  rintro ⟨i, c, st⟩ s' hb
  obtain ⟨st1, h1, h2⟩ := Outcome.bind_eq_ok _ _ _ hb
  cases h2
  exact single_call _ _ _ (invoke1_log _ _ _ _ h1)

theorem FUN19_lock {α β : Type} (f : α → β → α × β) (fuel : Nat) (vN : Int) (X : List α)
    (vOFSX vINCX : Int) (Y : List β) (vOFSY vINCY : Int) (r : St (List α × List β))
    (h : FUN19 f fuel vN X vOFSX vINCX Y vOFSY vINCY = .ok r) : LockProtocol r.log := by
  refine lock_of_loop (fun s : Int × Int × Int × St (List α × List β) => s.2.2.2) _ _ ?_
    fuel (X, Y) _ rfl r h
  rintro ⟨i, c, d, st⟩ s' hb
  obtain ⟨st1, h1, h2⟩ := Outcome.bind_eq_ok _ _ _ hb
  cases h2
  exact single_call _ _ _ (invoke2_log _ _ _ _ _ h1)

theorem FUN20_lock {α β : Type} (f : α → β → α × β) (fuel : Nat) (vM vN : Int)
    (X : List α) (vOFSX vINCX_M vINCX_N : Int) (Y : List β) (vOFSY vINCY_M vINCY_N : Int)
    (r : St (List α × List β))
    (h : FUN20 f fuel vM vN X vOFSX vINCX_M vINCX_N Y vOFSY vINCY_M vINCY_N = .ok r) :
    LockProtocol r.log := by
  refine lock_of_loop (fun s : Int × Int × Int × St (List α × List β) => s.2.2.2) _ _ ?_
    fuel (X, Y) _ rfl r h
  rintro ⟨i, c, d, st⟩ s' hb
  obtain ⟨s1, h1, h2⟩ := Outcome.bind_eq_ok _ _ _ hb
  obtain ⟨j, c', d', st1⟩ := s1
  cases h2
  have hin := whileFuel_log (fun s : Int × Int × Int × St (List α × List β) => s.2.2.2)
    _ _ (by
      rintro ⟨j, c, d, st⟩ s' hb
      obtain ⟨st1, h1, h2⟩ := Outcome.bind_eq_ok _ _ _ hb
      cases h2
      exact single_call _ _ _ (invoke2_log _ _ _ _ _ h1)) fuel _ _ h1
  exact hin

theorem FUN13_lock {α A B K : Type} [DecidableEq K] (c2 c10 ce : K)
    (f f1 f2 f3 : A → B → α → α) (fuel : Nat) (vN : Int) (base : K) (a : A) (b : B)
    (X : List α) (r : St (List α))
    (h : FUN13 c2 c10 ce f f1 f2 f3 fuel vN base a b X = .ok r) : LockProtocol r.log := by
  rw [FUN13_eq_FUN12] at h
  exact FUN12_lock _ fuel vN a b X r h

/-- Splitting `strided` after its first `a` invocations. -/
theorem strided_append {α β : Type} (f : α → β → α × β) (incx incy : Int) :
    ∀ (a b : Nat) (x y : Int) (st : St (List α × List β)),
      strided f incx incy (a + b) x y st =
        (strided f incx incy a x y st).bind
          (strided f incx incy b (x + (a : Int) * incx) (y + (a : Int) * incy)) := by
  intro a
  induction a with
  | zero =>
    intro b x y st
    simp [strided]
  | succ a ih =>
    intro b x y st
    have e : a + 1 + b = (a + b) + 1 := by omega
    rw [e]
    simp only [strided]
    cases h : invoke2 f x y st with
    | ok st1 =>
      simp only [Outcome.bind_ok]
      rw [ih b (x + incx) (y + incy) st1]
      have e1 : x + incx + (a : Int) * incx = x + ((a + 1 : Nat) : Int) * incx := by
        push_cast; ring
      have e2 : y + incy + (a : Int) * incy = y + ((a + 1 : Nat) : Int) * incy := by
        push_cast; ring
      rw [e1, e2]
    | fault => rfl
    | timeout => rfl

/-- Rows of `n` unit steps that start `n` positions apart are one flat run of
`k * n` unit steps. -/
theorem rows_row_major {α β : Type} (f : α → β → α × β) (n : Nat) :
    ∀ (k : Nat) (x y : Int) (st : St (List α × List β)),
      rows f (n : Int) (n : Int) 1 1 n k x y st = strided f 1 1 (k * n) x y st := by
  intro k
  induction k with
  | zero =>
    intro x y st
    simp [rows, strided]
  | succ k ih =>
    intro x y st
    have e : (k + 1) * n = n + k * n := by ring
    rw [e, strided_append, rows]
    cases h : strided f 1 1 n x y st with
    | ok st1 =>
      simp only [Outcome.bind_ok]
      rw [ih, mul_one]
    | fault => rfl
    | timeout => rfl

/-- A position between the first and the last position of an arithmetic progression
lies between the bounds that hold for both. -/
theorem between_endpoints (a d n j len : Int) (h0 : 0 ≤ a) (h0' : a < len)
    (h1 : 0 ≤ a + (n - 1) * d) (h1' : a + (n - 1) * d < len) (hj0 : 0 ≤ j) (hj : j < n) :
    0 ≤ a + j * d ∧ a + j * d < len := by
  rcases le_or_lt 0 d with hd | hd
  · have e1 : 0 ≤ j * d := mul_nonneg hj0 hd
    have e2 : j * d ≤ (n - 1) * d := mul_le_mul_of_nonneg_right (by omega) hd
    constructor <;> omega
  · have e1 : j * d ≤ 0 := mul_nonpos_of_nonneg_of_nonpos hj0 (le_of_lt hd)
    have e2 : (n - 1) * d ≤ j * d := mul_le_mul_of_nonpos_right (by omega) (le_of_lt hd)
    constructor <;> omega

theorem calls3_succ (c : Int) (k : Nat) :
    calls3 c (k + 1) = Event.call [c, c, c] :: calls3 (c + 1) k := by
  unfold calls3
  rw [List.range_succ_eq_map, List.map_cons, List.map_map]
  refine congrArg₂ List.cons (by simp) (List.map_congr_left ?_)
  intro j _
  have h : c + ((j + 1 : Nat) : Int) = c + 1 + (j : Int) := by push_cast; omega
  simp only [Function.comp_apply, Nat.succ_eq_add_one, h]

theorem invoke3_eq {α β γ : Type} (f : α → β → γ → α × β × γ) (px py pz : Int)
    (X : List α) (Y : List β) (Z : List γ) (log : List Event) (x : α) (y : β) (z : γ)
    (h0 : 0 ≤ px) (hx : X[px.toNat]? = some x) (h1 : 0 ≤ py) (hy : Y[py.toNat]? = some y)
    (h2 : 0 ≤ pz) (hz : Z[pz.toNat]? = some z) :
    invoke3 f px py pz ⟨(X, Y, Z), log⟩ =
      .ok ⟨(X.set px.toNat (f x y z).1, Y.set py.toNat (f x y z).2.1,
        Z.set pz.toNat (f x y z).2.2), log ++ [Event.call [px, py, pz]]⟩ := by
  have g1 := getElem?_isSome_lt X _ x hx
  have g2 := getElem?_isSome_lt Y _ y hy
  have g3 := getElem?_isSome_lt Z _ z hz
  simp [invoke3, rd_eq X px x h0 hx, rd_eq Y py y h1 hy, rd_eq Z pz z h2 hz,
    wr_eq X px _ h0 (by omega), wr_eq Y py _ h1 (by omega), wr_eq Z pz _ h2 (by omega)]

/-- The flat three-buffer pointer loop of `FUN15`: `k` steps from `c`. -/
theorem ptr3_loop {α β γ : Type} (f : α → β → γ → α × β × γ) (stop : Int) :
    ∀ (k fuel : Nat) (c : Int) (X : List α) (Y : List β) (Z : List γ) (log : List Event),
      0 ≤ c → c + k = stop → c + k ≤ X.length → c + k ≤ Y.length → c + k ≤ Z.length →
      k ≤ fuel →
      ∃ st' : St (List α × List β × List γ),
        whileFuel
          (fun ((start_x, _, _, _) : Int × Int × Int × St (List α × List β × List γ)) =>
            start_x != stop)
          (fun (start_x, start_y, start_z, st) =>
            (invoke3 f start_x start_y start_z st).bind fun st =>
              .ok (start_x + 1, start_y + 1, start_z + 1, st))
          fuel (c, c, c, ⟨(X, Y, Z), log⟩) = .ok (stop, stop, stop, st') ∧
        st'.log = log ++ calls3 c k ∧
        st'.mem.1.length = X.length ∧ st'.mem.2.1.length = Y.length ∧
        st'.mem.2.2.length = Z.length := by
  intro k
  induction k with
  | zero =>
    intro fuel c X Y Z log _ hs _ _ _ _
    have : c = stop := by simpa using hs
    subst this
    refine ⟨⟨(X, Y, Z), log⟩, ?_, by simp [calls3], rfl, rfl, rfl⟩
    rw [whileFuel_false _ _ _ _ (by simp)]
  | succ k ih =>
    intro fuel c X Y Z log h0 hs hX hY hZ hfuel
    obtain ⟨fuel, rfl⟩ : ∃ m, fuel = m + 1 := ⟨fuel - 1, by omega⟩
    obtain ⟨x, hx⟩ := exists_getElem? X c h0 (by omega)
    obtain ⟨y, hy⟩ := exists_getElem? Y c h0 (by omega)
    obtain ⟨z, hz⟩ := exists_getElem? Z c h0 (by omega)
    have hc : c ≠ stop := by omega
    rw [whileFuel_true _ _ _ _ (by simpa using hc)]
    simp only [invoke3_eq f c c c X Y Z log x y z h0 hx h0 hy h0 hz, Outcome.bind_ok]
    obtain ⟨st', h1, h2, h3, h4, h5⟩ := ih fuel (c + 1) (X.set c.toNat (f x y z).1)
      (Y.set c.toNat (f x y z).2.1) (Z.set c.toNat (f x y z).2.2)
      (log ++ [Event.call [c, c, c]]) (by omega) (by push_cast at hs ⊢; omega)
      (by simp; push_cast at hX; omega) (by simp; push_cast at hY; omega)
      (by simp; push_cast at hZ; omega) (by omega)
    refine ⟨st', h1, ?_, by simpa using h3, by simpa using h4, by simpa using h5⟩
    rw [h2, calls3_succ]
    simp

/-- With enough fuel and a count that is not negative `FUN17` is the lock release,
`strided` with unit steps from the base positions and the lock reacquisition. -/
theorem FUN17_eq_strided {α β A : Type} (f : A → α → β → α × β) (fuel : Nat) (vN : Int)
    (X : List α) (Y : List β) (a : A) (hN : 0 ≤ Int_val vN) (hfuel : Int_val vN ≤ fuel) :
    FUN17 f fuel vN X Y a =
      (strided (f a) 1 1 (Int_val vN).toNat 0 0 ⟨(X, Y), [Event.release]⟩).bind
      fun st => .ok (caml_leave_blocking_section st) := by
  unfold FUN17
  simp only [caml_enter_blocking_section, List.nil_append, zero_add]
  rw [ptr2_loop (f a) (Int_val vN) (Int_val vN).toNat fuel 0 0 _ (by omega) (by omega),
    Outcome.bind_assoc]
  rfl

/-- A flat two-buffer run of `strided` inside the buffers returns with the calls
`[i, i]`, `i = 0 .. n-1`, logged after the lock release. -/
theorem strided_flat_log {α β : Type} (f : α → β → α × β) (n : Nat) (X : List α)
    (Y : List β) (hX : n ≤ X.length) (hY : n ≤ Y.length) :
    ∃ st' : St (List α × List β),
      strided f 1 1 n 0 0 ⟨(X, Y), [Event.release]⟩ = .ok st' ∧
      (caml_leave_blocking_section st').log = Event.release ::
        ((List.range n).map fun (i : Nat) => Event.call [(i : Int), (i : Int)])
        ++ [Event.acquire] := by
  obtain ⟨st', h1, h2, _, _⟩ := strided_ok f 1 1 n 0 0 ⟨(X, Y), [Event.release]⟩
    (fun j hj => by simp only; omega)
  refine ⟨st', h1, ?_⟩
  simp only [caml_leave_blocking_section, h2, calls2_flat_eq]
  rfl

/-- Unfolding `rows` at its last row. -/
theorem rows_succ_last {α β : Type} (f : α → β → α × β)
    (incx_m incy_m incx_n incy_n : Int) (n : Nat) :
    ∀ (k : Nat) (x y : Int) (st : St (List α × List β)),
      rows f incx_m incy_m incx_n incy_n n (k + 1) x y st =
        (rows f incx_m incy_m incx_n incy_n n k x y st).bind
          (strided f incx_n incy_n n (x + (k : Int) * incx_m) (y + (k : Int) * incy_m)) := by
  intro k
  induction k with
  | zero =>
    intro x y st
    simp only [rows, Outcome.bind_ok, Nat.cast_zero, zero_mul, add_zero]
    cases strided f incx_n incy_n n x y st <;> rfl
  | succ k ih =>
    intro x y st
    rw [rows]
    cases h : strided f incx_n incy_n n x y st with
    | ok st1 =>
      simp only [Outcome.bind_ok]
      rw [ih (x + incx_m) (y + incy_m) st1]
      have e1 : x + incx_m + (k : Int) * incx_m = x + ((k + 1 : Nat) : Int) * incx_m := by
        push_cast; ring
      have e2 : y + incy_m + (k : Int) * incy_m = y + ((k + 1 : Nat) : Int) * incy_m := by
        push_cast; ring
      rw [e1, e2]
      conv_rhs => rw [rows, h, Outcome.bind_ok]
    | fault => simp [rows, h]
    | timeout => simp [rows, h]

theorem calls_rows_succ_last (x y incx_m incy_m incx_n incy_n : Int) (n k : Nat) :
    calls_rows x y incx_m incy_m incx_n incy_n n (k + 1) =
      calls_rows x y incx_m incy_m incx_n incy_n n k ++
        calls2 (x + (k : Int) * incx_m) (y + (k : Int) * incy_m) incx_n incy_n n := by
  simp [calls_rows, List.range_succ]

/-- Result of `rows` for a slot that overwrites `*y` with `f (*x)`: the source is
unchanged, and the element at the destination position of invocation `(i, j)`
holds `f` of the source element of that invocation unless a later invocation has
the same destination position. -/
theorem rows_map_spec {α β : Type} (f : α → β) (incx_m incy_m incx_n incy_n : Int)
    (n : Nat) (X : List α) (x y : Int) :
    ∀ (k : Nat) (Y : List β) (log : List Event),
      (∀ i j : Nat, i < k → j < n →
        (0 ≤ x + (i : Int) * incx_m + (j : Int) * incx_n ∧
          x + (i : Int) * incx_m + (j : Int) * incx_n < X.length) ∧
        (0 ≤ y + (i : Int) * incy_m + (j : Int) * incy_n ∧
          y + (i : Int) * incy_m + (j : Int) * incy_n < Y.length)) →
      ∃ Y' : List β,
        rows (fun a _ => (a, f a)) incx_m incy_m incx_n incy_n n k x y ⟨(X, Y), log⟩ =
          .ok ⟨(X, Y'), log ++ calls_rows x y incx_m incy_m incx_n incy_n n k⟩ ∧
        Y'.length = Y.length ∧
        (∀ i j : Nat, i < k → j < n →
          (∀ i' j' : Nat, i' < k → j' < n → (i < i' ∨ (i = i' ∧ j < j')) →
            y + (i' : Int) * incy_m + (j' : Int) * incy_n ≠
              y + (i : Int) * incy_m + (j : Int) * incy_n) →
          Y'[(y + (i : Int) * incy_m + (j : Int) * incy_n).toNat]? =
            (X[(x + (i : Int) * incx_m + (j : Int) * incx_n).toNat]?).map f) ∧
        (∀ p : Nat,
          (∀ i j : Nat, i < k → j < n →
            y + (i : Int) * incy_m + (j : Int) * incy_n ≠ (p : Int)) →
          Y'[p]? = Y[p]?) := by
  intro k
  induction k with
  | zero =>
    intro Y log _
    exact ⟨Y, by simp [rows, calls_rows], rfl, fun i j hi => absurd hi (by omega),
      fun _ _ => rfl⟩
  | succ k ih =>
    intro Y log hb
    obtain ⟨Y1, h1, h2, h3, h4⟩ := ih Y log (fun i j hi hj => hb i j (by omega) hj)
    obtain ⟨Y2, g1, g2, g3, g4⟩ := strided_map_spec f incx_n incy_n X n
      (x + (k : Int) * incx_m) (y + (k : Int) * incy_m) Y1
      (log ++ calls_rows x y incx_m incy_m incx_n incy_n n k) (fun j hj => by
        have := hb k j (by omega) hj
        rw [h2]
        exact this)
    refine ⟨Y2, ?_, by rw [g2, h2], ?_, ?_⟩
    · rw [rows_succ_last, h1, Outcome.bind_ok, g1, calls_rows_succ_last, List.append_assoc]
    · intro i j hi hj hlast
      rcases Nat.lt_or_ge i k with hik | hik
      · have hpos := (hb i j hi hj).2.1
        have e : ((y + (i : Int) * incy_m + (j : Int) * incy_n).toNat : Int) =
            y + (i : Int) * incy_m + (j : Int) * incy_n := by omega
        rw [g4 _ (fun j' hj' => by
          rw [e]
          exact hlast k j' (by omega) hj' (Or.inl hik))]
        exact h3 i j hik hj (fun i' j' hi' hj' hlt => hlast i' j' (by omega) hj' hlt)
      · have e : i = k := by omega
        subst e
        exact g3 j hj (fun j' hjj' hj' => hlast i j' hi hj' (Or.inr ⟨rfl, hjj'⟩))
    · intro p hp
      rw [g4 p (fun j hj => hp k j (by omega) hj)]
      exact h4 p (fun i j hi hj => hp i j (by omega) hj)

theorem index_lt (i j m n : Nat) (hi : i < m) (hj : j < n) : i * n + j < m * n := by
  have h := Nat.mul_le_mul_right n (Nat.succ_le_of_lt hi)
  rw [Nat.succ_mul] at h
  omega

theorem transpose_index_inj (m i j i' j' : Nat) (hi : i < m) (hi' : i' < m)
    (h : i + j * m = i' + j' * m) : i = i' ∧ j = j' := by
  have hm : 0 < m := by omega
  have h1 : (i + j * m) % m = i := by
    rw [Nat.add_mul_mod_self_right, Nat.mod_eq_of_lt hi]
  have h2 : (i' + j' * m) % m = i' := by
    rw [Nat.add_mul_mod_self_right, Nat.mod_eq_of_lt hi']
  have h3 : (i + j * m) / m = j := by
    rw [Nat.add_mul_div_right _ _ hm, Nat.div_eq_of_lt hi, Nat.zero_add]
  have h4 : (i' + j' * m) / m = j' := by
    rw [Nat.add_mul_div_right _ _ hm, Nat.div_eq_of_lt hi', Nat.zero_add]
  rw [h] at h1 h3
  exact ⟨by rw [← h1, h2], by rw [← h3, h4]⟩

/-! ## Claims -/

/-- C1: flat vs. strided equivalence. For every slot, every count `N ≥ 0` and
buffers `X`, `Y` holding at least `N` elements, the flat two-buffer kernel `FUN14`
and the strided kernel `FUN19` called with `ofsx = ofsy = 0`, `incx = incy = 1`
return, and return the same buffers (and the same event log). -/
theorem FUN14_eq_FUN19_unit_stride {α β : Type} (MAPFN : α → β → α × β)
    (fuel1 fuel2 : Nat) (vN : Int) (X : List α) (Y : List β)
    (hN : 0 ≤ Int_val vN) (hX : Int_val vN ≤ X.length) (hY : Int_val vN ≤ Y.length)
    (hfuel1 : Int_val vN ≤ fuel1) (hfuel2 : Int_val vN ≤ fuel2) :
    ∃ r : St (List α × List β),
      FUN14 MAPFN fuel1 vN X Y = .ok r ∧ FUN19 MAPFN fuel2 vN X 0 1 Y 0 1 = .ok r ∧
      r.mem.1.length = X.length ∧ r.mem.2.length = Y.length := by
  obtain ⟨st', h1, _, h3, h4⟩ := strided_ok MAPFN 1 1 (Int_val vN).toNat 0 0
    ⟨(X, Y), [Event.release]⟩ (fun j hj => by simp only; omega)
  refine ⟨caml_leave_blocking_section st', ?_, ?_, h3, h4⟩
  · rw [FUN14_eq_strided MAPFN fuel1 vN X Y hN hfuel1, h1, Outcome.bind_ok]
  · rw [FUN19_eq_strided MAPFN fuel2 vN X 0 1 Y 0 1 hfuel2]
    simp only [Int_val_zero, Int_val_one]
    rw [h1, Outcome.bind_ok]

theorem FUN14_eq_FUN19_unit_stride_witness :
    ∃ r : St (List Nat × List Nat),
      FUN14 (fun x y => (x + 1, x + y)) 3 3 [1, 2, 3] [10, 20, 30, 40] = .ok r ∧
      FUN19 (fun x y => (x + 1, x + y)) 4 3 [1, 2, 3] 0 1 [10, 20, 30, 40] 0 1 = .ok r ∧
      r.mem.1.length = [1, 2, 3].length ∧ r.mem.2.length = [10, 20, 30, 40].length :=
  FUN14_eq_FUN19_unit_stride (fun x y => (x + 1, x + y)) 3 4 3 [1, 2, 3] [10, 20, 30, 40]
    (by decide) (by decide) (by decide) (by decide) (by decide)

/-- C2: 2D reduces to 1D. For every slot, inner count, offsets, inner increments
and all outer increments, `FUN20` called with outer count `M = 1` has the same
outcome (event log, hence sequence of slot invocations, and final buffers) as
`FUN19` called with the inner parameters. -/
theorem FUN20_one_row_eq_FUN19 {α β : Type} (MAPFN : α → β → α × β) (fuel : Nat)
    (vN : Int) (X : List α) (vOFSX vINCX_M vINCX_N : Int) (Y : List β)
    (vOFSY vINCY_M vINCY_N : Int) (hfuel : 1 ≤ fuel) :
    FUN20 MAPFN fuel 1 vN X vOFSX vINCX_M vINCX_N Y vOFSY vINCY_M vINCY_N =
      FUN19 MAPFN fuel vN X vOFSX vINCX_N Y vOFSY vINCY_N := by
  obtain ⟨m, rfl⟩ : ∃ m, fuel = m + 1 := ⟨fuel - 1, by omega⟩
  unfold FUN20 FUN20_IMPL FUN19 FUN19_IMPL
  simp only [Int_val_one]
  rw [whileFuel_true _ _ _ _ (by simp)]
  simp only []
  generalize whileFuel (fun ((j, _, _, _) : Int × Int × Int × St (List α × List β)) =>
      decide (j < Int_val vN))
    (fun (j, start_x_n, start_y_n, st) =>
      (invoke2 MAPFN start_x_n start_y_n st).bind fun st =>
        .ok (j + 1, start_x_n + Int_val vINCX_N, start_y_n + Int_val vINCY_N, st))
    (m + 1) (0, 0 + Int_val vOFSX, 0 + Int_val vOFSY,
      caml_enter_blocking_section ⟨(X, Y), []⟩) = inner
  cases inner with
  | ok s =>
    obtain ⟨j, x, y, st⟩ := s
    simp only [Outcome.bind_ok]
    rw [whileFuel_false _ _ _ _ (by simp)]
    rfl
  | fault => rfl
  | timeout => rfl

theorem FUN20_one_row_eq_FUN19_witness :
    FUN20 (fun (x : Nat) (_ : Nat) => (x, 2 * x)) 3 1 3 [1, 2, 3, 4, 5, 6] 1 7 2
        [0, 0, 0, 0, 0, 0] 5 (-9) (-1) =
      FUN19 (fun (x : Nat) (_ : Nat) => (x, 2 * x)) 3 3 [1, 2, 3, 4, 5, 6] 1 2
        [0, 0, 0, 0, 0, 0] 5 (-1) ∧
    FUN19 (fun (x : Nat) (_ : Nat) => (x, 2 * x)) 3 3 [1, 2, 3, 4, 5, 6] 1 2
        [0, 0, 0, 0, 0, 0] 5 (-1) =
      .ok ⟨([1, 2, 3, 4, 5, 6], [0, 0, 0, 12, 8, 4]),
        [.release, .call [1, 5], .call [3, 4], .call [5, 3], .acquire]⟩ :=
  ⟨FUN20_one_row_eq_FUN19 _ 3 3 _ 1 7 2 _ 5 (-9) (-1) (by decide), by decide⟩

/-- C3: zero-count no-op. Every kernel called with count `0` (for `FUN20`: outer
count `0`, or inner count `0`) invokes no slot and touches no buffer element: it
returns with all buffers unchanged and a log that holds the lock release and
reacquisition only, for all buffers (empty ones included), offsets, increments,
scalars, bases and slots. -/
theorem zero_count_noop {α β γ A B K : Type} [DecidableEq K]
    (f1 : α → α) (f12 : α → β) (g g1 g2 g3 : A → B → α → α) (c2 c10 ce base : K)
    (f2 : α → β → α × β) (f3 : α → β → γ → α × β × γ) (h : A → α → β → α × β)
    (fuel fuelM : Nat) (X : List α) (Y : List β) (Z : List γ) (a : A) (b : B)
    (vM vN vOFSX vINCX vOFSY vINCY vINCX_M vINCX_N vINCY_M vINCY_N : Int)
    (hfuel : Int_val vM ≤ fuelM) :
    FUN3 f1 fuel 0 X = .ok ⟨X, [Event.release, Event.acquire]⟩ ∧
    FUN4 f12 fuel 0 X Y = .ok ⟨(X, Y), [Event.release, Event.acquire]⟩ ∧
    FUN12 g fuel 0 a b X = .ok ⟨X, [Event.release, Event.acquire]⟩ ∧
    FUN13 c2 c10 ce g g1 g2 g3 fuel 0 base a b X =
      .ok ⟨X, [Event.release, Event.acquire]⟩ ∧
    FUN14 f2 fuel 0 X Y = .ok ⟨(X, Y), [Event.release, Event.acquire]⟩ ∧
    FUN15 f3 fuel 0 X Y Z = .ok ⟨(X, Y, Z), [Event.release, Event.acquire]⟩ ∧
    FUN17 h fuel 0 X Y a = .ok ⟨(X, Y), [Event.release, Event.acquire]⟩ ∧
    FUN18 g fuel 0 X a b = .ok ⟨X, [Event.release, Event.acquire]⟩ ∧
    FUN19 f2 fuel 0 X vOFSX vINCX Y vOFSY vINCY =
      .ok ⟨(X, Y), [Event.release, Event.acquire]⟩ ∧
    FUN20 f2 fuel 0 vN X vOFSX vINCX_M vINCX_N Y vOFSY vINCY_M vINCY_N =
      .ok ⟨(X, Y), [Event.release, Event.acquire]⟩ ∧
    FUN20 f2 fuelM vM 0 X vOFSX vINCX_M vINCX_N Y vOFSY vINCY_M vINCY_N =
      .ok ⟨(X, Y), [Event.release, Event.acquire]⟩ := by
  refine ⟨?_, ?_, ?_, ?_, ?_, ?_, ?_, ?_, ?_, ?_, ?_⟩
  · cases fuel <;>
      simp [FUN3, whileFuel, caml_enter_blocking_section, caml_leave_blocking_section]
  · cases fuel <;>
      simp [FUN4, whileFuel, caml_enter_blocking_section, caml_leave_blocking_section]
  · cases fuel <;>
      simp [FUN12, whileFuel, caml_enter_blocking_section, caml_leave_blocking_section]
  · unfold FUN13
    simp only []
    split_ifs <;> cases fuel <;>
      simp [whileFuel, caml_enter_blocking_section, caml_leave_blocking_section]
  · cases fuel <;>
      simp [FUN14, whileFuel, caml_enter_blocking_section, caml_leave_blocking_section]
  · cases fuel <;>
      simp [FUN15, whileFuel, caml_enter_blocking_section, caml_leave_blocking_section]
  · cases fuel <;>
      simp [FUN17, whileFuel, caml_enter_blocking_section, caml_leave_blocking_section]
  · cases fuel <;>
      simp [FUN18, whileFuel, caml_enter_blocking_section, caml_leave_blocking_section]
  · cases fuel <;>
      simp [FUN19, FUN19_IMPL, whileFuel, caml_enter_blocking_section,
        caml_leave_blocking_section]
  · cases fuel <;>
      simp [FUN20, FUN20_IMPL, whileFuel, caml_enter_blocking_section,
        caml_leave_blocking_section]
  · rw [FUN20_eq_rows f2 fuelM vM 0 X vOFSX vINCX_M vINCX_N Y vOFSY vINCY_M vINCY_N hfuel
      (by simp)]
    simp [rows_zero, caml_leave_blocking_section]

theorem zero_count_noop_witness :
    Int_val 2 ≤ ((2 : Nat) : Int) ∧
    (FUN3 (fun x : Nat => x + 1) 0 0 [] = .ok ⟨[], [Event.release, Event.acquire]⟩ ∧
    FUN4 (fun x : Nat => 2 * x) 0 0 [] [] =
      .ok ⟨([], []), [Event.release, Event.acquire]⟩ ∧
    FUN12 (fun (a b x : Nat) => a + b * x) 0 0 1 2 [] =
      .ok ⟨[], [Event.release, Event.acquire]⟩ ∧
    FUN13 (2 : Nat) 10 3 (fun (a b x : Nat) => a + b * x) (fun _ _ x => x + 10)
        (fun _ _ x => x + 3) (fun _ _ x => x) 0 0 7 1 2 [] =
      .ok ⟨[], [Event.release, Event.acquire]⟩ ∧
    FUN14 (fun (x y : Nat) => (y, x)) 0 0 [] [] =
      .ok ⟨([], []), [Event.release, Event.acquire]⟩ ∧
    FUN15 (fun (x y _ : Nat) => (x, y, x + y)) 0 0 [] [] [] =
      .ok ⟨([], [], []), [Event.release, Event.acquire]⟩ ∧
    FUN17 (fun (a x _ : Nat) => (x, a + x)) 0 0 [] [] 1 =
      .ok ⟨([], []), [Event.release, Event.acquire]⟩ ∧
    FUN18 (fun (a b x : Nat) => a + b * x) 0 0 [] 1 2 =
      .ok ⟨[], [Event.release, Event.acquire]⟩ ∧
    FUN19 (fun (x y : Nat) => (y, x)) 0 0 [] 5 (-3) [] (-7) 0 =
      .ok ⟨([], []), [Event.release, Event.acquire]⟩ ∧
    FUN20 (fun (x y : Nat) => (y, x)) 0 0 4 [] 5 (-3) 2 [] (-7) 0 9 =
      .ok ⟨([], []), [Event.release, Event.acquire]⟩ ∧
    FUN20 (fun (x y : Nat) => (y, x)) 2 2 0 [] 5 (-3) 2 [] (-7) 0 9 =
      .ok ⟨([], []), [Event.release, Event.acquire]⟩) :=
  ⟨by decide, zero_count_noop (fun x : Nat => x + 1) (fun x : Nat => 2 * x)
    (fun (a b x : Nat) => a + b * x) (fun (_ _ x : Nat) => x + 10) (fun _ _ x => x + 3)
    (fun _ _ x => x) (2 : Nat) 10 3 7 (fun (x y : Nat) => (y, x))
    (fun (x y _ : Nat) => (x, y, x + y)) (fun (a x _ : Nat) => (x, a + x)) 0 2 [] [] []
    1 2 2 4 5 (-3) (-7) 0 (-3) 2 0 9 (by decide)⟩

/-- C4: strided-2D traversal order. For `M, N ≥ 0` and positions that all lie
inside the buffers, `FUN20` returns and its log is the lock release, then for
`i = 0 .. M-1` (outer) and `j = 0 .. N-1` (inner), in ascending lexicographic
order, one slot invocation at X position `ofsx + i*incx_m + j*incx_n` and Y
position `ofsy + i*incy_m + j*incy_n`, then the lock reacquisition: `M*N`
invocations in all. -/
theorem FUN20_traversal_order {α β : Type} (MAPFN : α → β → α × β) (fuel : Nat)
    (vM vN : Int) (X : List α) (vOFSX vINCX_M vINCX_N : Int) (Y : List β)
    (vOFSY vINCY_M vINCY_N : Int)
    (hM : 0 ≤ Int_val vM) (hN : 0 ≤ Int_val vN)
    (hfuelM : Int_val vM ≤ fuel) (hfuelN : Int_val vN ≤ fuel)
    (hb : ∀ i j : Nat, (i : Int) < Int_val vM → (j : Int) < Int_val vN →
      (0 ≤ Int_val vOFSX + (i : Int) * Int_val vINCX_M + (j : Int) * Int_val vINCX_N ∧
        Int_val vOFSX + (i : Int) * Int_val vINCX_M + (j : Int) * Int_val vINCX_N
          < X.length) ∧
      (0 ≤ Int_val vOFSY + (i : Int) * Int_val vINCY_M + (j : Int) * Int_val vINCY_N ∧
        Int_val vOFSY + (i : Int) * Int_val vINCY_M + (j : Int) * Int_val vINCY_N
          < Y.length)) :
    ∃ r : St (List α × List β),
      FUN20 MAPFN fuel vM vN X vOFSX vINCX_M vINCX_N Y vOFSY vINCY_M vINCY_N = .ok r ∧
      r.log = Event.release ::
        ((List.range (Int_val vM).toNat).flatMap fun (i : Nat) =>
          (List.range (Int_val vN).toNat).map fun (j : Nat) =>
            Event.call
              [Int_val vOFSX + (i : Int) * Int_val vINCX_M + (j : Int) * Int_val vINCX_N,
               Int_val vOFSY + (i : Int) * Int_val vINCY_M + (j : Int) * Int_val vINCY_N])
        ++ [Event.acquire] ∧
      ((r.log.countP Event.isCall : Nat) : Int) = Int_val vM * Int_val vN := by
  obtain ⟨st', h1, h2, _, _⟩ := rows_ok MAPFN (Int_val vINCX_M) (Int_val vINCY_M)
    (Int_val vINCX_N) (Int_val vINCY_N) (Int_val vN).toNat (Int_val vM).toNat
    (Int_val vOFSX) (Int_val vOFSY) ⟨(X, Y), [Event.release]⟩
    (fun i j hi hj => hb i j (by omega) (by omega))
  have hlog : (caml_leave_blocking_section st').log = Event.release ::
      calls_rows (Int_val vOFSX) (Int_val vOFSY) (Int_val vINCX_M) (Int_val vINCY_M)
        (Int_val vINCX_N) (Int_val vINCY_N) (Int_val vN).toNat (Int_val vM).toNat
      ++ [Event.acquire] := by
    simp [caml_leave_blocking_section, h2]
  refine ⟨caml_leave_blocking_section st', ?_, ?_, ?_⟩
  · rw [FUN20_eq_rows MAPFN fuel vM vN X vOFSX vINCX_M vINCX_N Y vOFSY vINCY_M vINCY_N
      hfuelM hfuelN, h1, Outcome.bind_ok]
  · rw [hlog]; rfl
  · have e1 : ((Int_val vM).toNat : Int) = Int_val vM := by omega
    have e2 : ((Int_val vN).toNat : Int) = Int_val vN := by omega
    rw [hlog, List.countP_append, List.countP_cons, countP_calls_rows]
    simp only [Event.isCall, List.countP_cons, List.countP_nil]
    push_cast
    rw [e1, e2]
    simp

theorem FUN20_traversal_order_witness :
    ∃ r : St (List Nat × List Nat),
      FUN20 (fun x _ => (x, x)) 3 2 3 [1, 2, 3, 4, 5, 6] 0 3 1 [0, 0, 0, 0, 0, 0] 0 1 2
        = .ok r ∧
      r.log = Event.release ::
        ((List.range (Int_val 2).toNat).flatMap fun (i : Nat) =>
          (List.range (Int_val 3).toNat).map fun (j : Nat) =>
            Event.call
              [Int_val 0 + (i : Int) * Int_val 3 + (j : Int) * Int_val 1,
               Int_val 0 + (i : Int) * Int_val 1 + (j : Int) * Int_val 2])
        ++ [Event.acquire] ∧
      ((r.log.countP Event.isCall : Nat) : Int) = Int_val 2 * Int_val 3 :=
  FUN20_traversal_order (fun x _ => (x, x)) 3 2 3 [1, 2, 3, 4, 5, 6] 0 3 1
    [0, 0, 0, 0, 0, 0] 0 1 2 (by decide) (by decide) (by decide) (by decide)
    (fun i j hi hj => by
      have e0 : Int_val 0 = 0 := by decide
      have e1 : Int_val 1 = 1 := by decide
      have e2 : Int_val 2 = 2 := by decide
      have e3 : Int_val 3 = 3 := by decide
      rw [e2] at hi
      rw [e3] at hj
      simp only [e0, e1, e2, e3, List.length_cons, List.length_nil]
      omega)

/-- C5: reverse traversal. For a buffer `X` of length `N ≥ 1`, `FUN19` called with
`ofsx = N-1` and `incx = -1` returns and its `i`-th invocation (`i = 0 .. N-1`) is
given X position `N-1-i`; with the copy slot `y := x`, `ofsy = 0` and `incy = 1`
the source is unchanged and the first `N` elements of the destination are the
reverse of `X`, the others unchanged. -/
theorem FUN19_reverse {α β : Type} (MAPFN : α → β → α × β) (fuel : Nat) (vN : Int)
    (X : List α) (Y : List β) (vOFSY vINCY : Int) (D : List α)
    (hN : 1 ≤ Int_val vN) (hX : (X.length : Int) = Int_val vN)
    (hY : ∀ i : Nat, (i : Int) < Int_val vN →
      0 ≤ Int_val vOFSY + (i : Int) * Int_val vINCY ∧
      Int_val vOFSY + (i : Int) * Int_val vINCY < Y.length)
    (hD : Int_val vN ≤ D.length) (hfuel : Int_val vN ≤ fuel) :
    (∃ r : St (List α × List β),
      FUN19 MAPFN fuel vN X (Int_val vN - 1) (-1) Y vOFSY vINCY = .ok r ∧
      r.log = Event.release ::
        ((List.range (Int_val vN).toNat).map fun (i : Nat) =>
          Event.call [Int_val vN - 1 - (i : Int), Int_val vOFSY + (i : Int) * Int_val vINCY])
        ++ [Event.acquire]) ∧
    (∃ (D' : List α) (log : List Event),
      FUN19 (fun x _ => (x, x)) fuel vN X (Int_val vN - 1) (-1) D 0 1 = .ok ⟨(X, D'), log⟩ ∧
      D'.length = D.length ∧
      D'.take (Int_val vN).toNat = X.reverse ∧
      ∀ i : Nat, Int_val vN ≤ (i : Int) → D'[i]? = D[i]?) := by
  have hr := Int_val_range vN
  have e1 : Int_val (Int_val vN - 1) = Int_val vN - 1 :=
    Int_val_of_range (by omega) (by omega)
  constructor
  · obtain ⟨st', h1, h2, _, _⟩ := strided_ok MAPFN (-1) (Int_val vINCY) (Int_val vN).toNat
      (Int_val vN - 1) (Int_val vOFSY) ⟨(X, Y), [Event.release]⟩ (fun j hj => by
        have := hY j (by omega)
        simp only
        omega)
    refine ⟨caml_leave_blocking_section st', ?_, ?_⟩
    · rw [FUN19_eq_strided MAPFN fuel vN X _ _ Y _ _ hfuel, e1, Int_val_neg_one, h1,
        Outcome.bind_ok]
    · simp only [caml_leave_blocking_section, h2, calls2_reverse]
      rfl
  · obtain ⟨D', h1, h2, h3, h4⟩ := strided_map_spec (fun a : α => a) (-1) 1 X
      (Int_val vN).toNat (Int_val vN - 1) 0 D [Event.release] (fun j hj => by omega)
    refine ⟨D', ([Event.release] ++ calls2 (Int_val vN - 1) 0 (-1) 1 (Int_val vN).toNat)
      ++ [Event.acquire], ?_, h2, ?_, ?_⟩
    · rw [FUN19_eq_strided _ fuel vN X _ _ D _ _ hfuel, e1, Int_val_neg_one, Int_val_zero,
        Int_val_one]
      exact congrArg (fun o => Outcome.bind o _) h1
    · apply List.ext_getElem?
      intro p
      rw [List.getElem?_take]
      by_cases hp : p < (Int_val vN).toNat
      · have hp' : p < X.length := by omega
        have g := h3 p hp (fun j' _ _ => by omega)
        have i1 : ((0 : Int) + (p : Int) * 1).toNat = p := by omega
        have i2 : (Int_val vN - 1 + (p : Int) * (-1)).toNat = X.length - 1 - p := by omega
        rw [i1, i2] at g
        rw [if_pos hp, g, List.getElem?_reverse hp']
        cases X[X.length - 1 - p]? <;> rfl
      · rw [if_neg hp, List.getElem?_eq_none (by simp; omega)]
    · intro i hi
      exact h4 i (fun j hj => by omega)

theorem FUN19_reverse_witness :
    (∃ r : St (List Nat × List Nat),
      FUN19 (fun x y => (x + y, x * y)) 5 5 [1, 2, 3, 4, 5] (Int_val 5 - 1) (-1)
        [1, 1, 1, 1, 1, 1, 1, 1, 1] 8 (-2) = .ok r ∧
      r.log = Event.release ::
        ((List.range (Int_val 5).toNat).map fun (i : Nat) =>
          Event.call [Int_val 5 - 1 - (i : Int), Int_val 8 + (i : Int) * Int_val (-2)])
        ++ [Event.acquire]) ∧
    (∃ (D' : List Nat) (log : List Event),
      FUN19 (fun x _ => (x, x)) 5 5 [1, 2, 3, 4, 5] (Int_val 5 - 1) (-1) [0, 0, 0, 0, 0, 9] 0 1
        = .ok ⟨([1, 2, 3, 4, 5], D'), log⟩ ∧
      D'.length = [0, 0, 0, 0, 0, 9].length ∧
      D'.take (Int_val 5).toNat = [1, 2, 3, 4, 5].reverse ∧
      ∀ i : Nat, Int_val 5 ≤ (i : Int) → D'[i]? = ([0, 0, 0, 0, 0, 9] : List Nat)[i]?) :=
  FUN19_reverse (fun x y => (x + y, x * y)) 5 5 [1, 2, 3, 4, 5] [1, 1, 1, 1, 1, 1, 1, 1, 1]
    8 (-2) [0, 0, 0, 0, 0, 9] (by decide) (by decide)
    (fun i hi => by
      have e5 : Int_val 5 = 5 := by decide
      have e8 : Int_val 8 = 8 := by decide
      have e2 : Int_val (-2) = -2 := by decide
      rw [e5] at hi
      simp only [e8, e2, List.length_cons, List.length_nil]
      omega)
    (by decide) (by decide)

/-- C6: zero increment. For `N ≥ 1` and positions inside the buffers, `FUN19`
called with `incx = incy = 0` returns after `N` slot invocations, all at the
position pair `(ofsx, ofsy)`, and leaves every other element of both buffers
unchanged; called with `incy = 0` (any `incx`) and a slot that overwrites `y` with
`f x`, it leaves `X` unchanged, `Y[ofsy] = f (X[ofsx + (N-1)*incx])` and every
other element of `Y` unchanged. -/
theorem FUN19_zero_increment {α β : Type} (MAPFN : α → β → α × β) (f : α → β)
    (fuel : Nat) (vN : Int) (X : List α) (vOFSX vINCX : Int) (Y : List β) (vOFSY : Int)
    (hN : 1 ≤ Int_val vN) (hfuel : Int_val vN ≤ fuel)
    (hX : ∀ i : Nat, (i : Int) < Int_val vN →
      0 ≤ Int_val vOFSX + (i : Int) * Int_val vINCX ∧
      Int_val vOFSX + (i : Int) * Int_val vINCX < X.length)
    (hY : 0 ≤ Int_val vOFSY ∧ Int_val vOFSY < Y.length) :
    (∃ r : St (List α × List β),
      FUN19 MAPFN fuel vN X vOFSX 0 Y vOFSY 0 = .ok r ∧
      r.log = Event.release ::
        List.replicate (Int_val vN).toNat (Event.call [Int_val vOFSX, Int_val vOFSY])
        ++ [Event.acquire] ∧
      (∀ p : Nat, (p : Int) ≠ Int_val vOFSX → r.mem.1[p]? = X[p]?) ∧
      (∀ p : Nat, (p : Int) ≠ Int_val vOFSY → r.mem.2[p]? = Y[p]?)) ∧
    (∃ (Y' : List β) (log : List Event),
      FUN19 (fun x _ => (x, f x)) fuel vN X vOFSX vINCX Y vOFSY 0 = .ok ⟨(X, Y'), log⟩ ∧
      Y'[(Int_val vOFSY).toNat]? =
        (X[(Int_val vOFSX + (Int_val vN - 1) * Int_val vINCX).toNat]?).map f ∧
      (∀ p : Nat, (p : Int) ≠ Int_val vOFSY → Y'[p]? = Y[p]?)) := by
  have hX0 := hX 0 (by omega)
  constructor
  · have hb : ∀ j : Nat, j < (Int_val vN).toNat →
        (0 ≤ Int_val vOFSX + (j : Int) * 0 ∧
          Int_val vOFSX + (j : Int) * 0 < ((X, Y).1.length : Int)) ∧
        (0 ≤ Int_val vOFSY + (j : Int) * 0 ∧
          Int_val vOFSY + (j : Int) * 0 < ((X, Y).2.length : Int)) := by
      intro j _
      simp only [mul_zero, add_zero]
      omega
    obtain ⟨st', h1, h2, _, _⟩ := strided_ok MAPFN 0 0 (Int_val vN).toNat
      (Int_val vOFSX) (Int_val vOFSY) ⟨(X, Y), [Event.release]⟩ hb
    obtain ⟨_, h1', h3, h4⟩ := strided_frame MAPFN 0 0 (Int_val vN).toNat
      (Int_val vOFSX) (Int_val vOFSY) ⟨(X, Y), [Event.release]⟩ hb
    rw [h1] at h1'
    cases h1'
    refine ⟨caml_leave_blocking_section st', ?_, ?_, ?_, ?_⟩
    · rw [FUN19_eq_strided MAPFN fuel vN X _ _ Y _ _ hfuel, Int_val_zero, h1,
        Outcome.bind_ok]
    · simp only [caml_leave_blocking_section, h2, calls2_zero_inc]
      rfl
    · intro p hp
      exact h3 p (fun j _ => by simp only [mul_zero, add_zero]; omega)
    · intro p hp
      exact h4 p (fun j _ => by simp only [mul_zero, add_zero]; omega)
  · obtain ⟨Y', h1, _, h3, h4⟩ := strided_map_spec f (Int_val vINCX) 0 X
      (Int_val vN).toNat (Int_val vOFSX) (Int_val vOFSY) Y [Event.release] (fun j hj => by
        have := hX j (by omega)
        simp only [mul_zero, add_zero]
        omega)
    refine ⟨Y', ([Event.release] ++ calls2 (Int_val vOFSX) (Int_val vOFSY) (Int_val vINCX) 0
      (Int_val vN).toNat) ++ [Event.acquire], ?_, ?_, ?_⟩
    · rw [FUN19_eq_strided _ fuel vN X _ _ Y _ _ hfuel, Int_val_zero]
      exact congrArg (fun o => Outcome.bind o _) h1
    · have g := h3 ((Int_val vN).toNat - 1) (by omega) (fun j' _ _ => by omega)
      have i1 : (((Int_val vN).toNat - 1 : Nat) : Int) = Int_val vN - 1 := by omega
      rw [i1] at g
      simpa using g
    · intro p hp
      exact h4 p (fun j _ => by simp only [mul_zero, add_zero]; omega)

theorem FUN19_zero_increment_witness :
    (∃ r : St (List Nat × List Nat),
      FUN19 (fun x y => (x + 1, x + y)) 5 5 [1, 2, 3, 4, 5, 6] 1 0 [10, 20, 30] 2 0 = .ok r ∧
      r.log = Event.release ::
        List.replicate (Int_val 5).toNat (Event.call [Int_val 1, Int_val 2])
        ++ [Event.acquire] ∧
      (∀ p : Nat, (p : Int) ≠ Int_val 1 →
        r.mem.1[p]? = ([1, 2, 3, 4, 5, 6] : List Nat)[p]?) ∧
      (∀ p : Nat, (p : Int) ≠ Int_val 2 → r.mem.2[p]? = ([10, 20, 30] : List Nat)[p]?)) ∧
    (∃ (Y' : List Nat) (log : List Event),
      FUN19 (fun x _ => (x, 10 * x)) 5 5 [1, 2, 3, 4, 5, 6] 1 1 [10, 20, 30] 2 0 =
        .ok ⟨([1, 2, 3, 4, 5, 6], Y'), log⟩ ∧
      Y'[(Int_val 2).toNat]? =
        (([1, 2, 3, 4, 5, 6] : List Nat)[(Int_val 1 + (Int_val 5 - 1) * Int_val 1).toNat]?).map
          (fun x => 10 * x) ∧
      (∀ p : Nat, (p : Int) ≠ Int_val 2 → Y'[p]? = ([10, 20, 30] : List Nat)[p]?)) :=
  FUN19_zero_increment (fun x y => (x + 1, x + y)) (fun x => 10 * x) 5 5
    [1, 2, 3, 4, 5, 6] 1 1 [10, 20, 30] 2 (by decide) (by decide)
    (fun i hi => by
      have e5 : Int_val 5 = 5 := by decide
      have e1 : Int_val 1 = 1 := by decide
      rw [e5] at hi
      simp only [e1, List.length_cons, List.length_nil]
      omega)
    (by decide)

/-- C7: unary in-place map. For every operation, count `N ≥ 0` and buffer holding
at least `N` elements, `FUN3` returns a buffer of the same length with
`X'[i] = f (X[i])` for `i < N` and `X'[i] = X[i]` for `i ≥ N`, having invoked the
slot once at each of the positions `0, .., N-1`, in that order. -/
theorem FUN3_maps_first_N {α : Type} (MAPFN : α → α) (fuel : Nat) (vN : Int) (X : List α)
    (hN : 0 ≤ Int_val vN) (hlen : Int_val vN ≤ X.length) (hfuel : Int_val vN ≤ fuel) :
    ∃ X' : List α,
      FUN3 MAPFN fuel vN X =
        .ok ⟨X', Event.release ::
          ((List.range (Int_val vN).toNat).map fun (i : Nat) => Event.call [(i : Int)])
          ++ [Event.acquire]⟩ ∧
      X'.length = X.length ∧
      (∀ i : Nat, (i : Int) < Int_val vN → X'[i]? = (X[i]?).map MAPFN) ∧
      (∀ i : Nat, Int_val vN ≤ (i : Int) → X'[i]? = X[i]?) := by
  obtain ⟨X', h1, h2, h3⟩ := FUN3_spec MAPFN fuel vN X hN hlen hfuel
  refine ⟨X', ?_, h2, ?_, ?_⟩
  · rw [h1, calls1_zero_eq]
  · intro i hi
    rw [h3 i, if_pos hi]
  · intro i hi
    rw [h3 i, if_neg (by omega)]

theorem FUN3_maps_first_N_witness :
    ∃ X' : List Nat,
      FUN3 (fun x => x * x) 5 3 [1, 2, 3, 4] =
        .ok ⟨X', Event.release ::
          ((List.range (Int_val 3).toNat).map fun (i : Nat) => Event.call [(i : Int)])
          ++ [Event.acquire]⟩ ∧
      X'.length = [1, 2, 3, 4].length ∧
      (∀ i : Nat, (i : Int) < Int_val 3 →
        X'[i]? = (([1, 2, 3, 4] : List Nat)[i]?).map fun x => x * x) ∧
      (∀ i : Nat, Int_val 3 ≤ (i : Int) → X'[i]? = ([1, 2, 3, 4] : List Nat)[i]?) :=
  FUN3_maps_first_N (fun x => x * x) 5 3 [1, 2, 3, 4] (by decide) (by decide) (by decide)

/-- C8: unary cross-type map. For every operation from the source to the
destination element type, count `N ≥ 0` and separate buffers holding at least `N`
elements, `FUN4` returns with the source unchanged and a destination of the same
length with `Y'[i] = f (X[i])` for `i < N` and `Y'[i] = Y[i]` for `i ≥ N`. -/
theorem FUN4_maps_first_N {α β : Type} (MAPFN : α → β) (fuel : Nat) (vN : Int)
    (X : List α) (Y : List β) (hN : 0 ≤ Int_val vN) (hX : Int_val vN ≤ X.length)
    (hY : Int_val vN ≤ Y.length) (hfuel : Int_val vN ≤ fuel) :
    ∃ (Y' : List β) (log : List Event),
      FUN4 MAPFN fuel vN X Y = .ok ⟨(X, Y'), log⟩ ∧
      Y'.length = Y.length ∧
      (∀ i : Nat, (i : Int) < Int_val vN → Y'[i]? = (X[i]?).map MAPFN) ∧
      (∀ i : Nat, Int_val vN ≤ (i : Int) → Y'[i]? = Y[i]?) := by
  obtain ⟨Y', h1, h2, h3⟩ := FUN4_spec MAPFN fuel vN X Y hN hX hY hfuel
  refine ⟨Y', _, h1, h2, ?_, ?_⟩
  · intro i hi
    rw [h3 i, if_pos hi]
  · intro i hi
    rw [h3 i, if_neg (by omega)]

theorem FUN4_maps_first_N_witness :
    ∃ (Y' : List (Int × Int)) (log : List Event),
      FUN4 (fun x : Int => (x, 0)) 2 2 [3, -1, 4] [(9, 9), (8, 8), (7, 7)] =
        .ok ⟨([3, -1, 4], Y'), log⟩ ∧
      Y'.length = [((9, 9) : Int × Int), (8, 8), (7, 7)].length ∧
      (∀ i : Nat, (i : Int) < Int_val 2 →
        Y'[i]? = (([3, -1, 4] : List Int)[i]?).map fun x : Int => (x, (0 : Int))) ∧
      (∀ i : Nat, Int_val 2 ≤ (i : Int) →
        Y'[i]? = ([(9, 9), (8, 8), (7, 7)] : List (Int × Int))[i]?) :=
  FUN4_maps_first_N (fun x : Int => (x, 0)) 2 2 [3, -1, 4] [(9, 9), (8, 8), (7, 7)]
    (by decide) (by decide) (by decide) (by decide)

/-- C9: in-place identity. For every count `N ≥ 0` and buffer holding at least `N`
elements, `FUN3` with the identity operation returns the buffer unchanged in
every position. -/
theorem FUN3_identity {α : Type} (fuel : Nat) (vN : Int) (X : List α)
    (hN : 0 ≤ Int_val vN) (hlen : Int_val vN ≤ X.length) (hfuel : Int_val vN ≤ fuel) :
    ∃ log : List Event, FUN3 (fun x : α => x) fuel vN X = .ok ⟨X, log⟩ := by
  obtain ⟨X', h1, _, h3⟩ := FUN3_spec (fun x : α => x) fuel vN X hN hlen hfuel
  have e : X' = X := by
    apply List.ext_getElem?
    intro p
    rw [h3 p]
    split_ifs <;> simp
  rw [e] at h1
  exact ⟨_, h1⟩

theorem FUN3_identity_witness :
    ∃ log : List Event,
      FUN3 (fun x : Nat => x) 4 4 [5, 6, 7, 8, 9] = .ok ⟨[5, 6, 7, 8, 9], log⟩ :=
  FUN3_identity 4 4 [5, 6, 7, 8, 9] (by decide) (by decide) (by decide)

/-- C10: cross-type round trip. Mapping `X` into `Y` with `FUN4` and a promotion
`p`, then the result into `Z` with `FUN4` and a projection `r`, leaves in `Z` what
one `FUN4` map of `X` into `Z` with the composed operation `r ∘ p` leaves; when
`r (p x) = x` for every `x`, the first `N` elements of the final `Z` are those of
`X`. -/
theorem FUN4_round_trip {α β : Type} (p : α → β) (r : β → α) (fuel : Nat) (vN : Int)
    (X : List α) (Y : List β) (Z : List α) (hN : 0 ≤ Int_val vN)
    (hX : Int_val vN ≤ X.length) (hY : Int_val vN ≤ Y.length) (hZ : Int_val vN ≤ Z.length)
    (hfuel : Int_val vN ≤ fuel) :
    ∃ (Y' : List β) (Z' : List α) (log : List Event),
      FUN4 p fuel vN X Y = .ok ⟨(X, Y'), log⟩ ∧
      FUN4 r fuel vN Y' Z = .ok ⟨(Y', Z'), log⟩ ∧
      FUN4 (fun x => r (p x)) fuel vN X Z = .ok ⟨(X, Z'), log⟩ ∧
      Z'.length = Z.length ∧
      ((∀ x, r (p x) = x) → ∀ i : Nat, (i : Int) < Int_val vN → Z'[i]? = X[i]?) := by
  obtain ⟨Y', h1, h2, h3⟩ := FUN4_spec p fuel vN X Y hN hX hY hfuel
  obtain ⟨Z', g1, g2, g3⟩ := FUN4_spec r fuel vN Y' Z hN (by omega) hZ hfuel
  obtain ⟨Z'', k1, k2, k3⟩ := FUN4_spec (fun x => r (p x)) fuel vN X Z hN hX hZ hfuel
  have e : Z'' = Z' := by
    apply List.ext_getElem?
    intro i
    rw [k3 i, g3 i, h3 i]
    by_cases hi : (i : Int) < Int_val vN
    · simp only [hi, if_true]
      cases X[i]? <;> rfl
    · simp only [hi, if_false]
  rw [e] at k1
  refine ⟨Y', Z', _, h1, g1, k1, g2, ?_⟩
  intro hr i hi
  rw [g3 i, h3 i]
  simp only [hi, if_true]
  cases X[i]? with
  | none => rfl
  | some x => simp [hr]

theorem FUN4_round_trip_witness :
    ∃ (Y' : List (Int × Int)) (Z' : List Int) (log : List Event),
      FUN4 (fun x : Int => (x, (0 : Int))) 3 3 [3, -1, 4] [(9, 9), (8, 8), (7, 7)] =
        .ok ⟨([3, -1, 4], Y'), log⟩ ∧
      FUN4 (fun c : Int × Int => c.1) 3 3 Y' [0, 0, 0, 5] = .ok ⟨(Y', Z'), log⟩ ∧
      FUN4 (fun x : Int => ((x, (0 : Int)) : Int × Int).1) 3 3 [3, -1, 4] [0, 0, 0, 5] =
        .ok ⟨([3, -1, 4], Z'), log⟩ ∧
      Z'.length = [(0 : Int), 0, 0, 5].length ∧
      ((∀ x : Int, ((x, (0 : Int)) : Int × Int).1 = x) →
        ∀ i : Nat, (i : Int) < Int_val 3 → Z'[i]? = ([3, -1, 4] : List Int)[i]?) :=
  FUN4_round_trip (fun x : Int => (x, (0 : Int))) (fun c : Int × Int => c.1) 3 3
    [3, -1, 4] [(9, 9), (8, 8), (7, 7)] [0, 0, 0, 5]
    (by decide) (by decide) (by decide) (by decide) (by decide)

/-- Base dispatch for a count below `INT_MAX`. `FUN13` runs the one loop of `FUN12`
with the slot that the chain of exact comparisons selects: `MAPFN` iff
`base = c2`, otherwise `MAPFN1` iff `base = c10`, otherwise `MAPFN2` iff
`base = ce`, otherwise `MAPFN3`; its outcome depends on the four slots through the
selected one only, and for a count `0 ≤ N < INT_MAX` the selected slot is applied
once to each of the first `N` elements, in ascending order. -/
theorem FUN13_base_dispatch {α A B K : Type} [DecidableEq K] (c2 c10 ce : K)
    (MAPFN MAPFN1 MAPFN2 MAPFN3 : A → B → α → α) (fuel : Nat) (vN : Int) (base : K)
    (a : A) (b : B) (X : List α) (hN : 0 ≤ Int_val vN) (hmax : Int_val vN < 2147483647)
    (hlen : Int_val vN ≤ X.length) (hfuel : Int_val vN ≤ fuel) :
    (base = c2 → dispatch c2 c10 ce base MAPFN MAPFN1 MAPFN2 MAPFN3 = MAPFN) ∧
    (base ≠ c2 → base = c10 →
      dispatch c2 c10 ce base MAPFN MAPFN1 MAPFN2 MAPFN3 = MAPFN1) ∧
    (base ≠ c2 → base ≠ c10 → base = ce →
      dispatch c2 c10 ce base MAPFN MAPFN1 MAPFN2 MAPFN3 = MAPFN2) ∧
    (base ≠ c2 → base ≠ c10 → base ≠ ce →
      dispatch c2 c10 ce base MAPFN MAPFN1 MAPFN2 MAPFN3 = MAPFN3) ∧
    (∀ n n1 n2 n3 : A → B → α → α,
      dispatch c2 c10 ce base n n1 n2 n3 =
        dispatch c2 c10 ce base MAPFN MAPFN1 MAPFN2 MAPFN3 →
      FUN13 c2 c10 ce n n1 n2 n3 fuel vN base a b X =
        FUN13 c2 c10 ce MAPFN MAPFN1 MAPFN2 MAPFN3 fuel vN base a b X) ∧
    ∃ X' : List α,
      FUN13 c2 c10 ce MAPFN MAPFN1 MAPFN2 MAPFN3 fuel vN base a b X =
        .ok ⟨X', Event.release ::
          ((List.range (Int_val vN).toNat).map fun (i : Nat) => Event.call [(i : Int)])
          ++ [Event.acquire]⟩ ∧
      X'.length = X.length ∧
      (∀ i : Nat, (i : Int) < Int_val vN → X'[i]? =
        (X[i]?).map (dispatch c2 c10 ce base MAPFN MAPFN1 MAPFN2 MAPFN3 a b)) ∧
      (∀ i : Nat, Int_val vN ≤ (i : Int) → X'[i]? = X[i]?) := by
  refine ⟨?_, ?_, ?_, ?_, ?_, ?_⟩
  · intro h; unfold dispatch; rw [if_pos h]
  · intro h h1; unfold dispatch; rw [if_neg h, if_pos h1]
  · intro h h1 h2; unfold dispatch; rw [if_neg h, if_neg h1, if_pos h2]
  · intro h h1 h2; unfold dispatch; rw [if_neg h, if_neg h1, if_neg h2]
  · intro n n1 n2 n3 h
    rw [FUN13_eq_FUN12_dispatch, FUN13_eq_FUN12_dispatch, h]
  · obtain ⟨X', h1, h2, h3⟩ := FUN12_spec
      (dispatch c2 c10 ce base MAPFN MAPFN1 MAPFN2 MAPFN3) fuel vN a b X hN hmax hlen hfuel
    refine ⟨X', ?_, h2, ?_, ?_⟩
    · rw [FUN13_eq_FUN12_dispatch, h1, calls1_zero_eq]
    · intro i hi
      rw [h3 i, if_pos hi]
    · intro i hi
      rw [h3 i, if_neg (by omega)]

theorem FUN13_base_dispatch_witness :
    ∃ X' : List Nat,
      FUN13 (2 : Nat) 10 3 (fun _ _ x => x + 2) (fun _ _ x => x + 10) (fun _ _ x => x + 3)
          (fun (a b x : Nat) => a + b + x) 2 2 10 5 6 [1, 2, 3] =
        .ok ⟨X', Event.release ::
          ((List.range (Int_val 2).toNat).map fun (i : Nat) => Event.call [(i : Int)])
          ++ [Event.acquire]⟩ ∧
      X'.length = [1, 2, 3].length ∧
      (∀ i : Nat, (i : Int) < Int_val 2 → X'[i]? =
        (([1, 2, 3] : List Nat)[i]?).map
          (dispatch (2 : Nat) 10 3 10 (fun _ _ x => x + 2) (fun _ _ x => x + 10)
            (fun _ _ x => x + 3) (fun (a b x : Nat) => a + b + x) 5 6)) ∧
      (∀ i : Nat, Int_val 2 ≤ (i : Int) → X'[i]? = ([1, 2, 3] : List Nat)[i]?) :=
  (FUN13_base_dispatch (2 : Nat) 10 3 (fun _ _ x => x + 2) (fun _ _ x => x + 10)
    (fun _ _ x => x + 3) (fun (a b x : Nat) => a + b + x) 2 2 10 5 6 [1, 2, 3]
    (by decide) (by decide) (by decide) (by decide)).2.2.2.2.2

/-- C11 at `N = INT_MAX`: in each of its four branches (base `2`, base `10`, base
`e`, any other base) `FUN13` applies the selected slot beyond the `N`-th element:
on a buffer of `2147483647` elements the call does not return, for any fuel,
because the condition `i <= N` holds for every value of the `int` counter. With a
small count the same dispatch returns, the base-`10` slot being applied once to
each of the first `N` elements. -/
theorem FUN13_INT_MAX_never_returns :
    (∀ (fuel : Nat) (r : St (List Int)),
      FUN13 (2 : Nat) 10 3 (fun (_ _ x : Int) => x + 2) (fun _ _ x => x + 10)
        (fun _ _ x => x + 3) (fun a b x => a + b + x) fuel 2147483647 2 5 6
        (List.replicate 2147483647 0) ≠ .ok r) ∧
    (∀ (fuel : Nat) (r : St (List Int)),
      FUN13 (2 : Nat) 10 3 (fun (_ _ x : Int) => x + 2) (fun _ _ x => x + 10)
        (fun _ _ x => x + 3) (fun a b x => a + b + x) fuel 2147483647 10 5 6
        (List.replicate 2147483647 0) ≠ .ok r) ∧
    (∀ (fuel : Nat) (r : St (List Int)),
      FUN13 (2 : Nat) 10 3 (fun (_ _ x : Int) => x + 2) (fun _ _ x => x + 10)
        (fun _ _ x => x + 3) (fun a b x => a + b + x) fuel 2147483647 3 5 6
        (List.replicate 2147483647 0) ≠ .ok r) ∧
    (∀ (fuel : Nat) (r : St (List Int)),
      FUN13 (2 : Nat) 10 3 (fun (_ _ x : Int) => x + 2) (fun _ _ x => x + 10)
        (fun _ _ x => x + 3) (fun a b x => a + b + x) fuel 2147483647 7 5 6
        (List.replicate 2147483647 0) ≠ .ok r) ∧
    FUN13 (2 : Nat) 10 3 (fun (_ _ x : Int) => x + 2) (fun _ _ x => x + 10)
        (fun _ _ x => x + 3) (fun a b x => a + b + x) 2 2 10 5 6 [1, 2, 3] =
      .ok ⟨[11, 12, 3], [Event.release, Event.call [0], Event.call [1], Event.acquire]⟩ := by
  have hv : Int_val 2147483647 = 2147483647 := by decide
  refine ⟨?_, ?_, ?_, ?_, by decide⟩ <;>
  · intro fuel r h
    rw [FUN13_eq_FUN12] at h
    exact FUN12_INT_MAX _ fuel 2147483647 5 6 _ hv r h

/-- C12: a base equal to the constant `e` as a `double` (the literal's value
rounded to 53 bits) is compared with the `long double` literal. Where `long double`
has a 64-bit (x87) or 113-bit (binary128) significand the two values differ, the
test `base == 2.7182818284590452353602874713526625L` fails and `FUN13` runs the
general slot `MAPFN3`, not the base-`e` slot `MAPFN2`. -/
theorem FUN13_base_e_takes_general_slot {α A B : Type}
    (MAPFN MAPFN1 MAPFN2 MAPFN3 : A → B → α → α) (fuel : Nat) (vN : Int)
    (a : A) (b : B) (X : List α) :
    round_to_bits 53 e_literal ≠ round_to_bits 64 e_literal ∧
    round_to_bits 53 e_literal ≠ round_to_bits 113 e_literal ∧
    FUN13 (2 : ℚ) 10 (round_to_bits 64 e_literal) MAPFN MAPFN1 MAPFN2 MAPFN3 fuel vN
        (round_to_bits 53 e_literal) a b X = FUN12 MAPFN3 fuel vN a b X ∧
    FUN13 (2 : ℚ) 10 (round_to_bits 113 e_literal) MAPFN MAPFN1 MAPFN2 MAPFN3 fuel vN
        (round_to_bits 53 e_literal) a b X = FUN12 MAPFN3 fuel vN a b X := by
  have h2 : round_to_bits 53 e_literal ≠ 2 := by rw [round_53_e_literal]; norm_num
  have h10 : round_to_bits 53 e_literal ≠ 10 := by rw [round_53_e_literal]; norm_num
  have h64 : round_to_bits 53 e_literal ≠ round_to_bits 64 e_literal := by
    rw [round_53_e_literal, round_64_e_literal]; norm_num
  have h113 : round_to_bits 53 e_literal ≠ round_to_bits 113 e_literal := by
    rw [round_53_e_literal, round_113_e_literal]; norm_num
  refine ⟨h64, h113, ?_, ?_⟩
  · rw [FUN13_eq_FUN12, if_neg h2, if_neg h10, if_neg h64]
  · rw [FUN13_eq_FUN12, if_neg h2, if_neg h10, if_neg h113]

/-- C13 at `N = INT_MAX`: on a buffer of `2147483647` elements the counter loop of
`FUN12` does not return, for any fuel (its condition `i <= N` holds for every value
of the `int` counter), while the pointer loop of `FUN18` returns the mapped
buffer. -/
theorem FUN12_INT_MAX_diverges_FUN18_returns :
    (∀ (fuel : Nat) (r : St (List Int)),
      FUN12 (fun a b x : Int => a * x + b) fuel 2147483647 2 3
        (List.replicate 2147483647 0) ≠ .ok r) ∧
    ∃ X' : List Int,
      FUN18 (fun a b x : Int => a * x + b) 2147483647 2147483647
        (List.replicate 2147483647 0) 2 3 =
        .ok ⟨X', Event.release :: calls1 0 2147483647 ++ [Event.acquire]⟩ ∧
      X'.length = 2147483647 ∧
      ∀ i : Nat, i < 2147483647 → X'[i]? = some 3 := by
  have hv : Int_val 2147483647 = 2147483647 := by decide
  constructor
  · intro fuel r
    exact FUN12_INT_MAX _ fuel 2147483647 2 3 _ hv r
  · obtain ⟨X', h1, h2, h3⟩ := FUN18_spec (fun a b x : Int => a * x + b) 2147483647
      2147483647 (List.replicate 2147483647 (0 : Int)) 2 3 (by rw [hv]; omega)
      (by rw [hv, List.length_replicate]; norm_num) (by rw [hv]; norm_num)
    have ht : (2147483647 : Int).toNat = 2147483647 := rfl
    rw [hv] at h1 h3
    rw [ht] at h1
    refine ⟨X', h1, ?_, ?_⟩
    · rw [h2, List.length_replicate]
    · intro i hi
      have hi' : (i : Int) < 2147483647 := by omega
      rw [h3 i, if_pos hi', List.getElem?_replicate, if_pos hi]
      rfl

/-- For every count `0 ≤ N < INT_MAX` the scalar kernels `FUN12` and `FUN18` return
the same buffer, `X'[i] = f a b (X[i])` for `i < N` and `X'[i] = X[i]` for
`i ≥ N`. -/
theorem FUN12_eq_FUN18_below_INT_MAX {α A B : Type} (MAPFN : A → B → α → α)
    (fuel : Nat) (vN : Int) (a : A) (b : B) (X : List α) (hN : 0 ≤ Int_val vN)
    (hmax : Int_val vN < 2147483647) (hlen : Int_val vN ≤ X.length)
    (hfuel : Int_val vN ≤ fuel) :
    ∃ r : St (List α),
      FUN12 MAPFN fuel vN a b X = .ok r ∧ FUN18 MAPFN fuel vN X a b = .ok r ∧
      r.mem.length = X.length ∧
      (∀ i : Nat, (i : Int) < Int_val vN → r.mem[i]? = (X[i]?).map (MAPFN a b)) ∧
      (∀ i : Nat, Int_val vN ≤ (i : Int) → r.mem[i]? = X[i]?) := by
  obtain ⟨X1, h1, h2, h3⟩ := FUN12_spec MAPFN fuel vN a b X hN hmax hlen hfuel
  obtain ⟨X2, g1, _, g3⟩ := FUN18_spec MAPFN fuel vN X a b hN hlen hfuel
  have e : X2 = X1 := by
    apply List.ext_getElem?
    intro i
    rw [g3 i, h3 i]
  rw [e] at g1
  refine ⟨_, h1, g1, h2, ?_, ?_⟩
  · intro i hi
    show X1[i]? = _
    rw [h3 i, if_pos hi]
  · intro i hi
    show X1[i]? = _
    rw [h3 i, if_neg (by omega)]

theorem FUN12_eq_FUN18_below_INT_MAX_witness :
    ∃ r : St (List Int),
      FUN12 (fun a b x : Int => a * x + b) 3 3 2 3 [1, 2, 3, 4] = .ok r ∧
      FUN18 (fun a b x : Int => a * x + b) 3 3 [1, 2, 3, 4] 2 3 = .ok r ∧
      r.mem.length = [(1 : Int), 2, 3, 4].length ∧
      (∀ i : Nat, (i : Int) < Int_val 3 →
        r.mem[i]? = (([1, 2, 3, 4] : List Int)[i]?).map ((fun a b x : Int => a * x + b) 2 3)) ∧
      (∀ i : Nat, Int_val 3 ≤ (i : Int) → r.mem[i]? = ([1, 2, 3, 4] : List Int)[i]?) :=
  FUN12_eq_FUN18_below_INT_MAX (fun a b x : Int => a * x + b) 3 3 2 3 [1, 2, 3, 4]
    (by decide) (by decide) (by decide) (by decide)

/-- Lock protocol of every returning call. Whenever a kernel returns (`FUN3`,
`FUN4`, `FUN12`, `FUN13` for every base, `FUN14`, `FUN15`, `FUN17`, `FUN18`,
`FUN19`, `FUN20`), for every count, its event log is the lock release, then slot
invocations only, then the lock reacquisition. -/
theorem lock_release_boundary {α β γ A B K : Type} [DecidableEq K]
    (f1 : α → α) (f12 : α → β) (g g1 g2 g3 : A → B → α → α) (c2 c10 ce base : K)
    (f2 : α → β → α × β) (f3 : α → β → γ → α × β × γ) (h : A → α → β → α × β)
    (fuel : Nat) (X : List α) (Y : List β) (Z : List γ) (a : A) (b : B)
    (vM vN vOFSX vINCX vOFSY vINCY vINCX_M vINCX_N vINCY_M vINCY_N : Int) :
    (∀ r, FUN3 f1 fuel vN X = .ok r → LockProtocol r.log) ∧
    (∀ r, FUN4 f12 fuel vN X Y = .ok r → LockProtocol r.log) ∧
    (∀ r, FUN12 g fuel vN a b X = .ok r → LockProtocol r.log) ∧
    (∀ r, FUN13 c2 c10 ce g g1 g2 g3 fuel vN base a b X = .ok r → LockProtocol r.log) ∧
    (∀ r, FUN14 f2 fuel vN X Y = .ok r → LockProtocol r.log) ∧
    (∀ r, FUN15 f3 fuel vN X Y Z = .ok r → LockProtocol r.log) ∧
    (∀ r, FUN17 h fuel vN X Y a = .ok r → LockProtocol r.log) ∧
    (∀ r, FUN18 g fuel vN X a b = .ok r → LockProtocol r.log) ∧
    (∀ r, FUN19 f2 fuel vN X vOFSX vINCX Y vOFSY vINCY = .ok r → LockProtocol r.log) ∧
    (∀ r, FUN20 f2 fuel vM vN X vOFSX vINCX_M vINCX_N Y vOFSY vINCY_M vINCY_N = .ok r →
      LockProtocol r.log) :=
  ⟨fun r hr => FUN3_lock f1 fuel vN X r hr,
   fun r hr => FUN4_lock f12 fuel vN X Y r hr,
   fun r hr => FUN12_lock g fuel vN a b X r hr,
   fun r hr => FUN13_lock c2 c10 ce g g1 g2 g3 fuel vN base a b X r hr,
   fun r hr => FUN14_lock f2 fuel vN X Y r hr,
   fun r hr => FUN15_lock f3 fuel vN X Y Z r hr,
   fun r hr => FUN17_lock h fuel vN X Y a r hr,
   fun r hr => FUN18_lock g fuel vN X a b r hr,
   fun r hr => FUN19_lock f2 fuel vN X vOFSX vINCX Y vOFSY vINCY r hr,
   fun r hr => FUN20_lock f2 fuel vM vN X vOFSX vINCX_M vINCX_N Y vOFSY vINCY_M vINCY_N
     r hr⟩

/-- Lock protocol with termination. For a count `0 ≤ N < INT_MAX`, buffers that
hold at least `N` elements, strided positions inside the buffers and fuel for the
loops, every kernel returns and its event log is the lock release, then slot
invocations only, then the lock reacquisition. -/
theorem lock_release_boundary_total {α β γ A B K : Type} [DecidableEq K]
    (f1 : α → α) (f12 : α → β) (g g1 g2 g3 : A → B → α → α) (c2 c10 ce base : K)
    (f2 : α → β → α × β) (f3 : α → β → γ → α × β × γ) (h : A → α → β → α × β)
    (fuel : Nat) (X : List α) (Y : List β) (Z : List γ) (a : A) (b : B)
    (vM vN vOFSX vINCX vOFSY vINCY vINCX_M vINCX_N vINCY_M vINCY_N : Int)
    (hN : 0 ≤ Int_val vN) (hmax : Int_val vN < 2147483647)
    (hfuel : Int_val vN ≤ fuel) (hfuelM : Int_val vM ≤ fuel)
    (hX : Int_val vN ≤ X.length) (hY : Int_val vN ≤ Y.length) (hZ : Int_val vN ≤ Z.length)
    (hb19 : ∀ i : Nat, (i : Int) < Int_val vN →
      (0 ≤ Int_val vOFSX + (i : Int) * Int_val vINCX ∧
        Int_val vOFSX + (i : Int) * Int_val vINCX < X.length) ∧
      (0 ≤ Int_val vOFSY + (i : Int) * Int_val vINCY ∧
        Int_val vOFSY + (i : Int) * Int_val vINCY < Y.length))
    (hb20 : ∀ i j : Nat, (i : Int) < Int_val vM → (j : Int) < Int_val vN →
      (0 ≤ Int_val vOFSX + (i : Int) * Int_val vINCX_M + (j : Int) * Int_val vINCX_N ∧
        Int_val vOFSX + (i : Int) * Int_val vINCX_M + (j : Int) * Int_val vINCX_N
          < X.length) ∧
      (0 ≤ Int_val vOFSY + (i : Int) * Int_val vINCY_M + (j : Int) * Int_val vINCY_N ∧
        Int_val vOFSY + (i : Int) * Int_val vINCY_M + (j : Int) * Int_val vINCY_N
          < Y.length)) :
    (∃ r, FUN3 f1 fuel vN X = .ok r ∧ LockProtocol r.log) ∧
    (∃ r, FUN4 f12 fuel vN X Y = .ok r ∧ LockProtocol r.log) ∧
    (∃ r, FUN12 g fuel vN a b X = .ok r ∧ LockProtocol r.log) ∧
    (∃ r, FUN13 c2 c10 ce g g1 g2 g3 fuel vN base a b X = .ok r ∧ LockProtocol r.log) ∧
    (∃ r, FUN14 f2 fuel vN X Y = .ok r ∧ LockProtocol r.log) ∧
    (∃ r, FUN15 f3 fuel vN X Y Z = .ok r ∧ LockProtocol r.log) ∧
    (∃ r, FUN17 h fuel vN X Y a = .ok r ∧ LockProtocol r.log) ∧
    (∃ r, FUN18 g fuel vN X a b = .ok r ∧ LockProtocol r.log) ∧
    (∃ r, FUN19 f2 fuel vN X vOFSX vINCX Y vOFSY vINCY = .ok r ∧ LockProtocol r.log) ∧
    (∃ r, FUN20 f2 fuel vM vN X vOFSX vINCX_M vINCX_N Y vOFSY vINCY_M vINCY_N = .ok r ∧
      LockProtocol r.log) := by
  refine ⟨?_, ?_, ?_, ?_, ?_, ?_, ?_, ?_, ?_, ?_⟩
  · obtain ⟨X', h1, _, _⟩ := FUN3_spec f1 fuel vN X hN hX hfuel
    exact ⟨_, h1, FUN3_lock _ _ _ _ _ h1⟩
  · obtain ⟨Y', h1, _, _⟩ := FUN4_spec f12 fuel vN X Y hN hX hY hfuel
    exact ⟨_, h1, FUN4_lock _ _ _ _ _ _ h1⟩
  · obtain ⟨X', h1, _, _⟩ := FUN12_spec g fuel vN a b X hN hmax hX hfuel
    exact ⟨_, h1, FUN12_lock _ _ _ _ _ _ _ h1⟩
  · obtain ⟨X', h1, _, _⟩ := FUN12_spec
      (if base = c2 then g else if base = c10 then g1 else if base = ce then g2 else g3)
      fuel vN a b X hN hmax hX hfuel
    rw [← FUN13_eq_FUN12] at h1
    exact ⟨_, h1, FUN13_lock _ _ _ _ _ _ _ _ _ _ _ _ _ _ h1⟩
  · obtain ⟨st', h1, _⟩ := strided_flat_log f2 (Int_val vN).toNat X Y (by omega) (by omega)
    have e : FUN14 f2 fuel vN X Y = .ok (caml_leave_blocking_section st') := by
      rw [FUN14_eq_strided f2 fuel vN X Y hN hfuel, h1, Outcome.bind_ok]
    exact ⟨_, e, FUN14_lock _ _ _ _ _ _ e⟩
  · obtain ⟨st', h1, _, _, _, _⟩ := ptr3_loop f3 (0 + Int_val vN) (Int_val vN).toNat fuel 0
      X Y Z ([] ++ [Event.release]) (le_refl 0) (by omega) (by omega) (by omega) (by omega)
      (by omega)
    have e : FUN15 f3 fuel vN X Y Z = .ok (caml_leave_blocking_section st') := by
      unfold FUN15
      simp only [caml_enter_blocking_section]
      rw [h1]
      rfl
    exact ⟨_, e, FUN15_lock _ _ _ _ _ _ _ e⟩
  · obtain ⟨st', h1, _⟩ := strided_flat_log (h a) (Int_val vN).toNat X Y (by omega)
      (by omega)
    have e : FUN17 h fuel vN X Y a = .ok (caml_leave_blocking_section st') := by
      rw [FUN17_eq_strided h fuel vN X Y a hN hfuel, h1, Outcome.bind_ok]
    exact ⟨_, e, FUN17_lock _ _ _ _ _ _ _ e⟩
  · obtain ⟨X', h1, _, _⟩ := FUN18_spec g fuel vN X a b hN hX hfuel
    exact ⟨_, h1, FUN18_lock _ _ _ _ _ _ _ h1⟩
  · obtain ⟨st', h1, _, _, _⟩ := strided_ok f2 (Int_val vINCX) (Int_val vINCY)
      (Int_val vN).toNat (Int_val vOFSX) (Int_val vOFSY) ⟨(X, Y), [Event.release]⟩
      (fun j hj => hb19 j (by omega))
    have e : FUN19 f2 fuel vN X vOFSX vINCX Y vOFSY vINCY =
        .ok (caml_leave_blocking_section st') := by
      rw [FUN19_eq_strided f2 fuel vN X _ _ Y _ _ hfuel, h1, Outcome.bind_ok]
    exact ⟨_, e, FUN19_lock _ _ _ _ _ _ _ _ _ _ e⟩
  · obtain ⟨st', h1, _, _, _⟩ := rows_ok f2 (Int_val vINCX_M) (Int_val vINCY_M)
      (Int_val vINCX_N) (Int_val vINCY_N) (Int_val vN).toNat (Int_val vM).toNat
      (Int_val vOFSX) (Int_val vOFSY) ⟨(X, Y), [Event.release]⟩
      (fun i j hi hj => hb20 i j (by omega) (by omega))
    have e : FUN20 f2 fuel vM vN X vOFSX vINCX_M vINCX_N Y vOFSY vINCY_M vINCY_N =
        .ok (caml_leave_blocking_section st') := by
      rw [FUN20_eq_rows f2 fuel vM vN X vOFSX vINCX_M vINCX_N Y vOFSY vINCY_M vINCY_N
        hfuelM hfuel, h1, Outcome.bind_ok]
    exact ⟨_, e, FUN20_lock _ _ _ _ _ _ _ _ _ _ _ _ _ e⟩

/-- C14 at `N = INT_MAX`: `FUN12` and `FUN13` release the lock and do not take it
again. On a buffer of `2147483647` elements the call does not return, for any
fuel (the condition `i <= N` holds for every value of the `int` counter), so
`caml_leave_blocking_section` is never reached; with the count one less, on the
same buffer, `FUN12` returns and its log is the lock release, slot invocations
only, and the lock reacquisition, as it is for the sibling `FUN18` at
`N = INT_MAX`. -/
theorem lock_not_reacquired_at_INT_MAX :
    (∀ (fuel : Nat) (r : St (List Int)),
      FUN12 (fun a b x : Int => a * x + b) fuel 2147483647 2 3
        (List.replicate 2147483647 0) ≠ .ok r) ∧
    (∀ (fuel : Nat) (r : St (List Int)),
      FUN13 (2 : Nat) 10 3 (fun (_ _ x : Int) => x + 2) (fun _ _ x => x + 10)
        (fun _ _ x => x + 3) (fun a b x => a * x + b) fuel 2147483647 10 2 3
        (List.replicate 2147483647 0) ≠ .ok r) ∧
    (∃ r : St (List Int),
      FUN12 (fun a b x : Int => a * x + b) 2147483646 2147483646 2 3
        (List.replicate 2147483647 0) = .ok r ∧ LockProtocol r.log) ∧
    (∃ r : St (List Int),
      FUN18 (fun a b x : Int => a * x + b) 2147483647 2147483647
        (List.replicate 2147483647 0) 2 3 = .ok r ∧ LockProtocol r.log) := by
  have hv : Int_val 2147483647 = 2147483647 := by decide
  have hw : Int_val 2147483646 = 2147483646 := by decide
  refine ⟨?_, ?_, ?_, ?_⟩
  · intro fuel r
    exact FUN12_INT_MAX _ fuel 2147483647 2 3 _ hv r
  · intro fuel r h
    rw [FUN13_eq_FUN12] at h
    exact FUN12_INT_MAX _ fuel 2147483647 2 3 _ hv r h
  · obtain ⟨X', h1, _, _⟩ := FUN12_spec (fun a b x : Int => a * x + b) 2147483646
      2147483646 2 3 (List.replicate 2147483647 (0 : Int)) (by rw [hw]; omega)
      (by rw [hw]; omega) (by rw [hw, List.length_replicate]; norm_num)
      (by rw [hw]; norm_num)
    exact ⟨_, h1, FUN12_lock _ _ _ _ _ _ _ h1⟩
  · obtain ⟨X', h1, _, _⟩ := FUN18_spec (fun a b x : Int => a * x + b) 2147483647
      2147483647 (List.replicate 2147483647 (0 : Int)) 2 3 (by rw [hv]; omega)
      (by rw [hv, List.length_replicate]; norm_num) (by rw [hv]; norm_num)
    exact ⟨_, h1, FUN18_lock _ _ _ _ _ _ _ h1⟩

/-- C15 as stated fails: with `M = N = 2`, offsets `0` and all four increments `1`
the rows of `FUN20` overlap (positions `0, 1, 1, 2`), so with the copy slot it
leaves the fourth destination element unwritten, whereas `FUN14` over the
`M * N = 4` elements writes all four. -/
theorem FUN20_all_ones_ne_FUN14 :
    FUN20 (fun (x : Nat) (_ : Nat) => (x, x)) 4 2 2 [1, 2, 3, 4] 0 1 1 [0, 0, 0, 0] 0 1 1 =
      .ok ⟨([1, 2, 3, 4], [1, 2, 3, 0]),
        [.release, .call [0, 0], .call [1, 1], .call [1, 1], .call [2, 2], .acquire]⟩ ∧
    FUN14 (fun (x : Nat) (_ : Nat) => (x, x)) 4 4 [1, 2, 3, 4] [0, 0, 0, 0] =
      .ok ⟨([1, 2, 3, 4], [1, 2, 3, 4]),
        [.release, .call [0, 0], .call [1, 1], .call [2, 2], .call [3, 3], .acquire]⟩ ∧
    ([1, 2, 3, 0] : List Nat) ≠ [1, 2, 3, 4] := by
  decide

/-- C15, amended: for every slot and counts `M, N ≥ 0`, `FUN20` called with
offsets `0`, inner increments `1` and outer increments `N` (the row length) has the
same outcome as `FUN14` run over `M * N` elements, and both return when the
buffers hold at least `M * N` elements. -/
theorem FUN20_row_major_eq_FUN14 {α β : Type} (MAPFN : α → β → α × β)
    (fuel fuel' : Nat) (vM vN vK : Int) (X : List α) (Y : List β)
    (hM : 0 ≤ Int_val vM) (hN : 0 ≤ Int_val vN)
    (hK : Int_val vK = Int_val vM * Int_val vN)
    (hfuelM : Int_val vM ≤ fuel) (hfuelN : Int_val vN ≤ fuel) (hfuel' : Int_val vK ≤ fuel')
    (hX : Int_val vK ≤ X.length) (hY : Int_val vK ≤ Y.length) :
    ∃ r : St (List α × List β),
      FUN20 MAPFN fuel vM vN X 0 vN 1 Y 0 vN 1 = .ok r ∧
      FUN14 MAPFN fuel' vK X Y = .ok r := by
  have hK0 : 0 ≤ Int_val vK := by rw [hK]; exact mul_nonneg hM hN
  have e1 : Int_val vN = (((Int_val vN).toNat : Nat) : Int) := by omega
  have e2 : (Int_val vM).toNat * (Int_val vN).toNat = (Int_val vK).toNat := by
    have h1 : (((Int_val vM).toNat * (Int_val vN).toNat : Nat) : Int) = Int_val vK := by
      push_cast
      rw [hK]
      congr 1 <;> omega
    omega
  obtain ⟨st', h1, _, _, _⟩ := strided_ok MAPFN 1 1 (Int_val vK).toNat 0 0
    ⟨(X, Y), [Event.release]⟩ (fun j hj => by simp only; omega)
  refine ⟨caml_leave_blocking_section st', ?_, ?_⟩
  · rw [FUN20_eq_rows MAPFN fuel vM vN X 0 vN 1 Y 0 vN 1 hfuelM hfuelN]
    simp only [Int_val_zero, Int_val_one]
    have e3 : rows MAPFN (Int_val vN) (Int_val vN) 1 1 (Int_val vN).toNat (Int_val vM).toNat
        0 0 ⟨(X, Y), [Event.release]⟩ =
        strided MAPFN 1 1 (Int_val vK).toNat 0 0 ⟨(X, Y), [Event.release]⟩ := by
      rw [← e2, ← rows_row_major, ← e1]
    rw [e3, h1, Outcome.bind_ok]
  · rw [FUN14_eq_strided MAPFN fuel' vK X Y hK0 hfuel', h1, Outcome.bind_ok]

theorem FUN20_row_major_eq_FUN14_witness :
    ∃ r : St (List Nat × List Nat),
      FUN20 (fun x _ => (x, x)) 3 2 2 [1, 2, 3, 4] 0 2 1 [0, 0, 0, 0, 9] 0 2 1 = .ok r ∧
      FUN14 (fun x _ => (x, x)) 4 4 [1, 2, 3, 4] [0, 0, 0, 0, 9] = .ok r :=
  FUN20_row_major_eq_FUN14 (fun x _ => (x, x)) 3 4 2 2 4 [1, 2, 3, 4] [0, 0, 0, 0, 9]
    (by decide) (by decide) (by decide) (by decide) (by decide) (by decide) (by decide)
    (by decide)

/-- C16 as stated fails: the host offset `4294967296` into a buffer of `4294967297`
elements is reduced to `0` by the conversion to `int`, so the one invocation of
`FUN19` is at X position `0`, not at the host-supplied `4294967296 + 0 * 1`. -/
theorem FUN19_offset_reduced_mod_2_32 :
    ∃ r : St (List Nat × List Nat),
      FUN19 (fun x y => (x, y)) 1 1 (List.replicate 4294967297 0) 4294967296 1 [0] 0 1 =
        .ok r ∧
      r.log = [Event.release, Event.call [0, 0], Event.acquire] ∧
      r.log ≠ [Event.release, Event.call [4294967296 + 0 * 1, 0 + 0 * 1], Event.acquire] := by
  have h0 : Int_val 4294967296 = 0 := by decide
  have h1 : (1 : Int).toNat = 1 := rfl
  obtain ⟨st', g1, g2, _, _⟩ := strided_ok (fun (x y : Nat) => (x, y)) 1 1 1 0 0
    ⟨(List.replicate 4294967297 0, [0]), [Event.release]⟩ (fun j hj => by
      simp only [List.length_replicate, List.length_cons, List.length_nil]
      omega)
  have hc : calls2 0 0 1 1 1 = [Event.call [0, 0]] := by decide
  have hlog : (caml_leave_blocking_section st').log =
      [Event.release, Event.call [0, 0], Event.acquire] := by
    simp only [caml_leave_blocking_section, g2, hc]
    rfl
  refine ⟨caml_leave_blocking_section st', ?_, hlog, ?_⟩
  · rw [FUN19_eq_strided _ 1 1 _ _ _ _ _ _ (by decide), h0, Int_val_zero, Int_val_one, h1,
      g1, Outcome.bind_ok]
  · rw [hlog]
    decide

/-- C16, amended: for a count, offsets and increments that lie in the range of a C
`int` (positive, zero or negative) and positions inside the buffers, `FUN19`
returns and its `i`-th invocation is at the exact integers `ofsx + i * incx` and
`ofsy + i * incy` of the host-supplied values. -/
theorem FUN19_positions_exact {α β : Type} (MAPFN : α → β → α × β) (fuel : Nat)
    (vN : Int) (X : List α) (vOFSX vINCX : Int) (Y : List β) (vOFSY vINCY : Int)
    (rN : -2147483648 ≤ vN ∧ vN < 2147483648)
    (rOX : -2147483648 ≤ vOFSX ∧ vOFSX < 2147483648)
    (rIX : -2147483648 ≤ vINCX ∧ vINCX < 2147483648)
    (rOY : -2147483648 ≤ vOFSY ∧ vOFSY < 2147483648)
    (rIY : -2147483648 ≤ vINCY ∧ vINCY < 2147483648)
    (hfuel : vN ≤ fuel)
    (hb : ∀ i : Nat, (i : Int) < vN →
      (0 ≤ vOFSX + (i : Int) * vINCX ∧ vOFSX + (i : Int) * vINCX < X.length) ∧
      (0 ≤ vOFSY + (i : Int) * vINCY ∧ vOFSY + (i : Int) * vINCY < Y.length)) :
    ∃ r : St (List α × List β),
      FUN19 MAPFN fuel vN X vOFSX vINCX Y vOFSY vINCY = .ok r ∧
      r.log = Event.release ::
        ((List.range vN.toNat).map fun (i : Nat) =>
          Event.call [vOFSX + (i : Int) * vINCX, vOFSY + (i : Int) * vINCY])
        ++ [Event.acquire] := by
  have eN := Int_val_of_range rN.1 rN.2
  have eOX := Int_val_of_range rOX.1 rOX.2
  have eIX := Int_val_of_range rIX.1 rIX.2
  have eOY := Int_val_of_range rOY.1 rOY.2
  have eIY := Int_val_of_range rIY.1 rIY.2
  obtain ⟨st', h1, h2, _, _⟩ := strided_ok MAPFN vINCX vINCY vN.toNat vOFSX vOFSY
    ⟨(X, Y), [Event.release]⟩ (fun j hj => hb j (by omega))
  refine ⟨caml_leave_blocking_section st', ?_, ?_⟩
  · rw [FUN19_eq_strided MAPFN fuel vN X _ _ Y _ _ (by rw [eN]; exact hfuel), eN, eOX, eIX,
      eOY, eIY, h1, Outcome.bind_ok]
  · simp only [caml_leave_blocking_section, h2, calls2]
    rfl

theorem FUN19_positions_exact_witness :
    ∃ r : St (List Nat × List Nat),
      FUN19 (fun x y => (x + y, x)) 3 3 [1, 2, 3, 4, 5] 4 (-2) [7, 8, 9] 1 0 = .ok r ∧
      r.log = Event.release ::
        ((List.range (3 : Int).toNat).map fun (i : Nat) =>
          Event.call [4 + (i : Int) * (-2), 1 + (i : Int) * 0])
        ++ [Event.acquire] :=
  FUN19_positions_exact (fun x y => (x + y, x)) 3 3 [1, 2, 3, 4, 5] 4 (-2) [7, 8, 9] 1 0
    (by decide) (by decide) (by decide) (by decide) (by decide) (by decide)
    (fun i hi => by
      simp only [List.length_cons, List.length_nil]
      omega)

/-- C17: bounds safety of the strided-1D kernel. For `N ≥ 1` and any increments, if
for each buffer the first position `ofs` and the last position `ofs + (N-1)*inc`
lie in `[0, length)`, then every position visited lies in `[0, length)` and
`FUN19` returns (no out-of-range access occurs); the kernel itself validates
nothing: on empty buffers with count `1` it dereferences and faults. -/
theorem FUN19_bounds_safety {α β : Type} (MAPFN : α → β → α × β) (fuel : Nat)
    (vN : Int) (X : List α) (vOFSX vINCX : Int) (Y : List β) (vOFSY vINCY : Int)
    (hN : 1 ≤ Int_val vN) (hfuel : Int_val vN ≤ fuel)
    (hX0 : 0 ≤ Int_val vOFSX ∧ Int_val vOFSX < X.length)
    (hX1 : 0 ≤ Int_val vOFSX + (Int_val vN - 1) * Int_val vINCX ∧
      Int_val vOFSX + (Int_val vN - 1) * Int_val vINCX < X.length)
    (hY0 : 0 ≤ Int_val vOFSY ∧ Int_val vOFSY < Y.length)
    (hY1 : 0 ≤ Int_val vOFSY + (Int_val vN - 1) * Int_val vINCY ∧
      Int_val vOFSY + (Int_val vN - 1) * Int_val vINCY < Y.length) :
    (∀ i : Nat, (i : Int) < Int_val vN →
      (0 ≤ Int_val vOFSX + (i : Int) * Int_val vINCX ∧
        Int_val vOFSX + (i : Int) * Int_val vINCX < X.length) ∧
      (0 ≤ Int_val vOFSY + (i : Int) * Int_val vINCY ∧
        Int_val vOFSY + (i : Int) * Int_val vINCY < Y.length)) ∧
    (∃ r : St (List α × List β),
      FUN19 MAPFN fuel vN X vOFSX vINCX Y vOFSY vINCY = .ok r ∧
      r.log = Event.release ::
        ((List.range (Int_val vN).toNat).map fun (i : Nat) =>
          Event.call [Int_val vOFSX + (i : Int) * Int_val vINCX,
            Int_val vOFSY + (i : Int) * Int_val vINCY])
        ++ [Event.acquire] ∧
      r.mem.1.length = X.length ∧ r.mem.2.length = Y.length) ∧
    FUN19 MAPFN 1 1 [] 0 0 [] 0 0 = .fault := by
  have hb : ∀ i : Nat, (i : Int) < Int_val vN →
      (0 ≤ Int_val vOFSX + (i : Int) * Int_val vINCX ∧
        Int_val vOFSX + (i : Int) * Int_val vINCX < X.length) ∧
      (0 ≤ Int_val vOFSY + (i : Int) * Int_val vINCY ∧
        Int_val vOFSY + (i : Int) * Int_val vINCY < Y.length) := by
    intro i hi
    exact ⟨between_endpoints _ _ _ _ _ hX0.1 hX0.2 hX1.1 hX1.2 (by omega) hi,
      between_endpoints _ _ _ _ _ hY0.1 hY0.2 hY1.1 hY1.2 (by omega) hi⟩
  refine ⟨hb, ?_, ?_⟩
  · obtain ⟨st', h1, h2, h3, h4⟩ := strided_ok MAPFN (Int_val vINCX) (Int_val vINCY)
      (Int_val vN).toNat (Int_val vOFSX) (Int_val vOFSY) ⟨(X, Y), [Event.release]⟩
      (fun j hj => hb j (by omega))
    refine ⟨caml_leave_blocking_section st', ?_, ?_, h3, h4⟩
    · rw [FUN19_eq_strided MAPFN fuel vN X _ _ Y _ _ hfuel, h1, Outcome.bind_ok]
    · simp only [caml_leave_blocking_section, h2, calls2]
      rfl
  · simp [FUN19, FUN19_IMPL, whileFuel, invoke2, rd, caml_enter_blocking_section]

theorem FUN19_bounds_safety_witness :
    (∀ i : Nat, (i : Int) < Int_val 3 →
      (0 ≤ Int_val 4 + (i : Int) * Int_val (-2) ∧
        Int_val 4 + (i : Int) * Int_val (-2) < ([1, 2, 3, 4, 5] : List Nat).length) ∧
      (0 ≤ Int_val 0 + (i : Int) * Int_val 1 ∧
        Int_val 0 + (i : Int) * Int_val 1 < ([7, 8, 9] : List Nat).length)) ∧
    (∃ r : St (List Nat × List Nat),
      FUN19 (fun x y => (x + y, x)) 3 3 [1, 2, 3, 4, 5] 4 (-2) [7, 8, 9] 0 1 = .ok r ∧
      r.log = Event.release ::
        ((List.range (Int_val 3).toNat).map fun (i : Nat) =>
          Event.call [Int_val 4 + (i : Int) * Int_val (-2),
            Int_val 0 + (i : Int) * Int_val 1])
        ++ [Event.acquire] ∧
      r.mem.1.length = [1, 2, 3, 4, 5].length ∧ r.mem.2.length = [7, 8, 9].length) ∧
    FUN19 (fun (x y : Nat) => (x + y, x)) 1 1 [] 0 0 [] 0 0 = .fault :=
  FUN19_bounds_safety (fun x y => (x + y, x)) 3 3 [1, 2, 3, 4, 5] 4 (-2) [7, 8, 9] 0 1
    (by decide) (by decide) (by decide) (by decide) (by decide) (by decide)

/-- C19: termination of the pointer-compared flat loops. For every count `N ≥ 0`
and buffers holding at least `N` elements, each of `FUN3`, `FUN4`, `FUN14`,
`FUN15`, `FUN17`, `FUN18` returns within `N` loop iterations (fuel `N` is enough),
having run its body exactly `N` times with the cursor at `0, 1, .., N-1`. -/
theorem flat_loops_terminate {α β γ A B : Type}
    (f1 : α → α) (f12 : α → β) (f2 : α → β → α × β) (f3 : α → β → γ → α × β × γ)
    (h : A → α → β → α × β) (g : A → B → α → α) (fuel : Nat) (vN : Int)
    (X : List α) (Y : List β) (Z : List γ) (a : A) (b : B)
    (hN : 0 ≤ Int_val vN) (hfuel : Int_val vN ≤ fuel) (hX : Int_val vN ≤ X.length)
    (hY : Int_val vN ≤ Y.length) (hZ : Int_val vN ≤ Z.length) :
    (∃ r, FUN3 f1 fuel vN X = .ok r ∧ r.log = Event.release ::
      ((List.range (Int_val vN).toNat).map fun (i : Nat) => Event.call [(i : Int)])
      ++ [Event.acquire]) ∧
    (∃ r, FUN4 f12 fuel vN X Y = .ok r ∧ r.log = Event.release ::
      ((List.range (Int_val vN).toNat).map fun (i : Nat) =>
        Event.call [(i : Int), (i : Int)]) ++ [Event.acquire]) ∧
    (∃ r, FUN14 f2 fuel vN X Y = .ok r ∧ r.log = Event.release ::
      ((List.range (Int_val vN).toNat).map fun (i : Nat) =>
        Event.call [(i : Int), (i : Int)]) ++ [Event.acquire]) ∧
    (∃ r, FUN15 f3 fuel vN X Y Z = .ok r ∧ r.log = Event.release ::
      ((List.range (Int_val vN).toNat).map fun (i : Nat) =>
        Event.call [(i : Int), (i : Int), (i : Int)]) ++ [Event.acquire]) ∧
    (∃ r, FUN17 h fuel vN X Y a = .ok r ∧ r.log = Event.release ::
      ((List.range (Int_val vN).toNat).map fun (i : Nat) =>
        Event.call [(i : Int), (i : Int)]) ++ [Event.acquire]) ∧
    (∃ r, FUN18 g fuel vN X a b = .ok r ∧ r.log = Event.release ::
      ((List.range (Int_val vN).toNat).map fun (i : Nat) => Event.call [(i : Int)])
      ++ [Event.acquire]) := by
  refine ⟨?_, ?_, ?_, ?_, ?_, ?_⟩
  · obtain ⟨X', h1, _, _⟩ := FUN3_spec f1 fuel vN X hN hX hfuel
    exact ⟨_, h1, by rw [calls1_zero_eq]⟩
  · obtain ⟨Y', h1, _, _⟩ := FUN4_spec f12 fuel vN X Y hN hX hY hfuel
    exact ⟨_, h1, by rw [calls2_flat_eq]⟩
  · obtain ⟨st', h1, h2⟩ := strided_flat_log f2 (Int_val vN).toNat X Y (by omega) (by omega)
    refine ⟨caml_leave_blocking_section st', ?_, h2⟩
    rw [FUN14_eq_strided f2 fuel vN X Y hN hfuel, h1, Outcome.bind_ok]
  · obtain ⟨st', h1, h2, _, _, _⟩ := ptr3_loop f3 (0 + Int_val vN) (Int_val vN).toNat fuel 0
      X Y Z ([] ++ [Event.release]) (le_refl 0) (by omega) (by omega) (by omega) (by omega)
      (by omega)
    refine ⟨caml_leave_blocking_section st', ?_, ?_⟩
    · unfold FUN15
      simp only [caml_enter_blocking_section]
      rw [h1]
      rfl
    · simp [caml_leave_blocking_section, h2, calls3]
  · obtain ⟨st', h1, h2⟩ := strided_flat_log (h a) (Int_val vN).toNat X Y (by omega)
      (by omega)
    refine ⟨caml_leave_blocking_section st', ?_, h2⟩
    rw [FUN17_eq_strided h fuel vN X Y a hN hfuel, h1, Outcome.bind_ok]
  · obtain ⟨X', h1, _, _⟩ := FUN18_spec g fuel vN X a b hN hX hfuel
    exact ⟨_, h1, by rw [calls1_zero_eq]⟩

theorem flat_loops_terminate_witness :
    FUN3 (fun x : Nat => x + 1) 2 2 [1, 2, 3] =
      .ok ⟨[2, 3, 3], [.release, .call [0], .call [1], .acquire]⟩ ∧
    (∃ r, FUN15 (fun (x y _ : Nat) => (x, y, x + y)) 2 2 [1, 2, 3] [4, 5, 6] [0, 0] = .ok r ∧
      r.log = Event.release ::
        ((List.range (Int_val 2).toNat).map fun (i : Nat) =>
          Event.call [(i : Int), (i : Int), (i : Int)]) ++ [Event.acquire]) :=
  ⟨by decide,
   (flat_loops_terminate (fun x : Nat => x + 1) (fun x : Nat => 2 * x)
    (fun (x y : Nat) => (y, x)) (fun (x y _ : Nat) => (x, y, x + y))
    (fun (a x _ : Nat) => (x, a + x)) (fun (a b x : Nat) => a + b * x) 2 2
    [1, 2, 3] [4, 5, 6] [0, 0] 1 2 (by decide) (by decide) (by decide) (by decide)
    (by decide)).2.2.2.1⟩

/-- C20: negative counts are no-ops in the counter-based kernels. For `N < 0`,
`FUN12`, `FUN13` (every base) and `FUN19` return with no slot invocation and the
buffers unchanged, for any fuel; so does `FUN20` when `M ≤ 0` (any fuel), and
when `N ≤ 0` (given fuel for its `M` empty outer iterations), whatever the
offsets and increments. -/
theorem negative_count_noop {α β A B K : Type} [DecidableEq K]
    (g g1 g2 g3 : A → B → α → α) (c2 c10 ce base : K) (f2 : α → β → α × β)
    (fuel fuelM : Nat) (X : List α) (Y : List β) (a : A) (b : B)
    (vN vM0 vN0 vM vN' vOFSX vINCX vOFSY vINCY vINCX_M vINCX_N vINCY_M vINCY_N : Int)
    (hN : Int_val vN < 0) (hM0 : Int_val vM0 ≤ 0) (hN0 : Int_val vN0 ≤ 0)
    (hfuel : Int_val vM ≤ fuelM) :
    FUN12 g fuel vN a b X = .ok ⟨X, [Event.release, Event.acquire]⟩ ∧
    FUN13 c2 c10 ce g g1 g2 g3 fuel vN base a b X =
      .ok ⟨X, [Event.release, Event.acquire]⟩ ∧
    FUN19 f2 fuel vN X vOFSX vINCX Y vOFSY vINCY =
      .ok ⟨(X, Y), [Event.release, Event.acquire]⟩ ∧
    FUN20 f2 fuel vM0 vN' X vOFSX vINCX_M vINCX_N Y vOFSY vINCY_M vINCY_N =
      .ok ⟨(X, Y), [Event.release, Event.acquire]⟩ ∧
    FUN20 f2 fuelM vM vN0 X vOFSX vINCX_M vINCX_N Y vOFSY vINCY_M vINCY_N =
      .ok ⟨(X, Y), [Event.release, Event.acquire]⟩ := by
  have h12 : ∀ m : A → B → α → α,
      FUN12 m fuel vN a b X = .ok ⟨X, [Event.release, Event.acquire]⟩ := by
    intro m
    unfold FUN12
    simp only [caml_enter_blocking_section, List.nil_append]
    rw [whileFuel_false _ _ _ _ (by simpa using (by omega : Int_val vN < 1))]
    rfl
  refine ⟨h12 g, ?_, ?_, ?_, ?_⟩
  · rw [FUN13_eq_FUN12]
    exact h12 _
  · unfold FUN19 FUN19_IMPL
    simp only [caml_enter_blocking_section, List.nil_append]
    rw [whileFuel_false _ _ _ _ (by simpa using (by omega : Int_val vN ≤ 0))]
    rfl
  · unfold FUN20 FUN20_IMPL
    simp only [caml_enter_blocking_section, List.nil_append]
    rw [whileFuel_false _ _ _ _ (by simpa using hM0)]
    rfl
  · rw [FUN20_eq_rows f2 fuelM vM vN0 X vOFSX vINCX_M vINCX_N Y vOFSY vINCY_M vINCY_N hfuel
      (by omega)]
    have e : (Int_val vN0).toNat = 0 := by omega
    rw [e, rows_zero]
    rfl

theorem negative_count_noop_witness :
    FUN12 (fun (a b x : Nat) => a + b * x) 0 (-3) 1 2 [1, 2] =
      .ok ⟨[1, 2], [Event.release, Event.acquire]⟩ ∧
    FUN13 (2 : Nat) 10 3 (fun (a b x : Nat) => a + b * x) (fun _ _ x => x + 10)
        (fun _ _ x => x + 3) (fun _ _ x => x) 0 (-3) 10 1 2 [1, 2] =
      .ok ⟨[1, 2], [Event.release, Event.acquire]⟩ ∧
    FUN19 (fun (x y : Nat) => (y, x)) 0 (-3) [1, 2] 5 (-3) [] (-7) 0 =
      .ok ⟨([1, 2], []), [Event.release, Event.acquire]⟩ ∧
    FUN20 (fun (x y : Nat) => (y, x)) 0 (-1) 4 [1, 2] 5 (-3) 2 [] (-7) 0 9 =
      .ok ⟨([1, 2], []), [Event.release, Event.acquire]⟩ ∧
    FUN20 (fun (x y : Nat) => (y, x)) 2 2 (-5) [1, 2] 5 (-3) 2 [] (-7) 0 9 =
      .ok ⟨([1, 2], []), [Event.release, Event.acquire]⟩ :=
  negative_count_noop (fun (a b x : Nat) => a + b * x) (fun _ _ x => x + 10)
    (fun _ _ x => x + 3) (fun _ _ x => x) (2 : Nat) 10 3 10 (fun (x y : Nat) => (y, x))
    0 2 [1, 2] [] 1 2 (-3) (-1) (-5) 2 4 5 (-3) (-7) 0 (-3) 2 0 9
    (by decide) (by decide) (by decide) (by decide)

/-- C18: transposed projection without a copy. For `M, N ≥ 0`, a row-major
`M`-by-`N` source `X` and a destination `Y`, both of length `M * N`, `FUN20` with
the copy slot, offsets `0`, `incx_m = N`, `incx_n = 1`, `incy_m = 1`, `incy_n = M`
returns with `X` unchanged and `Y'[j*M + i] = X[i*N + j]` for all `i < M`, `j < N`;
its invocations are, for `i` then `j` ascending, at source position `i*N + j` and
destination position `j*M + i`, and every destination position `p < M * N` is the
destination of exactly one index pair. -/
theorem FUN20_transpose {α : Type} (fuel : Nat) (vM vN : Int) (X Y : List α)
    (hM : 0 ≤ Int_val vM) (hN : 0 ≤ Int_val vN)
    (hfuelM : Int_val vM ≤ fuel) (hfuelN : Int_val vN ≤ fuel)
    (hX : (X.length : Int) = Int_val vM * Int_val vN)
    (hY : (Y.length : Int) = Int_val vM * Int_val vN) :
    ∃ Y' : List α,
      FUN20 (fun x _ => (x, x)) fuel vM vN X 0 vN 1 Y 0 1 vM =
        .ok ⟨(X, Y'), Event.release ::
          ((List.range (Int_val vM).toNat).flatMap fun (i : Nat) =>
            (List.range (Int_val vN).toNat).map fun (j : Nat) =>
              Event.call [(i : Int) * Int_val vN + (j : Int),
                (j : Int) * Int_val vM + (i : Int)])
          ++ [Event.acquire]⟩ ∧
      Y'.length = Y.length ∧
      (∀ i j : Nat, (i : Int) < Int_val vM → (j : Int) < Int_val vN →
        Y'[j * (Int_val vM).toNat + i]? = X[i * (Int_val vN).toNat + j]?) ∧
      (∀ p : Nat, p < Y.length →
        ∃! ij : Nat × Nat, (ij.1 : Int) < Int_val vM ∧ (ij.2 : Int) < Int_val vN ∧
          p = ij.2 * (Int_val vM).toNat + ij.1) := by
  generalize hm : (Int_val vM).toNat = m
  generalize hn : (Int_val vN).toNat = n
  have hM' : Int_val vM = (m : Int) := by omega
  have hN' : Int_val vN = (n : Int) := by omega
  have hXn : X.length = m * n := by
    have : (X.length : Int) = ((m * n : Nat) : Int) := by
      push_cast; rw [← hM', ← hN']; exact hX
    exact_mod_cast this
  have hYn : Y.length = m * n := by
    have : (Y.length : Int) = ((m * n : Nat) : Int) := by
      push_cast; rw [← hM', ← hN']; exact hY
    exact_mod_cast this
  have eX : ∀ i j : Nat, (0 : Int) + (i : Int) * Int_val vN + (j : Int) * 1 =
      ((i * n + j : Nat) : Int) := by
    intro i j; push_cast; rw [hN']; ring
  have eY : ∀ i j : Nat, (0 : Int) + (i : Int) * 1 + (j : Int) * Int_val vM =
      ((i + j * m : Nat) : Int) := by
    intro i j; push_cast; rw [hM']; ring
  obtain ⟨Y', h1, h2, h3, _⟩ := rows_map_spec (fun a : α => a) (Int_val vN) 1 1 (Int_val vM)
    n X 0 0 m Y [Event.release] (fun i j hi hj => by
      rw [eX, eY]
      have a1 := index_lt i j m n hi hj
      have a2 := index_lt j i n m hj hi
      have a3 : i + j * m < Y.length := by
        rw [hYn, Nat.mul_comm m n]; omega
      have a4 : i * n + j < X.length := by rw [hXn]; exact a1
      refine ⟨⟨Int.ofNat_nonneg _, ?_⟩, ⟨Int.ofNat_nonneg _, ?_⟩⟩
      · exact_mod_cast a4
      · exact_mod_cast a3)
  have hcalls : calls_rows 0 0 (Int_val vN) 1 1 (Int_val vM) n m =
      (List.range m).flatMap fun (i : Nat) =>
        (List.range n).map fun (j : Nat) =>
          Event.call [(i : Int) * Int_val vN + (j : Int),
            (j : Int) * Int_val vM + (i : Int)] := by
    unfold calls_rows calls2
    congr 1
    funext i
    apply List.map_congr_left
    intro j _
    have e1 : (0 : Int) + (i : Int) * Int_val vN + (j : Int) * 1 =
        (i : Int) * Int_val vN + (j : Int) := by ring
    have e2 : (0 : Int) + (i : Int) * 1 + (j : Int) * Int_val vM =
        (j : Int) * Int_val vM + (i : Int) := by ring
    rw [e1, e2]
  refine ⟨Y', ?_, h2, ?_, ?_⟩
  · rw [FUN20_eq_rows _ fuel vM vN X 0 vN 1 Y 0 1 vM hfuelM hfuelN, Int_val_zero, Int_val_one,
      hm, hn]
    refine (congrArg (fun o => Outcome.bind o _) h1).trans ?_
    simp only [Outcome.bind_ok, caml_leave_blocking_section, hcalls]
    rfl
  · intro i j hi hj
    have hi' : i < m := by omega
    have hj' : j < n := by omega
    have g := h3 i j hi' hj' (fun i' j' hi'' _ hlt heq => by
      rw [eY, eY] at heq
      have heq' : i' + j' * m = i + j * m := by exact_mod_cast heq
      have := transpose_index_inj m i' j' i j hi'' hi' heq'
      omega)
    rw [eX, eY, Int.toNat_ofNat, Int.toNat_ofNat] at g
    rw [Nat.add_comm, g]
    cases X[i * n + j]? <;> rfl
  · intro p hp
    rw [hYn] at hp
    have hm0 : 0 < m := by
      rcases Nat.eq_zero_or_pos m with h0 | h0
      · rw [h0, Nat.zero_mul] at hp; omega
      · exact h0
    refine ⟨(p % m, p / m), ⟨?_, ?_, ?_⟩, ?_⟩
    · have := Nat.mod_lt p hm0
      show ((p % m : Nat) : Int) < Int_val vM
      omega
    · have : p / m < n := (Nat.div_lt_iff_lt_mul hm0).mpr (by rw [Nat.mul_comm n m]; exact hp)
      show ((p / m : Nat) : Int) < Int_val vN
      omega
    · have := Nat.div_add_mod p m
      show p = p / m * m + p % m
      rw [Nat.mul_comm (p / m) m]
      omega
    · rintro ⟨i, j⟩ ⟨hi, hj, hpe⟩
      simp only at hi hj hpe
      have hi' : i < m := by omega
      have h5 : i + j * m = p % m + p / m * m := by
        have := Nat.div_add_mod p m
        rw [Nat.mul_comm (p / m) m]
        omega
      have := transpose_index_inj m i j (p % m) (p / m) hi' (Nat.mod_lt p hm0) h5
      exact Prod.ext this.1 this.2

theorem FUN20_transpose_witness :
    ∃ Y' : List Nat,
      FUN20 (fun x _ => (x, x)) 3 2 3 [1, 2, 3, 4, 5, 6] 0 3 1 [0, 0, 0, 0, 0, 0] 0 1 2 =
        .ok ⟨([1, 2, 3, 4, 5, 6], Y'), Event.release ::
          ((List.range (Int_val 2).toNat).flatMap fun (i : Nat) =>
            (List.range (Int_val 3).toNat).map fun (j : Nat) =>
              Event.call [(i : Int) * Int_val 3 + (j : Int),
                (j : Int) * Int_val 2 + (i : Int)])
          ++ [Event.acquire]⟩ ∧
      Y'.length = [0, 0, 0, 0, 0, 0].length ∧
      (∀ i j : Nat, (i : Int) < Int_val 2 → (j : Int) < Int_val 3 →
        Y'[j * (Int_val 2).toNat + i]? =
          ([1, 2, 3, 4, 5, 6] : List Nat)[i * (Int_val 3).toNat + j]?) ∧
      (∀ p : Nat, p < [0, 0, 0, 0, 0, 0].length →
        ∃! ij : Nat × Nat, (ij.1 : Int) < Int_val 2 ∧ (ij.2 : Int) < Int_val 3 ∧
          p = ij.2 * (Int_val 2).toNat + ij.1) :=
  FUN20_transpose 3 2 3 [1, 2, 3, 4, 5, 6] [0, 0, 0, 0, 0, 0]
    (by decide) (by decide) (by decide) (by decide) (by decide) (by decide)

end Owl
